import Mathlib

/-!
# Verification of the inspire-tree core model

A shallow embedding of the inspire-tree data model and operations
(`src/dom.js`, `src/treenodes.ts`, and the `TreeNode` class), together
with theorems settling the specified properties.

The embedding mirrors the source:
* `DomState` with `applyChanges` / `batch` / `domEnd` embeds the batching
  counter and render gating of `InspireDOM` (`renderNodes` is abstracted
  to a render counter, its DOM diffing being out of the claims' scope).
* `INode` / `Forest` embed `TreeNode` / `TreeNodes`; nodes are addressed
  by paths (lists of child indices) from the root collection, which
  stands in for the `itree.parent` back-references.
-/

/-! ## InspireDOM batching (src/dom.js) -/

/-- The render-relevant state of `InspireDOM`: the `batching` counter
(a JS number, so it may go negative) and a counter of `renderNodes`
invocations standing in for actual DOM rendering. -/
structure DomState where
  batching : Int
  renders : Nat
  deriving DecidableEq, Repr

/-- `InspireDOM.applyChanges`: skip rendering while `batching > 0`,
otherwise call `renderNodes`. -/
def applyChanges (s : DomState) : DomState :=
  if s.batching > 0 then s else ⟨s.batching, s.renders + 1⟩

/-- `InspireDOM.batch`: clamp a negative counter back to 0, then
increment. -/
def batch (s : DomState) : DomState :=
  ⟨(if s.batching < 0 then 0 else s.batching) + 1, s.renders⟩

/-- `InspireDOM.end`: decrement the counter and, exactly when it has
reached 0, invoke `applyChanges`. (`end` is reserved in Lean.) -/
def domEnd (s : DomState) : DomState :=
  if s.batching - 1 = 0 then applyChanges ⟨s.batching - 1, s.renders⟩
  else ⟨s.batching - 1, s.renders⟩

/-- One of the three public batching-related calls. -/
inductive DomCall where
  | batchC
  | endC
  | applyC
  deriving DecidableEq, Repr

/-- Dispatch one call. -/
def runCall (s : DomState) : DomCall → DomState
  | .batchC => batch s
  | .endC => domEnd s
  | .applyC => applyChanges s

/-- Run a sequence of calls, left to right. -/
def runCalls (s : DomState) (cs : List DomCall) : DomState :=
  cs.foldl runCall s

lemma batch_nat (k : Nat) (r : Nat) : batch ⟨(k : Int), r⟩ = ⟨((k + 1 : Nat) : Int), r⟩ := by
  simp only [batch]
  rw [if_neg (by omega)]
  simp only [DomState.mk.injEq]
  exact ⟨by omega, trivial⟩

lemma batch_iter (r : Nat) : ∀ k : Nat, batch^[k] ⟨0, r⟩ = ⟨(k : Int), r⟩ := by
  intro k
  induction k with
  | zero => rfl
  | succ k ih =>
      rw [Function.iterate_succ_apply', ih]
      exact batch_nat k r

lemma domEnd_iter (r : Nat) (N : Nat) :
    ∀ k : Nat, k < N → domEnd^[k] ⟨(N : Int), r⟩ = ⟨((N - k : Nat) : Int), r⟩ := by
  intro k
  induction k with
  | zero => intro _; simp
  | succ k ih =>
      intro hk
      rw [Function.iterate_succ_apply', ih (Nat.lt_of_succ_lt hk)]
      simp only [domEnd]
      rw [if_neg (by omega)]
      simp only [DomState.mk.injEq]
      exact ⟨by omega, trivial⟩

/-- C1. Batch nesting: from `batching = 0`, `N` calls to `batch()`
followed by `N` calls to `end()` render exactly once, at the final
`end()`: no render fires during the batches nor before the last `end()`,
the final state has rendered exactly once more with the counter back at
0, and `applyChanges` while `batching > 0` is a no-op (in particular it
queues nothing). -/
theorem batch_end_renders_once (N r : Nat) (hN : 1 ≤ N) :
    (domEnd^[N] (batch^[N] ⟨0, r⟩) = ⟨0, r + 1⟩) ∧
    (∀ k, k ≤ N → (batch^[k] (⟨0, r⟩ : DomState)).renders = r) ∧
    (∀ k, k < N → (domEnd^[k] (batch^[N] ⟨0, r⟩)).renders = r) ∧
    (∀ s : DomState, 0 < s.batching → applyChanges s = s) := by
  refine ⟨?_, ?_, ?_, ?_⟩
  · rw [batch_iter]
    have hsplit : N = 1 + (N - 1) := by omega
    rw [hsplit, Function.iterate_add_apply,
      domEnd_iter r (1 + (N - 1)) (N - 1) (by omega)]
    have h2 : (1 + (N - 1) - (N - 1) : Nat) = 1 := by omega
    rw [h2]
    simp [domEnd, applyChanges]
  · intro k hk
    rw [batch_iter]
  · intro k hk
    rw [batch_iter, domEnd_iter r N k hk]
  · intro s hs
    simp [applyChanges, hs]

/-- Witness for C1 at `N = 2`, `r = 0`. -/
theorem batch_end_renders_once_witness :
    (domEnd^[2] (batch^[2] ⟨0, 0⟩) = ⟨0, 1⟩) ∧
    (∀ k, k ≤ 2 → (batch^[k] (⟨0, 0⟩ : DomState)).renders = 0) ∧
    (∀ k, k < 2 → (domEnd^[k] (batch^[2] ⟨0, 0⟩)).renders = 0) ∧
    (∀ s : DomState, 0 < s.batching → applyChanges s = s) :=
  batch_end_renders_once 2 0 (by decide)

/-- C8 counterexample: a single unmatched `end()` call from the initial
state drives the `batching` counter to `-1`, which is negative — `end()`
does not clamp, only `batch()` does. -/
theorem batching_goes_negative_on_unmatched_end :
    (runCalls ⟨0, 0⟩ [DomCall.endC]).batching = -1 ∧ ((-1 : Int) < 0) := by
  constructor
  · rfl
  · decide

/-- Number of `batch()` calls in a sequence. -/
def countBatch (cs : List DomCall) : Nat :=
  cs.countP (fun c => c = DomCall.batchC)

/-- Number of `end()` calls in a sequence. -/
def countEnd (cs : List DomCall) : Nat :=
  cs.countP (fun c => c = DomCall.endC)

lemma cons_pref_of_pref {c : DomCall} {p rest : List DomCall} (h : p <+: rest) :
    (c :: p) <+: (c :: rest) := by
  obtain ⟨t, ht⟩ := h
  exact ⟨t, by rw [List.cons_append, ht]⟩

lemma domEnd_nat (k r : Nat) (hk : 1 ≤ k) :
    ∃ r2 : Nat, domEnd ⟨(k : Int), r⟩ = ⟨((k - 1 : Nat) : Int), r2⟩ := by
  by_cases h1 : k = 1
  · subst h1
    exact ⟨r + 1, by simp [domEnd, applyChanges]⟩
  · refine ⟨r, ?_⟩
    simp only [domEnd]
    rw [if_neg (by omega)]
    simp only [DomState.mk.injEq]
    exact ⟨by omega, trivial⟩

lemma countBatch_cons (c : DomCall) (cs : List DomCall) :
    countBatch (c :: cs) = (if c = DomCall.batchC then 1 else 0) + countBatch cs := by
  simp [countBatch, List.countP_cons]
  cases c <;> simp [Nat.add_comm]

lemma countEnd_cons (c : DomCall) (cs : List DomCall) :
    countEnd (c :: cs) = (if c = DomCall.endC then 1 else 0) + countEnd cs := by
  simp [countEnd, List.countP_cons]
  cases c <;> simp [Nat.add_comm]

lemma runCalls_batching_balanced (cs : List DomCall) :
    ∀ (k r : Nat),
      (∀ p, p <+: cs → countEnd p ≤ k + countBatch p) →
      ∃ r' : Nat, runCalls ⟨(k : Int), r⟩ cs =
        ⟨((k + countBatch cs - countEnd cs : Nat) : Int), r'⟩ := by
  induction cs with
  | nil =>
      intro k r _
      exact ⟨r, by simp [runCalls, countBatch, countEnd]⟩
  | cons c rest ih =>
      intro k r hpre
      cases c with
      | batchC =>
          obtain ⟨r', hr'⟩ := ih (k + 1) r (by
            intro p hp
            have := hpre (DomCall.batchC :: p) (cons_pref_of_pref hp)
            rw [countEnd_cons, countBatch_cons] at this
            simp at this
            omega)
          refine ⟨r', ?_⟩
          show runCalls (runCall ⟨(k : Int), r⟩ DomCall.batchC) rest = _
          have hstep : runCall ⟨(k : Int), r⟩ DomCall.batchC = ⟨((k + 1 : Nat) : Int), r⟩ :=
            batch_nat k r
          rw [hstep, hr', countEnd_cons, countBatch_cons]
          simp only [DomState.mk.injEq]
          constructor
          · have hp := hpre (DomCall.batchC :: rest) (List.prefix_refl _)
            rw [countEnd_cons, countBatch_cons] at hp
            simp at hp ⊢
            omega
          · trivial
      | endC =>
          have hk1 : 1 ≤ k := by
            have := hpre [DomCall.endC] ⟨rest, rfl⟩
            simpa [countEnd, countBatch] using this
          obtain ⟨r2, hr2⟩ := domEnd_nat k r hk1
          obtain ⟨r', hr'⟩ := ih (k - 1) r2 (by
            intro p hp
            have := hpre (DomCall.endC :: p) (cons_pref_of_pref hp)
            rw [countEnd_cons, countBatch_cons] at this
            simp at this
            omega)
          refine ⟨r', ?_⟩
          show runCalls (runCall ⟨(k : Int), r⟩ DomCall.endC) rest = _
          have hstep : runCall ⟨(k : Int), r⟩ DomCall.endC = ⟨((k - 1 : Nat) : Int), r2⟩ := hr2
          rw [hstep, hr', countEnd_cons, countBatch_cons]
          simp only [DomState.mk.injEq]
          constructor
          · simp
            omega
          · trivial
      | applyC =>
          have hstep : ∃ r2 : Nat, runCall ⟨(k : Int), r⟩ DomCall.applyC = ⟨(k : Int), r2⟩ := by
            simp only [runCall, applyChanges]
            by_cases hk : (0 : Int) < (k : Int)
            · exact ⟨r, by rw [if_pos hk]⟩
            · exact ⟨r + 1, by rw [if_neg hk]⟩
          obtain ⟨r2, hr2⟩ := hstep
          obtain ⟨r', hr'⟩ := ih k r2 (by
            intro p hp
            have := hpre (DomCall.applyC :: p) (cons_pref_of_pref hp)
            rw [countEnd_cons, countBatch_cons] at this
            simp at this
            omega)
          refine ⟨r', ?_⟩
          show runCalls (runCall ⟨(k : Int), r⟩ DomCall.applyC) rest = _
          rw [hr2, hr', countEnd_cons, countBatch_cons]
          simp

/-- C8 amended: starting from the initial counter 0, after any sequence
of `batch()`, `end()` and `applyChanges()` calls in which no prefix
contains more `end()` than `batch()` calls, the `batching` counter is
non-negative (an unmatched `end()`, by contrast, drives it to `-1`). -/
theorem batching_nonneg_balanced (cs : List DomCall)
    (h : ∀ p, p <+: cs → countEnd p ≤ countBatch p) :
    0 ≤ (runCalls ⟨0, 0⟩ cs).batching := by
  obtain ⟨r', hr'⟩ := runCalls_batching_balanced cs 0 0 (by
    intro p hp
    simpa using h p hp)
  have h0 : ((0 : Nat) : Int) = (0 : Int) := rfl
  rw [show (⟨0, 0⟩ : DomState) = ⟨((0 : Nat) : Int), 0⟩ from rfl, hr']
  exact Int.natCast_nonneg _

/-- Witness for C8 amended at the sequence `[batch, end, batch, batch, end, end]`. -/
theorem batching_nonneg_balanced_witness :
    0 ≤ (runCalls ⟨0, 0⟩
      [DomCall.batchC, DomCall.endC, DomCall.batchC, DomCall.batchC,
       DomCall.endC, DomCall.endC]).batching :=
  batching_nonneg_balanced _ (by
    intro p hp
    have hmem : p ∈ List.inits
        [DomCall.batchC, DomCall.endC, DomCall.batchC, DomCall.batchC,
         DomCall.endC, DomCall.endC] := (List.mem_inits _ _).mpr hp
    fin_cases hmem <;> decide)

/-! ## The TreeNode model -/

/-- A tree node (`TreeNode`). The `children` field is `none` for a
plain leaf (no usable children value), `some none` for the unloaded
sentinel (the literal `true` in the source), and `some (some l)` for a
concrete `TreeNodes` collection. `state` embeds the `itree.state` JS
object as an association list (an absent key reads as `undefined`),
`dirty` embeds `itree.dirty`. -/
inductive INode : Type where
  | mk (id : String) (text : String) (state : List (String × Bool))
       (dirty : Bool) (children : Option (Option (List INode)))
  deriving Repr

/-- Node id. -/
def INode.id : INode → String
  | .mk i _ _ _ _ => i

/-- Node display text. -/
def INode.text : INode → String
  | .mk _ t _ _ _ => t

/-- The `itree.state` flag object. -/
def INode.state : INode → List (String × Bool)
  | .mk _ _ s _ _ => s

/-- The `itree.dirty` flag. -/
def INode.dirty : INode → Bool
  | .mk _ _ _ d _ => d

/-- The raw `children` field. -/
def INode.children : INode → Option (Option (List INode))
  | .mk _ _ _ _ c => c

/-- The concrete child collection, when `children` is array-like. -/
def INode.childList (n : INode) : Option (List INode) :=
  n.children.bind (fun x => x)

/-- Raw read of `itree.state[name]`: `none` is JS `undefined`. -/
def INode.stateRaw (n : INode) (name : String) : Option Bool :=
  n.state.lookup name

/-- Boolean read of a state flag as used in guards (`undefined` is
falsy), i.e. the value `node.state(name)` yields to boolean contexts. -/
def INode.stateB (n : INode) (name : String) : Bool :=
  (n.stateRaw name).getD false

/-- `TreeNode.hasChildren`: array-like children with positive length. -/
def INode.hasChildren (n : INode) : Bool :=
  match n.childList with
  | some l => decide (0 < l.length)
  | none => false

/-- Assignment `itree.state[name] = v` on the flag object. -/
def setFlag (name : String) (v : Bool) : List (String × Bool) → List (String × Bool)
  | [] => [(name, v)]
  | (k, w) :: rest => if k = name then (k, v) :: rest else (k, w) :: setFlag name v rest

/-- Update a node's flag object in place. -/
def INode.setFlagN (name : String) (v : Bool) : INode → INode
  | .mk i t s d c => .mk i t (setFlag name v s) d c

/-- Set `itree.dirty = true` on a node. -/
def INode.setDirty : INode → INode
  | .mk i t s _ c => .mk i t s true c

/-- The root collection of a tree (`tree.model`). -/
abbrev Forest := List INode

/-- An address of a node: the child indices from the root collection. -/
abbrev NPath := List Nat

/-- Look a node up by path. -/
def getNode : Forest → NPath → Option INode
  | _, [] => none
  | f, [i] => f[i]?
  | f, i :: j :: rest =>
    match f[i]? with
    | some n =>
      match n.childList with
      | some l => getNode l (j :: rest)
      | none => none
    | none => none

/-- Apply `g` to the element at index `i` (no-op when out of range). -/
def modifyList (g : INode → INode) : List INode → Nat → List INode
  | [], _ => []
  | n :: rest, 0 => g n :: rest
  | n :: rest, i + 1 => n :: modifyList g rest i

/-- Map `g` over a loaded child collection, identity otherwise. -/
def INode.withChildList (h : List INode → List INode) : INode → INode
  | .mk i t s d (some (some l)) => .mk i t s d (some (some (h l)))
  | n => n

/-- Apply `g` to the node at path `p` (no-op on an invalid path). -/
def updateAt : Forest → NPath → (INode → INode) → Forest
  | f, [], _ => f
  | f, [i], g => modifyList g f i
  | f, i :: j :: rest, g =>
      modifyList (INode.withChildList (fun l => updateAt l (j :: rest) g)) f i

/-- The path of `itree.parent`, when the node has one. A length-one
path is a root-collection node, whose `itree.parent` is unset. -/
def parentPath : NPath → Option NPath
  | [] => none
  | [_] => none
  | p => some p.dropLast

/-! ### Frame lemmas for path updates -/

lemma modifyList_getElem? (g : INode → INode) :
    ∀ (f : List INode) (i k : Nat),
      (modifyList g f i)[k]? = if k = i then f[i]?.map g else f[k]? := by
  intro f
  induction f with
  | nil => intro i k; simp [modifyList]
  | cons n rest ih =>
      intro i k
      cases i with
      | zero =>
          cases k with
          | zero => simp [modifyList]
          | succ k => simp [modifyList]
      | succ i =>
          cases k with
          | zero => simp [modifyList]
          | succ k =>
              simp only [modifyList, List.getElem?_cons_succ]
              rw [ih i k]
              by_cases h : k = i
              · subst h; simp
              · simp [h]

lemma modifyList_length (g : INode → INode) :
    ∀ (f : List INode) (i : Nat), (modifyList g f i).length = f.length := by
  intro f
  induction f with
  | nil => intro i; rfl
  | cons n rest ih =>
      intro i
      cases i with
      | zero => rfl
      | succ i => simp [modifyList, ih]

lemma updateAt_length (g : INode → INode) (f : Forest) (p : NPath) :
    (updateAt f p g).length = f.length := by
  match p with
  | [] => rfl
  | [i] => exact modifyList_length g f i
  | i :: j :: rest => exact modifyList_length _ f i

/-- The render-free observable part of a node: identity, label, flag
object, dirty bit. -/
def INode.core (n : INode) : String × String × List (String × Bool) × Bool :=
  (n.id, n.text, n.state, n.dirty)

/-- The shape of the `children` field: which of the three variants it
is, and the collection length when concrete. -/
def INode.childShape (n : INode) : Option (Option Nat) :=
  n.children.map (Option.map List.length)

lemma core_withChildList (h : List INode → List INode) (n : INode) :
    (n.withChildList h).core = n.core := by
  cases n with
  | mk i t s d c =>
      cases c with
      | none => rfl
      | some c2 => cases c2 <;> rfl

lemma childList_withChildList (h : List INode → List INode) (n : INode) :
    (n.withChildList h).childList = n.childList.map h := by
  cases n with
  | mk i t s d c =>
      cases c with
      | none => rfl
      | some c2 => cases c2 <;> rfl

lemma childShape_withChildList (h : List INode → List INode)
    (hlen : ∀ l, (h l).length = l.length) (n : INode) :
    (n.withChildList h).childShape = n.childShape := by
  cases n with
  | mk i t s d c =>
      cases c with
      | none => rfl
      | some c2 =>
          cases c2 with
          | none => rfl
          | some l => simp [INode.withChildList, INode.childShape, INode.children, hlen]

lemma childList_of_children_eq {n m : INode} (h : n.children = m.children) :
    n.childList = m.childList := by
  simp [INode.childList, h]

lemma childShape_of_children_eq {n m : INode} (h : n.children = m.children) :
    n.childShape = m.childShape := by
  simp [INode.childShape, h]

lemma coreAt_updateAt (g : INode → INode) (hg : ∀ n, (g n).children = n.children) :
    ∀ (p : NPath) (f : Forest) (q : NPath),
      (getNode (updateAt f p g) q).map INode.core =
        if q = p then (getNode f q).map (fun n => (g n).core)
        else (getNode f q).map INode.core := by
  intro p
  induction p with
  | nil =>
      intro f q
      rw [updateAt]
      cases q with
      | nil => simp [getNode]
      | cons k q' => simp
  | cons i p' ih =>
      intro f q
      cases p' with
      | nil =>
          cases q with
          | nil => simp [getNode]
          | cons k q' =>
              cases q' with
              | nil =>
                  rw [updateAt]
                  show ((modifyList g f i)[k]?.map INode.core) = _
                  rw [modifyList_getElem?]
                  by_cases h : k = i
                  · subst h
                    simp [getNode, Option.map_map]
                    rfl
                  · simp [getNode, h]
              | cons k2 qr =>
                  rw [updateAt]
                  have hne : (k :: k2 :: qr) ≠ ([i] : NPath) := by simp
                  rw [if_neg hne]
                  show (getNode (modifyList g f i) (k :: k2 :: qr)).map INode.core = _
                  rw [getNode, getNode, modifyList_getElem?]
                  by_cases h : k = i
                  · subst h
                    rw [if_pos rfl]
                    cases hfi : f[k]? with
                    | none => simp
                    | some n =>
                        simp only [Option.map_some']
                        rw [childList_of_children_eq (hg n)]
                  · simp [h]
      | cons j rest =>
          cases q with
          | nil => simp [getNode]
          | cons k q' =>
              cases q' with
              | nil =>
                  rw [updateAt]
                  have hne : ([k] : NPath) ≠ i :: j :: rest := by simp
                  rw [if_neg hne]
                  show ((modifyList _ f i)[k]?.map INode.core) = _
                  rw [modifyList_getElem?]
                  by_cases h : k = i
                  · subst h
                    cases hfi : f[k]? with
                    | none => simp [getNode, hfi]
                    | some n =>
                        simp only [Option.map_some', Option.map_map, getNode, hfi]
                        simp [core_withChildList]
                  · simp [getNode, h]
              | cons k2 qr =>
                  rw [updateAt]
                  show (getNode (modifyList _ f i) (k :: k2 :: qr)).map INode.core = _
                  rw [getNode, getNode, modifyList_getElem?]
                  by_cases h : k = i
                  · subst h
                    rw [if_pos rfl]
                    cases hfi : f[k]? with
                    | none => simp
                    | some n =>
                        simp only [Option.map_some']
                        rw [childList_withChildList]
                        cases hcl : n.childList with
                        | none => simp
                        | some l =>
                            simp only [Option.map_some']
                            rw [ih l (k2 :: qr)]
                            by_cases h2 : (k2 :: qr) = (j :: rest)
                            · rw [if_pos h2, if_pos (by rw [h2])]
                            · rw [if_neg h2, if_neg (by
                                intro hcon
                                apply h2
                                exact (List.cons.injEq _ _ _ _ ▸ hcon).2)]
                  · have hne2 : (k :: k2 :: qr) ≠ (i :: j :: rest) := by
                      intro hcon
                      exact h (List.cons.injEq _ _ _ _ ▸ hcon).1
                    simp [h, hne2]

lemma childShapeAt_updateAt (g : INode → INode) (hg : ∀ n, (g n).children = n.children) :
    ∀ (p : NPath) (f : Forest) (q : NPath),
      (getNode (updateAt f p g) q).map INode.childShape =
        (getNode f q).map INode.childShape := by
  intro p
  induction p with
  | nil => intro f q; rw [updateAt]
  | cons i p' ih =>
      intro f q
      cases p' with
      | nil =>
          cases q with
          | nil => simp [getNode]
          | cons k q' =>
              cases q' with
              | nil =>
                  rw [updateAt]
                  show ((modifyList g f i)[k]?.map INode.childShape) = _
                  rw [modifyList_getElem?]
                  by_cases h : k = i
                  · subst h
                    rw [if_pos rfl]
                    cases hfi : f[k]? with
                    | none => simp [getNode, hfi]
                    | some n =>
                        simp only [Option.map_some']
                        rw [childShape_of_children_eq (hg n)]
                        simp [getNode, hfi]
                  · simp [getNode, h]
              | cons k2 qr =>
                  rw [updateAt]
                  show (getNode (modifyList g f i) (k :: k2 :: qr)).map INode.childShape = _
                  rw [getNode, getNode, modifyList_getElem?]
                  by_cases h : k = i
                  · subst h
                    rw [if_pos rfl]
                    cases hfi : f[k]? with
                    | none => simp
                    | some n =>
                        simp only [Option.map_some']
                        rw [childList_of_children_eq (hg n)]
                  · simp [h]
      | cons j rest =>
          cases q with
          | nil => simp [getNode]
          | cons k q' =>
              cases q' with
              | nil =>
                  rw [updateAt]
                  show ((modifyList _ f i)[k]?.map INode.childShape) = _
                  rw [modifyList_getElem?]
                  by_cases h : k = i
                  · subst h
                    rw [if_pos rfl]
                    cases hfi : f[k]? with
                    | none => simp [getNode, hfi]
                    | some n =>
                        simp only [Option.map_some', getNode, hfi]
                        rw [childShape_withChildList]
                        intro l
                        exact updateAt_length g l (j :: rest)
                  · simp [getNode, h]
              | cons k2 qr =>
                  rw [updateAt]
                  show (getNode (modifyList _ f i) (k :: k2 :: qr)).map INode.childShape = _
                  rw [getNode, getNode, modifyList_getElem?]
                  by_cases h : k = i
                  · subst h
                    rw [if_pos rfl]
                    cases hfi : f[k]? with
                    | none => simp
                    | some n =>
                        simp only [Option.map_some']
                        rw [childList_withChildList]
                        cases hcl : n.childList with
                        | none => simp
                        | some l =>
                            simp only [Option.map_some']
                            exact ih l (k2 :: qr)
                  · simp [h]

/-! ### Observations -/

/-- Everything about the node at `q` except the dirty bit and the
children. -/
def fieldsAt (f : Forest) (q : NPath) : Option (String × String × List (String × Bool)) :=
  (getNode f q).map (fun n => (n.id, n.text, n.state))

/-- The dirty bit of the node at `q`. -/
def dirtyAt (f : Forest) (q : NPath) : Option Bool :=
  (getNode f q).map INode.dirty

/-- The children shape of the node at `q`. -/
def shapeAt (f : Forest) (q : NPath) : Option (Option (Option Nat)) :=
  (getNode f q).map INode.childShape

/-- The raw value of flag `name` at `q`. -/
def flagAt (f : Forest) (q : NPath) (name : String) : Option (Option Bool) :=
  (getNode f q).map (fun n => n.stateRaw name)

/-- The boolean value of flag `name` at `q` (`undefined` is falsy). -/
def flagBAt (f : Forest) (q : NPath) (name : String) : Option Bool :=
  (getNode f q).map (fun n => n.stateB name)

lemma fieldsAt_updateAt (g : INode → INode) (hg : ∀ n, (g n).children = n.children)
    (p : NPath) (f : Forest) (q : NPath) :
    fieldsAt (updateAt f p g) q =
      if q = p then (getNode f q).map (fun n => ((g n).id, (g n).text, (g n).state))
      else fieldsAt f q := by
  have h := congrArg (Option.map
    (fun c : String × String × List (String × Bool) × Bool => (c.1, c.2.1, c.2.2.1)))
    (coreAt_updateAt g hg p f q)
  simp only [Option.map_map, apply_ite (Option.map
    (fun c : String × String × List (String × Bool) × Bool => (c.1, c.2.1, c.2.2.1)))] at h
  exact h

lemma dirtyAt_updateAt (g : INode → INode) (hg : ∀ n, (g n).children = n.children)
    (p : NPath) (f : Forest) (q : NPath) :
    dirtyAt (updateAt f p g) q =
      if q = p then (getNode f q).map (fun n => (g n).dirty)
      else dirtyAt f q := by
  have h := congrArg (Option.map
    (fun c : String × String × List (String × Bool) × Bool => c.2.2.2))
    (coreAt_updateAt g hg p f q)
  simp only [Option.map_map, apply_ite (Option.map
    (fun c : String × String × List (String × Bool) × Bool => c.2.2.2))] at h
  exact h

lemma shapeAt_updateAt (g : INode → INode) (hg : ∀ n, (g n).children = n.children)
    (p : NPath) (f : Forest) (q : NPath) :
    shapeAt (updateAt f p g) q = shapeAt f q :=
  childShapeAt_updateAt g hg p f q

lemma isSome_getNode_updateAt (g : INode → INode) (hg : ∀ n, (g n).children = n.children)
    (p : NPath) (f : Forest) (q : NPath) :
    (getNode (updateAt f p g) q).isSome = (getNode f q).isSome := by
  have h := coreAt_updateAt g hg p f q
  by_cases hqp : q = p
  · rw [if_pos hqp] at h
    have := congrArg Option.isSome h
    simpa using this
  · rw [if_neg hqp] at h
    have := congrArg Option.isSome h
    simpa using this

/-! ### Events and base mutations -/

/-- Notifications emitted on the tree's event bus. -/
inductive Event where
  | stateChanged (id name : String) (oldVal : Option Bool) (newVal : Bool)
  | verb (verb : String) (id : String)
  | childrenLoaded (id : String)
  | loadError
  deriving Repr, DecidableEq

lemma parentPath_length {p q : NPath} (h : parentPath p = some q) :
    q.length < p.length := by
  match p with
  | [] => simp [parentPath] at h
  | [i] => simp [parentPath] at h
  | i :: j :: rest =>
      simp only [parentPath, Option.some.injEq] at h
      subst h
      simp [List.length_dropLast]

/-- `TreeNode.markDirty`: if not already dirty, set the dirty bit and
recurse to the parent. -/
def markDirty (f : Forest) (p : NPath) : Forest :=
  match getNode f p with
  | none => f
  | some n =>
      if n.dirty then f
      else
        match hq : parentPath p with
        | none => updateAt f p INode.setDirty
        | some q => markDirty (updateAt f p INode.setDirty) q
termination_by p.length
decreasing_by exact parentPath_length hq

/-- `TreeNode.state(name, newVal)`, the setter branch: when the raw
stored value differs from the new one, store it, mark the node dirty,
and emit `node.state.changed` with the old and new values; otherwise do
nothing. -/
def stateSet (f : Forest) (p : NPath) (name : String) (v : Bool) : Forest × List Event :=
  match getNode f p with
  | none => (f, [])
  | some n =>
      if n.stateRaw name ≠ some v then
        (markDirty (updateAt f p (INode.setFlagN name v)) p,
         [Event.stateChanged n.id name (n.stateRaw name) v])
      else (f, [])

lemma INode.children_setDirty (n : INode) : n.setDirty.children = n.children := by
  cases n; rfl

lemma INode.dirty_setDirty (n : INode) : n.setDirty.dirty = true := by
  cases n; rfl

lemma INode.id_setDirty (n : INode) : n.setDirty.id = n.id := by cases n; rfl

lemma INode.text_setDirty (n : INode) : n.setDirty.text = n.text := by cases n; rfl

lemma INode.state_setDirty (n : INode) : n.setDirty.state = n.state := by cases n; rfl

lemma INode.children_setFlagN (name : String) (v : Bool) (n : INode) :
    (n.setFlagN name v).children = n.children := by cases n; rfl

lemma INode.dirty_setFlagN (name : String) (v : Bool) (n : INode) :
    (n.setFlagN name v).dirty = n.dirty := by cases n; rfl

lemma INode.id_setFlagN (name : String) (v : Bool) (n : INode) :
    (n.setFlagN name v).id = n.id := by cases n; rfl

lemma INode.text_setFlagN (name : String) (v : Bool) (n : INode) :
    (n.setFlagN name v).text = n.text := by cases n; rfl

lemma INode.state_setFlagN (name : String) (v : Bool) (n : INode) :
    (n.setFlagN name v).state = setFlag name v n.state := by cases n; rfl

lemma markDirty_none {f : Forest} {p : NPath} (h : getNode f p = none) :
    markDirty f p = f := by
  rw [markDirty, h]

lemma markDirty_of_dirty {f : Forest} {p : NPath} {n : INode}
    (h : getNode f p = some n) (hd : n.dirty = true) :
    markDirty f p = f := by
  rw [markDirty, h]
  simp [hd]

lemma markDirty_root {f : Forest} {p : NPath} {n : INode}
    (h : getNode f p = some n) (hd : n.dirty = false) (hp : parentPath p = none) :
    markDirty f p = updateAt f p INode.setDirty := by
  rw [markDirty, h]
  simp only [hd, Bool.false_eq_true, if_false]
  split
  · rfl
  · rename_i q hqq
    rw [hp] at hqq
    cases hqq

lemma markDirty_parent {f : Forest} {p : NPath} {n : INode} {q : NPath}
    (h : getNode f p = some n) (hd : n.dirty = false) (hp : parentPath p = some q) :
    markDirty f p = markDirty (updateAt f p INode.setDirty) q := by
  rw [markDirty, h]
  simp only [hd, Bool.false_eq_true, if_false]
  split
  · rename_i hqq
    rw [hp] at hqq
    cases hqq
  · rename_i q2 hqq
    rw [hp] at hqq
    cases hqq
    rfl

lemma markDirty_fieldsAt (f : Forest) (p : NPath) (q : NPath) :
    fieldsAt (markDirty f p) q = fieldsAt f q := by
  induction f, p using markDirty.induct with
  | case1 f p hget => rw [markDirty_none hget]
  | case2 f p n hget hdirty => rw [markDirty_of_dirty hget (by simpa using hdirty)]
  | case3 f p n hget hdirty hq =>
      rw [markDirty_root hget (by simpa using hdirty) hq]
      rw [fieldsAt_updateAt INode.setDirty INode.children_setDirty]
      by_cases hqp : q = p
      · subst hqp
        rw [if_pos rfl]
        simp [fieldsAt, INode.id_setDirty, INode.text_setDirty, INode.state_setDirty]
      · rw [if_neg hqp]
  | case4 f p n hget hdirty q2 hq ih =>
      rw [markDirty_parent hget (by simpa using hdirty) hq]
      rw [ih]
      rw [fieldsAt_updateAt INode.setDirty INode.children_setDirty]
      by_cases hqp : q = p
      · subst hqp
        rw [if_pos rfl]
        simp [fieldsAt, INode.id_setDirty, INode.text_setDirty, INode.state_setDirty]
      · rw [if_neg hqp]

/-! ### NPath/prefix facts -/

lemma getNode_cons_append (r : NPath) (hr : r ≠ []) :
    ∀ (q' : NPath) (f : Forest) (i : Nat),
      getNode f ((i :: q') ++ r) =
        ((getNode f (i :: q')).bind INode.childList).bind (fun l => getNode l r) := by
  intro q'
  induction q' with
  | nil =>
      intro f i
      cases r with
      | nil => exact absurd rfl hr
      | cons r0 rr =>
          show getNode f (i :: r0 :: rr) = _
          rw [getNode]
          cases hfi : f[i]? with
          | none => simp [getNode, hfi]
          | some n =>
              simp only [getNode, hfi, Option.some_bind]
              cases hcl : n.childList with
              | none => simp
              | some l => simp
  | cons j q'' ih =>
      intro f i
      show getNode f (i :: (j :: q'') ++ r) = _
      rw [getNode]
      cases hfi : f[i]? with
      | none => simp [getNode, hfi]
      | some n =>
          simp only [getNode, hfi, Option.some_bind]
          cases hcl : n.childList with
          | none => simp
          | some l =>
              simp only [Option.some_bind]
              exact ih l j

lemma getNode_append (f : Forest) (q r : NPath) (hq : q ≠ []) (hr : r ≠ []) :
    getNode f (q ++ r) = ((getNode f q).bind INode.childList).bind (fun l => getNode l r) := by
  cases q with
  | nil => exact absurd rfl hq
  | cons i q' => exact getNode_cons_append r hr q' f i

lemma isSome_getNode_prefix {f : Forest} {p : NPath} {n : INode} {q : NPath}
    (h : getNode f p = some n) (hpre : q <+: p) (hq : q ≠ []) :
    (getNode f q).isSome := by
  obtain ⟨r, hr⟩ := hpre
  by_cases hrn : r = []
  · subst hrn
    simp only [List.append_nil] at hr
    subst hr
    simp [h]
  · subst hr
    rw [getNode_append f q r hq hrn] at h
    cases hgq : getNode f q with
    | none => rw [hgq] at h; simp at h
    | some m => simp

lemma parentPath_isPrefix {p q : NPath} (h : parentPath p = some q) : q <+: p := by
  match p with
  | [] => simp [parentPath] at h
  | [i] => simp [parentPath] at h
  | i :: j :: rest =>
      simp only [parentPath, Option.some.injEq] at h
      subst h
      exact List.dropLast_prefix _

lemma parentPath_ne {p q : NPath} (h : parentPath p = some q) : q ≠ p := by
  intro hcon
  have := parentPath_length h
  rw [hcon] at this
  omega

lemma prefix_parentPath {p q q2 : NPath} (hpre : q <+: p) (hne : q ≠ p)
    (h : parentPath p = some q2) : q <+: q2 := by
  match p, h with
  | i :: j :: rest, h =>
      simp only [parentPath, Option.some.injEq] at h
      subst h
      obtain ⟨r, hr⟩ := hpre
      by_cases hrn : r = []
      · subst hrn; simp at hr; exact absurd hr hne
      · rw [← hr, List.dropLast_append_of_ne_nil _ hrn]
        exact ⟨r.dropLast, rfl⟩

lemma prefix_trans {a b c : NPath} (h1 : a <+: b) (h2 : b <+: c) : a <+: c :=
  h1.trans h2

/-! ### markDirty invariants -/

lemma markDirty_shapeAt (f : Forest) (p : NPath) (q : NPath) :
    shapeAt (markDirty f p) q = shapeAt f q := by
  induction f, p using markDirty.induct with
  | case1 f p hget => rw [markDirty_none hget]
  | case2 f p n hget hdirty => rw [markDirty_of_dirty hget (by simpa using hdirty)]
  | case3 f p n hget hdirty hq =>
      rw [markDirty_root hget (by simpa using hdirty) hq]
      exact shapeAt_updateAt INode.setDirty INode.children_setDirty p f q
  | case4 f p n hget hdirty q2 hq ih =>
      rw [markDirty_parent hget (by simpa using hdirty) hq, ih]
      exact shapeAt_updateAt INode.setDirty INode.children_setDirty p f q

lemma markDirty_isSome (f : Forest) (p : NPath) (q : NPath) :
    (getNode (markDirty f p) q).isSome = (getNode f q).isSome := by
  induction f, p using markDirty.induct with
  | case1 f p hget => rw [markDirty_none hget]
  | case2 f p n hget hdirty => rw [markDirty_of_dirty hget (by simpa using hdirty)]
  | case3 f p n hget hdirty hq =>
      rw [markDirty_root hget (by simpa using hdirty) hq]
      exact isSome_getNode_updateAt INode.setDirty INode.children_setDirty p f q
  | case4 f p n hget hdirty q2 hq ih =>
      rw [markDirty_parent hget (by simpa using hdirty) hq, ih]
      exact isSome_getNode_updateAt INode.setDirty INode.children_setDirty p f q

lemma markDirty_dirtyAt_outside (f : Forest) (p : NPath) :
    ∀ q, ¬ (q <+: p) → dirtyAt (markDirty f p) q = dirtyAt f q := by
  induction f, p using markDirty.induct with
  | case1 f p hget => intro q _; rw [markDirty_none hget]
  | case2 f p n hget hdirty => intro q _; rw [markDirty_of_dirty hget (by simpa using hdirty)]
  | case3 f p n hget hdirty hq =>
      intro q hnp
      rw [markDirty_root hget (by simpa using hdirty) hq]
      rw [dirtyAt_updateAt INode.setDirty INode.children_setDirty]
      rw [if_neg (by intro hcon; exact hnp (hcon ▸ List.prefix_refl p))]
  | case4 f p n hget hdirty q2 hq ih =>
      intro q hnp
      rw [markDirty_parent hget (by simpa using hdirty) hq]
      rw [ih q (by
        intro hcon
        exact hnp (prefix_trans hcon (parentPath_isPrefix hq)))]
      rw [dirtyAt_updateAt INode.setDirty INode.children_setDirty]
      rw [if_neg (by intro hcon; exact hnp (hcon ▸ List.prefix_refl p))]

lemma markDirty_dirtyAt_self (f : Forest) (p : NPath) (hv : (getNode f p).isSome) :
    dirtyAt (markDirty f p) p = some true := by
  induction f, p using markDirty.induct with
  | case1 f p hget => rw [hget] at hv; simp at hv
  | case2 f p n hget hdirty =>
      rw [markDirty_of_dirty hget (by simpa using hdirty)]
      simp [dirtyAt, hget]
      simpa using hdirty
  | case3 f p n hget hdirty hq =>
      rw [markDirty_root hget (by simpa using hdirty) hq]
      rw [dirtyAt_updateAt INode.setDirty INode.children_setDirty, if_pos rfl]
      simp [hget, INode.dirty_setDirty]
  | case4 f p n hget hdirty q2 hq ih =>
      rw [markDirty_parent hget (by simpa using hdirty) hq]
      rw [markDirty_dirtyAt_outside _ q2 p (by
        intro hcon
        have := (parentPath_length hq)
        have := hcon.length_le
        omega)]
      rw [dirtyAt_updateAt INode.setDirty INode.children_setDirty, if_pos rfl]
      simp [hget, INode.dirty_setDirty]

lemma parentPath_none_length {p : NPath} (h : parentPath p = none) : p.length ≤ 1 := by
  match p with
  | [] => simp
  | [i] => simp
  | i :: j :: rest => simp [parentPath] at h

lemma markDirty_dirtyAt_reach (f : Forest) (p : NPath) :
    ∀ q, (getNode f p).isSome → q <+: p → q ≠ p → q ≠ [] →
      (∀ r, q <+: r → r <+: p → r ≠ q → dirtyAt f r = some false) →
      dirtyAt (markDirty f p) q = some true := by
  induction f, p using markDirty.induct with
  | case1 f p hget =>
      intro q hv _ _ _ _
      rw [hget] at hv
      simp at hv
  | case2 f p n hget hdirty =>
      intro q _ hpre hne _ hreach
      have hfp := hreach p hpre (List.prefix_refl p) (fun hcon => hne hcon.symm)
      rw [dirtyAt, hget] at hfp
      simp at hfp
      rw [hfp] at hdirty
      simp at hdirty
  | case3 f p n hget hdirty hq =>
      intro q _ hpre hne hnil _
      have hlen : p.length ≤ 1 := parentPath_none_length hq
      have h1 := hpre.length_le
      have h2 : q.length ≠ p.length := by
        intro hcon
        exact hne (List.IsPrefix.eq_of_length hpre hcon)
      have h3 : q.length ≠ 0 := by
        intro hcon
        exact hnil (List.length_eq_zero.mp hcon)
      omega
  | case4 f p n hget hdirty q2 hq ih =>
      intro q hv hpre hne hnil hreach
      rw [markDirty_parent hget (by simpa using hdirty) hq]
      have hq2pre : q <+: q2 := prefix_parentPath hpre hne hq
      have hq2nil : q2 ≠ [] := by
        intro hcon
        have := hpre.length_le
        have h2 : q.length ≠ p.length := fun hc => hne (List.IsPrefix.eq_of_length hpre hc)
        have h3 : q.length ≠ 0 := fun hc => hnil (List.length_eq_zero.mp hc)
        have h4 := parentPath_length hq
        rw [hcon] at hq2pre
        have := List.prefix_nil.mp hq2pre
        exact hnil this
      have hq2v : (getNode (updateAt f p INode.setDirty) q2).isSome := by
        rw [isSome_getNode_updateAt INode.setDirty INode.children_setDirty]
        exact isSome_getNode_prefix hget (parentPath_isPrefix hq) hq2nil
      by_cases hqq2 : q = q2
      · subst hqq2
        exact markDirty_dirtyAt_self _ q hq2v
      · apply ih q hq2v hq2pre hqq2 hnil
        intro r hr1 hr2 hr3
        have hrp : r ≠ p := by
          intro hcon
          subst hcon
          have h1 := hr2.length_le
          have h2 := parentPath_length hq
          omega
        rw [dirtyAt_updateAt INode.setDirty INode.children_setDirty, if_neg hrp]
        exact hreach r hr1 (prefix_trans hr2 (parentPath_isPrefix hq)) hr3

lemma dirtyAt_ne_none {f : Forest} {r : NPath} {b : Bool} (h : dirtyAt f r = some b) :
    r ≠ [] := by
  intro hcon
  subst hcon
  simp [dirtyAt, getNode] at h

lemma markDirty_dirtyAt_stop (f : Forest) (p : NPath) :
    ∀ q, (∃ r, q <+: r ∧ r <+: p ∧ r ≠ q ∧ dirtyAt f r = some true) →
      dirtyAt (markDirty f p) q = dirtyAt f q := by
  induction f, p using markDirty.induct with
  | case1 f p hget => intro q _; rw [markDirty_none hget]
  | case2 f p n hget hdirty => intro q _; rw [markDirty_of_dirty hget (by simpa using hdirty)]
  | case3 f p n hget hdirty hq =>
      intro q ⟨r, hr1, hr2, hr3, hr4⟩
      have hlen := parentPath_none_length hq
      have hrnil : r ≠ [] := dirtyAt_ne_none hr4
      have hr2l := hr2.length_le
      have hrl : 0 < r.length := List.length_pos.mpr hrnil
      have hrp : r = p := List.IsPrefix.eq_of_length hr2 (by omega)
      subst hrp
      rw [dirtyAt, hget] at hr4
      simp at hr4
      rw [hr4] at hdirty
      simp at hdirty
  | case4 f p n hget hdirty q2 hq ih =>
      intro q ⟨r, hr1, hr2, hr3, hr4⟩
      rw [markDirty_parent hget (by simpa using hdirty) hq]
      have hrp : r ≠ p := by
        intro hcon
        subst hcon
        rw [dirtyAt, hget] at hr4
        simp at hr4
        rw [hr4] at hdirty
        simp at hdirty
      have hrq2 : r <+: q2 := prefix_parentPath hr2 hrp hq
      have hql : q.length < r.length :=
        lt_of_le_of_ne hr1.length_le
          (fun hc => hr3 (List.IsPrefix.eq_of_length hr1 hc).symm)
      have hqp : q ≠ p := by
        intro hcon
        subst hcon
        have h1 := hrq2.length_le
        have h2 := parentPath_length hq
        omega
      rw [ih q ⟨r, hr1, hrq2, hr3, by
        rw [dirtyAt_updateAt INode.setDirty INode.children_setDirty, if_neg hrp]
        exact hr4⟩]
      rw [dirtyAt_updateAt INode.setDirty INode.children_setDirty, if_neg hqp]

lemma markDirty_idem (f : Forest) (p : NPath) :
    markDirty (markDirty f p) p = markDirty f p := by
  cases hget : getNode f p with
  | none =>
      have h := markDirty_isSome f p p
      rw [hget] at h
      cases hx : getNode (markDirty f p) p with
      | none => rw [markDirty_none hx, markDirty_none hget]
      | some m => rw [hx] at h; simp at h
  | some n =>
      have hv : (getNode (markDirty f p) p).isSome = true := by
        rw [markDirty_isSome]
        simp [hget]
      obtain ⟨m, hm⟩ := Option.isSome_iff_exists.mp hv
      have hd := markDirty_dirtyAt_self f p (by simp [hget])
      rw [dirtyAt, hm] at hd
      simp at hd
      exact markDirty_of_dirty hm hd

/-- C5. `markDirty` sets the dirty flag on the node and propagates it
upward: the node itself ends dirty; an ancestor becomes dirty when every
node strictly between it and the marked node (inclusive) was clean, and
is left untouched as soon as an already-dirty node lies on the chain
below it (the ascent stops there); nodes that are not ancestors are
untouched; and the whole operation is idempotent — marking twice leaves
the forest exactly as marking once. -/
theorem markDirty_spec (f : Forest) (p : NPath) (hv : (getNode f p).isSome) :
    dirtyAt (markDirty f p) p = some true ∧
    (∀ q, q <+: p → q ≠ p → q ≠ [] →
      ((∀ r, q <+: r → r <+: p → r ≠ q → dirtyAt f r = some false) →
        dirtyAt (markDirty f p) q = some true) ∧
      ((∃ r, q <+: r ∧ r <+: p ∧ r ≠ q ∧ dirtyAt f r = some true) →
        dirtyAt (markDirty f p) q = dirtyAt f q)) ∧
    (∀ q, ¬ q <+: p → dirtyAt (markDirty f p) q = dirtyAt f q) ∧
    markDirty (markDirty f p) p = markDirty f p := by
  refine ⟨markDirty_dirtyAt_self f p hv, ?_, markDirty_dirtyAt_outside f p,
    markDirty_idem f p⟩
  intro q hpre hne hnil
  exact ⟨markDirty_dirtyAt_reach f p q hv hpre hne hnil,
    markDirty_dirtyAt_stop f p q⟩

/-- A two-level forest used as concrete input for witnesses. -/
def mdWForest : Forest :=
  [INode.mk "1" "A" [] false (some (some [INode.mk "2" "B" [] false none]))]

/-- Witness for C5 at the child node of `mdWForest`. -/
theorem markDirty_spec_witness :
    (getNode mdWForest [0, 0]).isSome = true ∧
    (dirtyAt (markDirty mdWForest [0, 0]) [0, 0] = some true ∧
    (∀ q, q <+: [0, 0] → q ≠ [0, 0] → q ≠ [] →
      ((∀ r, q <+: r → r <+: [0, 0] → r ≠ q → dirtyAt mdWForest r = some false) →
        dirtyAt (markDirty mdWForest [0, 0]) q = some true) ∧
      ((∃ r, q <+: r ∧ r <+: [0, 0] ∧ r ≠ q ∧ dirtyAt mdWForest r = some true) →
        dirtyAt (markDirty mdWForest [0, 0]) q = dirtyAt mdWForest q)) ∧
    (∀ q, ¬ q <+: [0, 0] → dirtyAt (markDirty mdWForest [0, 0]) q = dirtyAt mdWForest q) ∧
    markDirty (markDirty mdWForest [0, 0]) [0, 0] = markDirty mdWForest [0, 0]) :=
  ⟨by decide, markDirty_spec mdWForest [0, 0] (by decide)⟩

lemma lookup_setFlag_self (name : String) (v : Bool) :
    ∀ st : List (String × Bool), (setFlag name v st).lookup name = some v := by
  intro st
  induction st with
  | nil => simp [setFlag, List.lookup]
  | cons kv rest ih =>
      obtain ⟨k, w⟩ := kv
      by_cases h : k = name
      · subst h
        simp [setFlag, List.lookup]
      · simp only [setFlag, if_neg h]
        show List.lookup name ((k, w) :: setFlag name v rest) = some v
        rw [List.lookup]
        have hbk : (name == k) = false := by
          simp only [beq_eq_false_iff_ne]
          exact fun hc => h hc.symm
        rw [hbk]
        exact ih

lemma flagAt_eq_fieldsAt (f : Forest) (q : NPath) (name : String) :
    flagAt f q name = (fieldsAt f q).map (fun c => c.2.2.lookup name) := by
  simp [flagAt, fieldsAt, Option.map_map, INode.stateRaw]
  rfl

/-- C10. `TreeNode.state(name, v)` as a setter: when the stored raw
value already equals `v` it is a complete no-op — the forest is
returned unchanged (state and dirty flags included) and no event is
emitted; when it differs, the flag is stored, the node is marked dirty
(propagating to clean ancestor chains as `markDirty` does), and exactly
one `node.state.changed` event carrying the flag name, old value and
new value is emitted. -/
theorem state_setter_spec (f : Forest) (p : NPath) (name : String) (v : Bool)
    (n : INode) (h : getNode f p = some n) :
    (n.stateRaw name = some v → stateSet f p name v = (f, [])) ∧
    (n.stateRaw name ≠ some v →
      (stateSet f p name v).2 = [Event.stateChanged n.id name (n.stateRaw name) v] ∧
      flagAt (stateSet f p name v).1 p name = some (some v) ∧
      dirtyAt (stateSet f p name v).1 p = some true ∧
      (∀ q, q <+: p → q ≠ p → q ≠ [] →
        (∀ r, q <+: r → r <+: p → r ≠ q → dirtyAt f r = some false) →
        dirtyAt (stateSet f p name v).1 q = some true) ∧
      (∀ q, ¬ q <+: p → dirtyAt (stateSet f p name v).1 q = dirtyAt f q) ∧
      (∀ q, q ≠ p → fieldsAt (stateSet f p name v).1 q = fieldsAt f q)) := by
  constructor
  · intro heq
    simp only [stateSet, h]
    rw [if_neg (by simp [heq])]
  · intro hne
    have hpair : stateSet f p name v =
        (markDirty (updateAt f p (INode.setFlagN name v)) p,
         [Event.stateChanged n.id name (n.stateRaw name) v]) := by
      simp only [stateSet, h]
      rw [if_pos hne]
    rw [hpair]
    have hch := INode.children_setFlagN name v
    have hf1v : (getNode (updateAt f p (INode.setFlagN name v)) p).isSome := by
      rw [isSome_getNode_updateAt _ hch]
      simp [h]
    refine ⟨rfl, ?_, ?_, ?_, ?_, ?_⟩
    · rw [flagAt_eq_fieldsAt, markDirty_fieldsAt,
        fieldsAt_updateAt _ hch, if_pos rfl, h]
      simp [INode.state_setFlagN, lookup_setFlag_self]
    · exact markDirty_dirtyAt_self _ p hf1v
    · intro q hpre hnep hnil hclean
      apply markDirty_dirtyAt_reach _ p q hf1v hpre hnep hnil
      intro r hr1 hr2 hr3
      rw [dirtyAt_updateAt _ hch]
      by_cases hrp : r = p
      · subst hrp
        rw [if_pos rfl, h]
        have := hclean r hr1 hr2 hr3
        rw [dirtyAt, h] at this
        simp at this
        simp [INode.dirty_setFlagN, this]
      · rw [if_neg hrp]
        exact hclean r hr1 hr2 hr3
    · intro q hq
      rw [markDirty_dirtyAt_outside _ p q hq, dirtyAt_updateAt _ hch,
        if_neg (by intro hcon; exact hq (hcon ▸ List.prefix_refl p))]
    · intro q hq
      rw [markDirty_fieldsAt, fieldsAt_updateAt _ hch, if_neg hq]

/-- A single-node forest used for the C10 witness. -/
def stWForest : Forest := [INode.mk "1" "A" [] false none]

/-- Witness for C10 at `stWForest`, flag `selected`, value `true`. -/
theorem state_setter_spec_witness :
    getNode stWForest [0] = some (INode.mk "1" "A" [] false none) ∧
    (((INode.mk "1" "A" [] false none).stateRaw "selected" = some true →
        stateSet stWForest [0] "selected" true = (stWForest, [])) ∧
     ((INode.mk "1" "A" [] false none).stateRaw "selected" ≠ some true →
        (stateSet stWForest [0] "selected" true).2 =
          [Event.stateChanged (INode.mk "1" "A" [] false none).id "selected"
            ((INode.mk "1" "A" [] false none).stateRaw "selected") true] ∧
        flagAt (stateSet stWForest [0] "selected" true).1 [0] "selected" = some (some true) ∧
        dirtyAt (stateSet stWForest [0] "selected" true).1 [0] = some true ∧
        (∀ q, q <+: [0] → q ≠ [0] → q ≠ [] →
          (∀ r, q <+: r → r <+: [0] → r ≠ q → dirtyAt stWForest r = some false) →
          dirtyAt (stateSet stWForest [0] "selected" true).1 q = some true) ∧
        (∀ q, ¬ q <+: [0] →
          dirtyAt (stateSet stWForest [0] "selected" true).1 q = dirtyAt stWForest q) ∧
        (∀ q, q ≠ [0] →
          fieldsAt (stateSet stWForest [0] "selected" true).1 q = fieldsAt stWForest q))) :=
  ⟨rfl, state_setter_spec stWForest [0] "selected" true (INode.mk "1" "A" [] false none) rfl⟩

/-! ## visible() (TreeNode.visible) -/

/-- `TreeNode.visible`: false when hidden or removed; otherwise false
when the parent is collapsed, else the parent's visibility; true at the
root. (The arm for a missing parent node cannot be reached from a valid
path and mirrors `getParent()` being used unconditionally.) -/
def visibleAt (f : Forest) (p : NPath) : Bool :=
  match getNode f p with
  | none => false
  | some n =>
      if n.stateB "hidden" || n.stateB "removed" then false
      else
        match hq : parentPath p with
        | none => true
        | some q =>
            match getNode f q with
            | none => true
            | some pn => if pn.stateB "collapsed" then false else visibleAt f q
termination_by p.length
decreasing_by exact parentPath_length hq

lemma visibleAt_invalid {f : Forest} {p : NPath} (h : getNode f p = none) :
    visibleAt f p = false := by
  rw [visibleAt, h]

lemma visibleAt_hiddenRemoved {f : Forest} {p : NPath} {n : INode}
    (h : getNode f p = some n) (hh : (n.stateB "hidden" || n.stateB "removed") = true) :
    visibleAt f p = false := by
  rw [visibleAt, h]
  simp [hh]

lemma visibleAt_root {f : Forest} {p : NPath} {n : INode}
    (h : getNode f p = some n) (hh : (n.stateB "hidden" || n.stateB "removed") = false)
    (hp : parentPath p = none) :
    visibleAt f p = true := by
  rw [visibleAt, h]
  simp only [hh, Bool.false_eq_true, if_false]
  split
  · rfl
  · rename_i q hqq
    rw [hp] at hqq
    cases hqq

lemma visibleAt_parent {f : Forest} {p : NPath} {n : INode} {q : NPath} {m : INode}
    (h : getNode f p = some n) (hh : (n.stateB "hidden" || n.stateB "removed") = false)
    (hp : parentPath p = some q) (hm : getNode f q = some m) :
    visibleAt f p = if m.stateB "collapsed" then false else visibleAt f q := by
  rw [visibleAt, h]
  simp only [hh, Bool.false_eq_true, if_false]
  split
  · rename_i hqq
    rw [hp] at hqq
    cases hqq
  · rename_i q2 hqq
    rw [hp] at hqq
    cases hqq
    rw [hm]

lemma parentPath_some_ne_nil {p q : NPath} (h : parentPath p = some q) : q ≠ [] := by
  match p with
  | [] => simp [parentPath] at h
  | [i] => simp [parentPath] at h
  | i :: j :: rest =>
      simp only [parentPath, Option.some.injEq] at h
      subst h
      simp [List.dropLast]

lemma ancestor_iff {p q r : NPath} (h : parentPath p = some q) :
    (r <+: p ∧ r ≠ p) ↔ r <+: q := by
  constructor
  · rintro ⟨h1, h2⟩
    exact prefix_parentPath h1 h2 h
  · intro h1
    refine ⟨prefix_trans h1 (parentPath_isPrefix h), ?_⟩
    intro hcon
    subst hcon
    have ha := h1.length_le
    have hb := parentPath_length h
    omega

lemma visibleAt_iff (f : Forest) :
    ∀ (p : NPath) (n : INode), getNode f p = some n →
      (visibleAt f p = true ↔
        (n.stateB "hidden" = false ∧ n.stateB "removed" = false ∧
         ∀ q m, q <+: p → q ≠ p → q ≠ [] → getNode f q = some m →
           m.stateB "collapsed" = false ∧ visibleAt f q = true)) := by
  refine visibleAt.induct f
    (fun p => ∀ n, getNode f p = some n →
      (visibleAt f p = true ↔
        (n.stateB "hidden" = false ∧ n.stateB "removed" = false ∧
         ∀ q m, q <+: p → q ≠ p → q ≠ [] → getNode f q = some m →
           m.stateB "collapsed" = false ∧ visibleAt f q = true)))
    ?_ ?_ ?_ ?_ ?_ ?_
  · intro p hget n h
    rw [h] at hget
    cases hget
  · intro p n2 hget hhid n h
    have hn : n = n2 := by rw [h] at hget; exact Option.some.inj hget
    subst hn
    rw [visibleAt_hiddenRemoved h hhid]
    constructor
    · intro hcon; cases hcon
    · rintro ⟨h1, h2, _⟩
      rw [h1, h2] at hhid
      cases hhid
  · intro p n2 hget hhid hpar n h
    have hn : n = n2 := by rw [h] at hget; exact Option.some.inj hget
    subst hn
    have hhid2 : (n.stateB "hidden" || n.stateB "removed") = false := by
      simpa using hhid
    rw [visibleAt_root h hhid2 hpar]
    simp only [true_iff]
    refine ⟨?_, ?_, ?_⟩
    · exact (Bool.or_eq_false_iff.mp hhid2).1
    · exact (Bool.or_eq_false_iff.mp hhid2).2
    · intro q m hq1 hq2 hq3 _
      exfalso
      have h1 := parentPath_none_length hpar
      have h2 : q.length < p.length :=
        lt_of_le_of_ne hq1.length_le (fun hc => hq2 (List.IsPrefix.eq_of_length hq1 hc))
      have h3 : 0 < q.length := List.length_pos.mpr hq3
      omega
  · intro p n2 hget hhid q hpar hq n h
    exfalso
    have := isSome_getNode_prefix h (parentPath_isPrefix hpar) (parentPath_some_ne_nil hpar)
    rw [hq] at this
    cases this
  · intro p n2 hget hhid q hpar pn hq hcol n h
    have hn : n = n2 := by rw [h] at hget; exact Option.some.inj hget
    subst hn
    have hhid2 : (n.stateB "hidden" || n.stateB "removed") = false := by
      simpa using hhid
    rw [visibleAt_parent h hhid2 hpar hq, if_pos (by simpa using hcol)]
    constructor
    · intro hcon; cases hcon
    · rintro ⟨_, _, h3⟩
      have := (h3 q pn (parentPath_isPrefix hpar) (parentPath_ne hpar)
        (parentPath_some_ne_nil hpar) hq).1
      rw [this] at hcol
      cases hcol
  · intro p n2 hget hhid q hpar pn hq hcol ih n h
    have hn : n = n2 := by rw [h] at hget; exact Option.some.inj hget
    subst hn
    have hhid2 : (n.stateB "hidden" || n.stateB "removed") = false := by
      simpa using hhid
    have hcol2 : pn.stateB "collapsed" = false := by simpa using hcol
    rw [visibleAt_parent h hhid2 hpar hq, if_neg (by simp [hcol2])]
    have ihq := ih pn hq
    constructor
    · intro hvq
      refine ⟨(Bool.or_eq_false_iff.mp hhid2).1, (Bool.or_eq_false_iff.mp hhid2).2, ?_⟩
      intro r m hr1 hr2 hr3 hr4
      by_cases hrq : r = q
      · subst hrq
        rw [hq] at hr4
        cases hr4
        exact ⟨hcol2, hvq⟩
      · have hrq2 : r <+: q := (ancestor_iff hpar).mp ⟨hr1, hr2⟩
        obtain ⟨_, _, hall⟩ := ihq.mp hvq
        exact hall r m hrq2 hrq hr3 hr4
    · rintro ⟨_, _, h3⟩
      exact (h3 q pn (parentPath_isPrefix hpar) (parentPath_ne hpar)
        (parentPath_some_ne_nil hpar) hq).2

/-- C2. `visible()` holds iff the node is neither hidden nor removed and
every ancestor is neither collapsed nor itself invisible; in particular
it is false whenever the node is hidden or removed, and false whenever
any ancestor is collapsed. -/
theorem visible_spec (f : Forest) (p : NPath) (n : INode) (h : getNode f p = some n) :
    (visibleAt f p = true ↔
      (n.stateB "hidden" = false ∧ n.stateB "removed" = false ∧
       ∀ q m, q <+: p → q ≠ p → q ≠ [] → getNode f q = some m →
         m.stateB "collapsed" = false ∧ visibleAt f q = true)) ∧
    ((n.stateB "hidden" = true ∨ n.stateB "removed" = true) → visibleAt f p = false) ∧
    (∀ q m, q <+: p → q ≠ p → q ≠ [] → getNode f q = some m →
      m.stateB "collapsed" = true → visibleAt f p = false) := by
  have hiff := visibleAt_iff f p n h
  refine ⟨hiff, ?_, ?_⟩
  · intro hcase
    cases hvp : visibleAt f p with
    | false => rfl
    | true =>
        obtain ⟨h1, h2, _⟩ := hiff.mp hvp
        cases hcase with
        | inl hc => rw [hc] at h1; cases h1
        | inr hc => rw [hc] at h2; cases h2
  · intro q m hq1 hq2 hq3 hq4 hcol
    cases hvp : visibleAt f p with
    | false => rfl
    | true =>
        obtain ⟨_, _, hall⟩ := hiff.mp hvp
        have := (hall q m hq1 hq2 hq3 hq4).1
        rw [this] at hcol
        cases hcol

/-- A forest with a collapsed root and one child, for the C2 witness. -/
def visWForest : Forest :=
  [INode.mk "1" "A" [("collapsed", true)] false
    (some (some [INode.mk "2" "B" [] false none]))]

/-- Witness for C2 at the child of the collapsed root in `visWForest`. -/
theorem visible_spec_witness :
    getNode visWForest [0, 0] = some (INode.mk "2" "B" [] false none) ∧
    ((visibleAt visWForest [0, 0] = true ↔
      ((INode.mk "2" "B" [] false none).stateB "hidden" = false ∧
       (INode.mk "2" "B" [] false none).stateB "removed" = false ∧
       ∀ q m, q <+: [0, 0] → q ≠ [0, 0] → q ≠ [] → getNode visWForest q = some m →
         m.stateB "collapsed" = false ∧ visibleAt visWForest q = true)) ∧
    (((INode.mk "2" "B" [] false none).stateB "hidden" = true ∨
      (INode.mk "2" "B" [] false none).stateB "removed" = true) →
        visibleAt visWForest [0, 0] = false) ∧
    (∀ q m, q <+: [0, 0] → q ≠ [0, 0] → q ≠ [] → getNode visWForest q = some m →
      m.stateB "collapsed" = true → visibleAt visWForest [0, 0] = false)) :=
  ⟨rfl, visible_spec visWForest [0, 0] (INode.mk "2" "B" [] false none) rfl⟩

/-! ## recurseUp (TreeNode.recurseUp) -/

/-- A JavaScript value returned by a `recurseUp` iteratee, abstracted
to the variants the ascent guard `result !== false` and JS truthiness
can distinguish. -/
inductive JSVal where
  | vFalse
  | vTrue
  | vUndefined
  | vNull
  | vZero
  | vEmptyStr
  | vObj
  deriving DecidableEq, Repr

/-- JS truthiness of a `JSVal`: `false`, `undefined`, `null`, `0` and
the empty string are falsy. -/
def JSVal.falsy : JSVal → Bool
  | .vFalse => true
  | .vUndefined => true
  | .vNull => true
  | .vZero => true
  | .vEmptyStr => true
  | _ => false

/-- `TreeNode.recurseUp(iteratee)`, observed as the list of visited
nodes' paths: visit the node; if the iteratee's result is not strictly
`false` and the node has a parent, continue at the parent. -/
def recurseUpVisits (f : Forest) (p : NPath) (it : INode → JSVal) : List NPath :=
  match getNode f p with
  | none => []
  | some n =>
      if it n ≠ JSVal.vFalse then
        match hq : parentPath p with
        | none => [p]
        | some q => p :: recurseUpVisits f q it
      else [p]
termination_by p.length
decreasing_by exact parentPath_length hq

/-- The chain of a node and its ancestors, bottom-up to the root. -/
def upChain (p : NPath) : List NPath :=
  match hq : parentPath p with
  | none => [p]
  | some q => p :: upChain q
termination_by p.length
decreasing_by exact parentPath_length hq

/-- Keep elements up to and including the first one satisfying `stop`. -/
def takeThrough (stop : NPath → Bool) : List NPath → List NPath
  | [] => []
  | a :: rest => if stop a then [a] else a :: takeThrough stop rest

/-- A two-level forest for the C9 counterexample and witness. -/
def ruWForest : Forest :=
  [INode.mk "1" "A" [] false (some (some [INode.mk "2" "B" [] false none]))]

lemma recurseUpVisits_invalid {f : Forest} {p : NPath} {it : INode → JSVal}
    (h : getNode f p = none) : recurseUpVisits f p it = [] := by
  rw [recurseUpVisits, h]

lemma recurseUpVisits_abort {f : Forest} {p : NPath} {n : INode} {it : INode → JSVal}
    (h : getNode f p = some n) (hv : it n = JSVal.vFalse) :
    recurseUpVisits f p it = [p] := by
  rw [recurseUpVisits, h]
  dsimp only
  simp [hv]

lemma recurseUpVisits_root {f : Forest} {p : NPath} {n : INode} {it : INode → JSVal}
    (h : getNode f p = some n) (hv : it n ≠ JSVal.vFalse) (hp : parentPath p = none) :
    recurseUpVisits f p it = [p] := by
  rw [recurseUpVisits, h]
  dsimp only
  rw [if_pos hv]
  split
  · rfl
  · rename_i q hqq
    rw [hp] at hqq
    cases hqq

lemma recurseUpVisits_step {f : Forest} {p : NPath} {n : INode} {q : NPath}
    {it : INode → JSVal}
    (h : getNode f p = some n) (hv : it n ≠ JSVal.vFalse) (hp : parentPath p = some q) :
    recurseUpVisits f p it = p :: recurseUpVisits f q it := by
  rw [recurseUpVisits, h]
  dsimp only
  rw [if_pos hv]
  split
  · rename_i hqq
    rw [hp] at hqq
    cases hqq
  · rename_i q2 hqq
    rw [hp] at hqq
    cases hqq
    rfl

/-- C9 counterexample: an iteratee returning `undefined` — a falsy
value — on every node does not abort the ascent: from the child both
the child and its parent are visited, while the claim requires the
ascent to stop at the child. Only a strict `false` aborts
(`result !== false`). -/
theorem recurseUp_falsy_counterexample :
    JSVal.falsy JSVal.vUndefined = true ∧
    recurseUpVisits ruWForest [0, 0] (fun _ => JSVal.vUndefined) = [[0, 0], [0]] ∧
    ([[0, 0], [0]] : List NPath) ≠ [[0, 0]] := by
  refine ⟨rfl, ?_, by decide⟩
  rw [@recurseUpVisits_step ruWForest [0, 0] (INode.mk "2" "B" [] false none) [0]
      (fun _ => JSVal.vUndefined) rfl (by decide) rfl,
    @recurseUpVisits_root ruWForest [0]
      (INode.mk "1" "A" [] false (some (some [INode.mk "2" "B" [] false none])))
      (fun _ => JSVal.vUndefined) rfl (by decide) rfl]

lemma upChain_root {p : NPath} (hp : parentPath p = none) : upChain p = [p] := by
  rw [upChain]
  split
  · rfl
  · rename_i q hqq
    rw [hp] at hqq
    cases hqq

lemma upChain_step {p q : NPath} (hp : parentPath p = some q) :
    upChain p = p :: upChain q := by
  rw [upChain]
  split
  · rename_i hqq
    rw [hp] at hqq
    cases hqq
  · rename_i q2 hqq
    rw [hp] at hqq
    cases hqq
    rfl

/-- The abort condition of the source: the iteratee's result on the
node at `q` is strictly `false`. -/
def ruStop (f : Forest) (it : INode → JSVal) (q : NPath) : Bool :=
  match getNode f q with
  | some n => decide (it n = JSVal.vFalse)
  | none => false

/-- C9 amended. `recurseUp` visits the node, then its parent, then
grandparent and so on to the root, stopping the ascent after the first
node whose visitor result is strictly `false` (`result !== false`);
other falsy results (`undefined`, `null`, `0`, `""`) do not abort. -/
theorem recurseUp_spec (f : Forest) (p : NPath) (it : INode → JSVal)
    (hv : (getNode f p).isSome) :
    recurseUpVisits f p it = takeThrough (ruStop f it) (upChain p) := by
  revert hv
  show (getNode f p).isSome → _
  refine recurseUpVisits.induct f
    (fun p it => (getNode f p).isSome →
    recurseUpVisits f p it = takeThrough (ruStop f it) (upChain p))
    ?_ ?_ ?_ ?_ p it
  · intro p it hget hv
    rw [hget] at hv
    cases hv
  · intro p it n hget hne hpar hv
    rw [recurseUpVisits_root hget (by simpa using hne) hpar, upChain_root hpar]
    simp only [takeThrough]
    rw [if_neg (by
      simp only [ruStop, hget]
      simpa using hne)]
  · intro p it n hget hne q hpar ih hv
    rw [recurseUpVisits_step hget (by simpa using hne) hpar, upChain_step hpar]
    simp only [takeThrough]
    rw [if_neg (by
      simp only [ruStop, hget]
      simpa using hne)]
    rw [ih (by
      have := isSome_getNode_prefix (Option.isSome_iff_exists.mp hv).choose_spec
        (parentPath_isPrefix hpar) (parentPath_some_ne_nil hpar)
      exact this)]
  · intro p it n hget habort hv
    rw [recurseUpVisits_abort hget (by simpa using habort)]
    cases hch : upChain p with
    | nil =>
        exfalso
        rw [upChain] at hch
        revert hch
        split
        · intro hcon; cases hcon
        · intro hcon; cases hcon
    | cons a rest =>
        have ha : a = p := by
          rw [upChain] at hch
          revert hch
          split
          · intro hcon; cases hcon; rfl
          · intro hcon; cases hcon; rfl
        subst ha
        simp only [takeThrough]
        rw [if_pos (by
          simp only [ruStop, hget]
          simpa using habort)]

/-- Witness for C9 (amended) on `ruWForest` with an always-truthy
iteratee. -/
theorem recurseUp_spec_witness :
    (getNode ruWForest [0, 0]).isSome = true ∧
    recurseUpVisits ruWForest [0, 0] (fun _ => JSVal.vTrue) =
      takeThrough (ruStop ruWForest (fun _ => JSVal.vTrue)) (upChain [0, 0]) :=
  ⟨by decide, recurseUp_spec ruWForest [0, 0] (fun _ => JSVal.vTrue) (by decide)⟩

/-- The raw `children` field of the node at `q`. -/
def childrenAt (f : Forest) (q : NPath) : Option (Option (Option (List INode))) :=
  (getNode f q).map INode.children

lemma getNode_updateAt (g : INode → INode) (hg : ∀ n, (g n).children = n.children) :
    ∀ (p : NPath) (f : Forest) (q : NPath), ¬ (q <+: p ∧ q ≠ p) →
      getNode (updateAt f p g) q = if q = p then (getNode f p).map g else getNode f q := by
  intro p
  induction p with
  | nil =>
      intro f q hnp
      rw [updateAt]
      by_cases hq : q = ([] : NPath)
      · subst hq; simp [getNode]
      · rw [if_neg hq]
  | cons i p' ih =>
      intro f q hnp
      cases p' with
      | nil =>
          cases q with
          | nil => exact absurd ⟨⟨[i], rfl⟩, by simp⟩ hnp
          | cons k q' =>
              cases q' with
              | nil =>
                  rw [updateAt]
                  show (modifyList g f i)[k]? = _
                  rw [modifyList_getElem?]
                  by_cases h : k = i
                  · subst h
                    rw [if_pos rfl, if_pos rfl]
                    rfl
                  · rw [if_neg h, if_neg (by simpa using h)]
                    rfl
              | cons k2 qr =>
                  rw [updateAt]
                  have hne : (k :: k2 :: qr) ≠ ([i] : NPath) := by simp
                  rw [if_neg hne]
                  show getNode (modifyList g f i) (k :: k2 :: qr) = _
                  rw [getNode, getNode, modifyList_getElem?]
                  by_cases h : k = i
                  · subst h
                    rw [if_pos rfl]
                    cases hfi : f[k]? with
                    | none => simp
                    | some n =>
                        simp only [Option.map_some']
                        rw [childList_of_children_eq (hg n)]
                  · rw [if_neg h]
      | cons j rest =>
          cases q with
          | nil => exact absurd ⟨⟨i :: j :: rest, rfl⟩, by simp⟩ hnp
          | cons k q' =>
              cases q' with
              | nil =>
                  by_cases h : k = i
                  · subst h
                    exact absurd ⟨⟨j :: rest, rfl⟩, by simp⟩ hnp
                  · rw [updateAt]
                    rw [if_neg (by simp [h])]
                    show (modifyList _ f i)[k]? = _
                    rw [modifyList_getElem?, if_neg h]
                    rfl
              | cons k2 qr =>
                  rw [updateAt]
                  show getNode (modifyList _ f i) (k :: k2 :: qr) = _
                  rw [getNode, getNode, modifyList_getElem?]
                  by_cases h : k = i
                  · subst h
                    rw [if_pos rfl]
                    cases hfi : f[k]? with
                    | none =>
                        by_cases h2 : (k :: k2 :: qr) = (k :: j :: rest)
                        · rw [if_pos h2]
                          all_goals simp [getNode, hfi]
                        · rw [if_neg h2]
                          all_goals simp [getNode, hfi]
                    | some n =>
                        simp only [Option.map_some']
                        rw [childList_withChildList]
                        cases hcl : n.childList with
                        | none =>
                            simp only [Option.map_none']
                            by_cases h2 : (k :: k2 :: qr) = (k :: j :: rest)
                            · rw [if_pos h2]
                              all_goals simp [getNode, hfi, hcl]
                            · rw [if_neg h2]
                              all_goals simp [getNode, hfi, hcl]
                        | some l =>
                            simp only [Option.map_some']
                            rw [ih l (k2 :: qr) (by
                              intro ⟨hc1, hc2⟩
                              apply hnp
                              constructor
                              · obtain ⟨t, ht⟩ := hc1
                                exact ⟨t, by rw [List.cons_append, ht]⟩
                              · intro hcon
                                exact hc2 (List.cons.injEq _ _ _ _ ▸ hcon).2)]
                            by_cases h2 : (k2 :: qr) = (j :: rest)
                            · rw [if_pos h2, if_pos (by rw [h2])]
                              all_goals simp [getNode, hfi, hcl]
                            · rw [if_neg h2, if_neg (by
                                intro hcon
                                exact h2 (List.cons.injEq _ _ _ _ ▸ hcon).2)]
                              all_goals simp [getNode, hfi, hcl]
                  · have hne2 : (k :: k2 :: qr) ≠ (i :: j :: rest) := by
                      intro hcon
                      exact h (List.cons.injEq _ _ _ _ ▸ hcon).1
                    rw [if_neg h, if_neg hne2]
                    simp [getNode]

lemma getNode_updateAt_self (g : INode → INode) (hg : ∀ n, (g n).children = n.children)
    (f : Forest) (p : NPath) :
    getNode (updateAt f p g) p = (getNode f p).map g := by
  by_cases hp : p = []
  · subst hp
    rw [updateAt]
    simp [getNode]
  · rw [getNode_updateAt g hg p f p (by simp), if_pos rfl]

lemma childrenAt_updateAt_of_prefix (g : INode → INode)
    (hg : ∀ n, (g n).children = n.children) (f : Forest) (p q : NPath) (hpq : p <+: q) :
    childrenAt (updateAt f p g) q = childrenAt f q := by
  by_cases hqp : q = p
  · subst hqp
    rw [childrenAt, getNode_updateAt_self g hg]
    cases hx : getNode f q with
    | none => simp [childrenAt, hx]
    | some n => simp [childrenAt, hx, hg n]
  · rw [childrenAt, getNode_updateAt g hg p f q (by
      intro ⟨hc1, _⟩
      exact hqp (List.IsPrefix.eq_of_length hc1 (le_antisymm hc1.length_le hpq.length_le))),
      if_neg hqp]
    rfl

lemma markDirty_childrenAt (f : Forest) (p : NPath) :
    ∀ q, p <+: q → childrenAt (markDirty f p) q = childrenAt f q := by
  induction f, p using markDirty.induct with
  | case1 f p hget => intro q _; rw [markDirty_none hget]
  | case2 f p n hget hdirty => intro q _; rw [markDirty_of_dirty hget (by simpa using hdirty)]
  | case3 f p n hget hdirty hq =>
      intro q hpq
      rw [markDirty_root hget (by simpa using hdirty) hq]
      exact childrenAt_updateAt_of_prefix _ INode.children_setDirty f p q hpq
  | case4 f p n hget hdirty q2 hq ih =>
      intro q hpq
      rw [markDirty_parent hget (by simpa using hdirty) hq]
      rw [ih q (prefix_trans (parentPath_isPrefix hq) hpq)]
      exact childrenAt_updateAt_of_prefix _ INode.children_setDirty f p q hpq

/-! ## Dynamic loading (TreeNode.loadChildren / TreeNode.expand) -/

/-- The tree-level state threaded through mutation operations: the node
model, the DOM batching state, the emitted events, and a count of
`config.data` loader invocations. -/
structure TState where
  model : Forest
  dom : DomState
  events : List Event
  fetches : Nat

/-- `node.state(name, v)` on a tree state. -/
def stateSetT (s : TState) (p : NPath) (name : String) (v : Bool) : TState :=
  { s with model := (stateSet s.model p name v).1,
           events := s.events ++ (stateSet s.model p name v).2 }

/-- `node.markDirty()` on a tree state. -/
def markDirtyT (s : TState) (p : NPath) : TState :=
  { s with model := markDirty s.model p }

/-- `dom.applyChanges()` on a tree state. -/
def applyChangesT (s : TState) : TState :=
  { s with dom := applyChanges s.dom }

/-- `dom.batch()` on a tree state. -/
def batchT (s : TState) : TState :=
  { s with dom := batch s.dom }

/-- `dom.end()` on a tree state. -/
def endT (s : TState) : TState :=
  { s with dom := domEnd s.dom }

/-- Outcome of the promise returned by `loadChildren` (first settle
wins, as for a JS promise). -/
inductive PromiseState where
  | pending
  | rejectedGuard
  | rejectedErr
  | resolvedChildren
  deriving DecidableEq, Repr

/-- Settle a promise: only a pending promise takes a new outcome. -/
def settle (pr new : PromiseState) : PromiseState :=
  if pr = PromiseState.pending then new else pr

/-- Whether `children` is the unloaded sentinel (`children === true`
in the source). -/
def INode.isUnloaded (n : INode) : Bool :=
  match n.children with
  | some none => true
  | _ => false

/-- Set `node.children` to a fresh empty collection (with its context
pointed back at the node, which the path model keeps implicit). -/
def INode.setChildrenEmpty : INode → INode
  | .mk i t s d _ => .mk i t s d (some (some []))

/-- The synchronous part of `TreeNode.loadChildren()` up to invoking
the configured data loader: reject the promise when the tree is not
dynamic or `children` is not the `true` sentinel (the source does not
return after this reject, so the rest still runs), set `loading`, mark
dirty, apply changes, and invoke `config.data` (counted in `fetches`).
-/
def loadChildrenStart (isDynamic : Bool) (s : TState) (p : NPath) : TState × PromiseState :=
  match getNode s.model p with
  | none => (s, PromiseState.pending)
  | some n =>
      let pr := if !isDynamic || !n.isUnloaded
        then PromiseState.rejectedGuard else PromiseState.pending
      let s1 := stateSetT s p "loading" true
      let s2 := markDirtyT s1 p
      let s3 := applyChangesT s2
      ({ s3 with fetches := s3.fetches + 1 }, pr)

/-- The `error` callback of `loadChildren`: clear `loading`, replace
`children` with a fresh empty collection, mark dirty, apply changes,
reject the promise with the loader's error, and emit `tree.loaderror`.
-/
def loadError (s : TState) (p : NPath) (pr : PromiseState) : TState × PromiseState :=
  let s1 := stateSetT s p "loading" false
  let s2 := { s1 with model := markDirty (updateAt s1.model p INode.setChildrenEmpty) p }
  let s3 := applyChangesT s2
  ({ s3 with events := s3.events ++ [Event.loadError] },
   settle pr PromiseState.rejectedErr)

/-- `TreeNode.expand()`: when the node can expand (has children or is
an unloaded dynamic node) and is collapsed or hidden, clear `collapsed`
and `hidden`, emit `node.expanded`, and either start a dynamic load
(returning its pending promise) or mark dirty, apply changes and
resolve immediately. Returns `some` of the load's promise state when a
dynamic load was triggered, `none` otherwise. -/
def expand (isDynamic : Bool) (s : TState) (p : NPath) : TState × Option PromiseState :=
  match getNode s.model p with
  | none => (s, none)
  | some n =>
      let allow := n.hasChildren || (isDynamic && n.isUnloaded)
      if allow && (n.stateB "collapsed" || n.stateB "hidden") then
        let s1 := stateSetT s p "collapsed" false
        let s2 := stateSetT s1 p "hidden" false
        let s3 := { s2 with events := s2.events ++ [Event.verb "expanded" n.id] }
        if isDynamic && n.isUnloaded then
          let r := loadChildrenStart isDynamic s3 p
          (r.1, some r.2)
        else
          (applyChangesT (markDirtyT s3 p), none)
      else (s, none)

lemma getNode_updateAt_self_any (g : INode → INode) :
    ∀ (p : NPath) (f : Forest), getNode (updateAt f p g) p = (getNode f p).map g := by
  intro p
  induction p with
  | nil => intro f; rw [updateAt]; simp [getNode]
  | cons i p' ih =>
      intro f
      cases p' with
      | nil =>
          rw [updateAt]
          show (modifyList g f i)[i]? = _
          rw [modifyList_getElem?, if_pos rfl]
          rfl
      | cons j rest =>
          rw [updateAt]
          show getNode (modifyList _ f i) (i :: j :: rest) = _
          rw [getNode, modifyList_getElem?, if_pos rfl]
          cases hfi : f[i]? with
          | none => simp [getNode, hfi]
          | some n =>
              simp only [Option.map_some']
              rw [childList_withChildList]
              cases hcl : n.childList with
              | none => simp [getNode, hfi, hcl]
              | some l =>
                  simp only [Option.map_some']
                  rw [ih l]
                  simp [getNode, hfi, hcl]

lemma fieldsAt_updateAt_self (g : INode → INode)
    (hfields : ∀ n, (g n).id = n.id ∧ (g n).text = n.text ∧ (g n).state = n.state)
    (f : Forest) (p : NPath) :
    fieldsAt (updateAt f p g) p = fieldsAt f p := by
  rw [fieldsAt, getNode_updateAt_self_any g p f, Option.map_map]
  cases hx : getNode f p with
  | none => simp [fieldsAt, hx]
  | some n =>
      simp [fieldsAt, hx, Function.comp, (hfields n).1, (hfields n).2.1, (hfields n).2.2]

lemma lookup_setFlag_other (name name' : String) (v : Bool) (hne : name' ≠ name) :
    ∀ st : List (String × Bool), (setFlag name v st).lookup name' = st.lookup name' := by
  intro st
  induction st with
  | nil =>
      simp only [setFlag, List.lookup]
      rw [show (name' == name) = false from beq_eq_false_iff_ne.mpr hne]
  | cons kv rest ih =>
      obtain ⟨k, w⟩ := kv
      by_cases h : k = name
      · subst h
        simp only [setFlag, if_pos rfl, List.lookup]
        rw [show (name' == k) = false from beq_eq_false_iff_ne.mpr hne]
      · simp only [setFlag, if_neg h, List.lookup]
        cases hbk : (name' == k) with
        | true => rfl
        | false => exact ih

lemma stateSet_isSome (f : Forest) (p : NPath) (name : String) (v : Bool) (q : NPath) :
    (getNode (stateSet f p name v).1 q).isSome = (getNode f q).isSome := by
  rw [stateSet]
  cases hget : getNode f p with
  | none => rfl
  | some n =>
      dsimp only
      split
      · rw [markDirty_isSome, isSome_getNode_updateAt _ (INode.children_setFlagN name v)]
      · rfl

lemma stateSet_flagAt_self (f : Forest) (p : NPath) (name : String) (v : Bool)
    (n : INode) (h : getNode f p = some n) :
    flagAt (stateSet f p name v).1 p name = some (some v) := by
  rw [stateSet, h]
  dsimp only
  split
  · rw [flagAt_eq_fieldsAt, markDirty_fieldsAt,
      fieldsAt_updateAt _ (INode.children_setFlagN name v), if_pos rfl, h]
    simp [INode.state_setFlagN, lookup_setFlag_self]
  · rename_i hcond
    rw [flagAt, h]
    simp only [Option.map_some', Option.some.injEq]
    rw [INode.stateRaw] at hcond ⊢
    by_cases hx : n.state.lookup name = some v
    · exact hx
    · exact absurd hx (by simpa using hcond)

lemma stateSet_flagAt_other (f : Forest) (p : NPath) (name : String) (v : Bool)
    (name' : String) (hne : name' ≠ name) (q : NPath) :
    flagAt (stateSet f p name v).1 q name' = flagAt f q name' := by
  rw [stateSet]
  cases hget : getNode f p with
  | none => rfl
  | some n =>
      dsimp only
      split
      · rw [flagAt_eq_fieldsAt, markDirty_fieldsAt,
          fieldsAt_updateAt _ (INode.children_setFlagN name v)]
        by_cases hqp : q = p
        · subst hqp
          rw [if_pos rfl, hget, flagAt_eq_fieldsAt, fieldsAt, hget]
          simp [INode.state_setFlagN, INode.id_setFlagN, INode.text_setFlagN,
            INode.stateRaw, lookup_setFlag_other name name' v hne]
        · rw [if_neg hqp, flagAt_eq_fieldsAt]
      · rfl

lemma stateSet_childrenAt (f : Forest) (p : NPath) (name : String) (v : Bool)
    (q : NPath) (hpq : p <+: q) :
    childrenAt (stateSet f p name v).1 q = childrenAt f q := by
  rw [stateSet]
  cases hget : getNode f p with
  | none => rfl
  | some n =>
      dsimp only
      split
      · rw [markDirty_childrenAt _ p q hpq,
          childrenAt_updateAt_of_prefix _ (INode.children_setFlagN name v) f p q hpq]
      · rfl

lemma stateSet_events_no_loadError (f : Forest) (p : NPath) (name : String) (v : Bool) :
    (stateSet f p name v).2.count Event.loadError = 0 := by
  rw [stateSet]
  cases hget : getNode f p with
  | none => rfl
  | some n =>
      dsimp only
      split
      · simp [List.count_cons, List.count_nil]
      · rfl

lemma INode.children_setChildrenEmpty (n : INode) :
    n.setChildrenEmpty.children = some (some []) := by cases n; rfl

lemma INode.fields_setChildrenEmpty (n : INode) :
    n.setChildrenEmpty.id = n.id ∧ n.setChildrenEmpty.text = n.text ∧
      n.setChildrenEmpty.state = n.state := by
  cases n; exact ⟨rfl, rfl, rfl⟩

lemma isUnloaded_congr {n m : INode} (h : n.children = m.children) :
    n.isUnloaded = m.isUnloaded := by
  rw [INode.isUnloaded, INode.isUnloaded, h]

lemma flagBAt_eq (f : Forest) (q : NPath) (name : String) :
    flagBAt f q name = (flagAt f q name).map (fun o => o.getD false) := by
  rw [flagBAt, flagAt, Option.map_map]
  rfl

lemma expand_unfold (s : TState) (p : NPath) (n : INode)
    (h : getNode s.model p = some n) (hu : n.isUnloaded = true)
    (hcol : n.stateB "collapsed" = true) :
    expand true s p =
      ({ model := markDirty (stateSet (stateSet (stateSet s.model p "collapsed" false).1
            p "hidden" false).1 p "loading" true).1 p,
         dom := applyChanges s.dom,
         events := s.events ++ (stateSet s.model p "collapsed" false).2
           ++ (stateSet (stateSet s.model p "collapsed" false).1 p "hidden" false).2
           ++ [Event.verb "expanded" n.id]
           ++ (stateSet (stateSet (stateSet s.model p "collapsed" false).1
                p "hidden" false).1 p "loading" true).2,
         fetches := s.fetches + 1 }, some PromiseState.pending) := by
  have hm2v : (getNode (stateSet (stateSet s.model p "collapsed" false).1
      p "hidden" false).1 p).isSome := by
    rw [stateSet_isSome, stateSet_isSome]
    simp [h]
  obtain ⟨n3, hn3⟩ := Option.isSome_iff_exists.mp hm2v
  have hch3 : n3.children = n.children := by
    have h1 := stateSet_childrenAt (stateSet s.model p "collapsed" false).1
      p "hidden" false p (List.prefix_refl p)
    have h2 := stateSet_childrenAt s.model p "collapsed" false p (List.prefix_refl p)
    rw [h2] at h1
    rw [childrenAt, hn3, childrenAt, h] at h1
    simpa using h1
  have hu3 : n3.isUnloaded = true := by
    rw [isUnloaded_congr hch3]
    exact hu
  rw [expand, h]
  dsimp only
  rw [if_pos (by rw [hu, hcol]; simp)]
  rw [if_pos (by rw [hu]; rfl)]
  rw [loadChildrenStart]
  dsimp only [stateSetT, markDirtyT, applyChangesT]
  rw [hn3]
  dsimp only
  rw [show (!true || !n3.isUnloaded) = false by rw [hu3]; rfl]
  rfl

lemma markDirty_flagAt (f : Forest) (p q : NPath) (name : String) :
    flagAt (markDirty f p) q name = flagAt f q name := by
  rw [flagAt_eq_fieldsAt, markDirty_fieldsAt, ← flagAt_eq_fieldsAt]

lemma childShape_setChildrenEmpty (n : INode) :
    n.setChildrenEmpty.childShape = some (some 0) := by
  cases n; rfl

/-- C6. A failed dynamic child load recovers locally: after `expand`
on an unloaded, collapsed dynamic node triggered the load (the returned
load promise is pending), the error callback leaves `loading = false`,
`children` a concrete empty collection (not the sentinel), `collapsed`
still false from the expand, the node dirty, the promise rejected with
the loader's error, and exactly one `tree.loaderror` notification
emitted; the loader itself was invoked exactly once. -/
theorem load_failure_spec (s : TState) (p : NPath) (n : INode)
    (h : getNode s.model p = some n) (hu : n.isUnloaded = true)
    (hcol : n.stateB "collapsed" = true) :
    (expand true s p).2 = some PromiseState.pending ∧
    (loadError (expand true s p).1 p PromiseState.pending).2 = PromiseState.rejectedErr ∧
    flagBAt (loadError (expand true s p).1 p PromiseState.pending).1.model p "loading"
      = some false ∧
    shapeAt (loadError (expand true s p).1 p PromiseState.pending).1.model p
      = some (some (some 0)) ∧
    flagBAt (loadError (expand true s p).1 p PromiseState.pending).1.model p "collapsed"
      = some false ∧
    dirtyAt (loadError (expand true s p).1 p PromiseState.pending).1.model p = some true ∧
    (loadError (expand true s p).1 p PromiseState.pending).1.events.count Event.loadError
      = s.events.count Event.loadError + 1 ∧
    (expand true s p).1.fetches = s.fetches + 1 := by
  rw [expand_unfold s p n h hu hcol]
  dsimp only [loadError, stateSetT, applyChangesT]
  have hv1 : (getNode (stateSet s.model p "collapsed" false).1 p).isSome = true := by
    rw [stateSet_isSome]; simp [h]
  have hv2 : (getNode (stateSet (stateSet s.model p "collapsed" false).1
      p "hidden" false).1 p).isSome = true := by
    rw [stateSet_isSome]; exact hv1
  have hv4 : (getNode (stateSet (stateSet (stateSet s.model p "collapsed" false).1
      p "hidden" false).1 p "loading" true).1 p).isSome = true := by
    rw [stateSet_isSome]; exact hv2
  have hv5 : (getNode (markDirty (stateSet (stateSet (stateSet s.model
      p "collapsed" false).1 p "hidden" false).1 p "loading" true).1 p) p).isSome = true := by
    rw [markDirty_isSome]; exact hv4
  have hvL1 : (getNode (stateSet (markDirty (stateSet (stateSet (stateSet s.model
      p "collapsed" false).1 p "hidden" false).1 p "loading" true).1 p)
      p "loading" false).1 p).isSome = true := by
    rw [stateSet_isSome]; exact hv5
  have hvU : (getNode (updateAt (stateSet (markDirty (stateSet (stateSet (stateSet s.model
      p "collapsed" false).1 p "hidden" false).1 p "loading" true).1 p)
      p "loading" false).1 p INode.setChildrenEmpty) p).isSome = true := by
    rw [getNode_updateAt_self_any]
    simpa using hvL1
  obtain ⟨n5, hn5⟩ := Option.isSome_iff_exists.mp hv5
  obtain ⟨nL1, hnL1⟩ := Option.isSome_iff_exists.mp hvL1
  refine ⟨rfl, rfl, ?_, ?_, ?_, ?_, ?_, rfl⟩
  · rw [flagBAt_eq, flagAt_eq_fieldsAt, markDirty_fieldsAt,
      fieldsAt_updateAt_self _ INode.fields_setChildrenEmpty, ← flagAt_eq_fieldsAt,
      stateSet_flagAt_self _ _ _ _ n5 hn5]
    rfl
  · rw [markDirty_shapeAt, shapeAt, getNode_updateAt_self_any, Option.map_map, hnL1]
    simp [Function.comp, childShape_setChildrenEmpty]
  · rw [flagBAt_eq, flagAt_eq_fieldsAt, markDirty_fieldsAt,
      fieldsAt_updateAt_self _ INode.fields_setChildrenEmpty, ← flagAt_eq_fieldsAt,
      stateSet_flagAt_other _ _ _ _ "collapsed" (by decide),
      markDirty_flagAt,
      stateSet_flagAt_other _ _ _ _ "collapsed" (by decide),
      stateSet_flagAt_other _ _ _ _ "collapsed" (by decide)]
    obtain ⟨n0, hn0⟩ : ∃ n0, getNode s.model p = some n0 := ⟨n, h⟩
    rw [stateSet_flagAt_self _ _ _ _ n0 hn0]
    rfl
  · exact markDirty_dirtyAt_self _ p hvU
  · simp only [List.count_append]
    rw [stateSet_events_no_loadError, stateSet_events_no_loadError,
      stateSet_events_no_loadError, stateSet_events_no_loadError]
    simp [List.count_cons, List.count_nil]

/-- A one-node dynamic tree state (unloaded, collapsed root) for the
C6 witness. -/
def ldWState : TState :=
  ⟨[INode.mk "1" "A" [("collapsed", true)] false (some none)], ⟨0, 0⟩, [], 0⟩

/-- Witness for C6 on `ldWState`. -/
theorem load_failure_spec_witness :
    getNode ldWState.model [0]
      = some (INode.mk "1" "A" [("collapsed", true)] false (some none)) ∧
    (INode.mk "1" "A" [("collapsed", true)] false (some none)).isUnloaded = true ∧
    (INode.mk "1" "A" [("collapsed", true)] false (some none)).stateB "collapsed" = true ∧
    ((expand true ldWState [0]).2 = some PromiseState.pending ∧
     (loadError (expand true ldWState [0]).1 [0] PromiseState.pending).2
       = PromiseState.rejectedErr ∧
     flagBAt (loadError (expand true ldWState [0]).1 [0] PromiseState.pending).1.model
       [0] "loading" = some false ∧
     shapeAt (loadError (expand true ldWState [0]).1 [0] PromiseState.pending).1.model
       [0] = some (some (some 0)) ∧
     flagBAt (loadError (expand true ldWState [0]).1 [0] PromiseState.pending).1.model
       [0] "collapsed" = some false ∧
     dirtyAt (loadError (expand true ldWState [0]).1 [0] PromiseState.pending).1.model
       [0] = some true ∧
     (loadError (expand true ldWState [0]).1 [0]
       PromiseState.pending).1.events.count Event.loadError
       = ldWState.events.count Event.loadError + 1 ∧
     (expand true ldWState [0]).1.fetches = ldWState.fetches + 1) :=
  ⟨rfl, rfl, rfl,
    load_failure_spec ldWState [0]
      (INode.mk "1" "A" [("collapsed", true)] false (some none)) rfl rfl rfl⟩

lemma loadChildrenStart_unfold (s : TState) (p : NPath) (n : INode)
    (h : getNode s.model p = some n) (hu : n.isUnloaded = true) :
    loadChildrenStart true s p =
      ({ model := markDirty (stateSet s.model p "loading" true).1 p,
         dom := applyChanges s.dom,
         events := s.events ++ (stateSet s.model p "loading" true).2,
         fetches := s.fetches + 1 }, PromiseState.pending) := by
  rw [loadChildrenStart, h]
  dsimp only [stateSetT, markDirtyT, applyChangesT]
  rw [show (!true || !n.isUnloaded) = false by rw [hu]; rfl]
  rfl

/-- A one-node unloaded dynamic tree state for exercising re-entrant
loading. -/
def lc2WState : TState := ⟨[INode.mk "1" "A" [] false (some none)], ⟨0, 0⟩, [], 0⟩

/-- C7 (violated by the code). After a first `loadChildren` call has
put the node into `loading = true` with its fetch in flight, a second
`loadChildren` call is *not* rejected — its promise is still pending —
and it invokes the configured data loader a second time: the fetch
count reaches 2. The source has no `loading` guard; it only rejects
when the tree is not dynamic or `children` is not the sentinel. -/
theorem loadChildren_double_fetch :
    flagBAt (loadChildrenStart true lc2WState [0]).1.model [0] "loading" = some true ∧
    (loadChildrenStart true lc2WState [0]).2 = PromiseState.pending ∧
    (loadChildrenStart true (loadChildrenStart true lc2WState [0]).1 [0]).2
      = PromiseState.pending ∧
    (loadChildrenStart true (loadChildrenStart true lc2WState [0]).1 [0]).1.fetches = 2 := by
  have hA := loadChildrenStart_unfold lc2WState [0]
    (INode.mk "1" "A" [] false (some none)) rfl rfl
  have e1 : (stateSet lc2WState.model [0] "loading" true).1 =
      markDirty [INode.mk "1" "A" [("loading", true)] false (some none)] [0] := by
    rw [stateSet]
    rfl
  have e2 : markDirty [INode.mk "1" "A" [("loading", true)] false (some none)] [0] =
      [INode.mk "1" "A" [("loading", true)] true (some none)] := by
    rw [@markDirty_root [INode.mk "1" "A" [("loading", true)] false (some none)] [0]
      (INode.mk "1" "A" [("loading", true)] false (some none)) rfl rfl rfl]
    rfl
  have e3 : markDirty [INode.mk "1" "A" [("loading", true)] true (some none)] [0] =
      [INode.mk "1" "A" [("loading", true)] true (some none)] :=
    @markDirty_of_dirty [INode.mk "1" "A" [("loading", true)] true (some none)] [0]
      (INode.mk "1" "A" [("loading", true)] true (some none)) rfl rfl
  have hM1 : (loadChildrenStart true lc2WState [0]).1.model =
      [INode.mk "1" "A" [("loading", true)] true (some none)] := by
    rw [hA]
    show markDirty (stateSet lc2WState.model [0] "loading" true).1 [0] = _
    rw [e1, e2, e3]
  have hB := loadChildrenStart_unfold (loadChildrenStart true lc2WState [0]).1 [0]
    (INode.mk "1" "A" [("loading", true)] true (some none))
    (by rw [hM1]; rfl) rfl
  refine ⟨?_, ?_, ?_, ?_⟩
  · rw [hM1]
    rfl
  · rw [hA]
  · rw [hB]
  · rw [hB]
    show (loadChildrenStart true lc2WState [0]).1.fetches + 1 = 2
    rw [hA]
    rfl


/-! ### Further frame lemmas (arbitrary node updates) -/

/-- The id of the node at `q`. -/
def idAt (f : Forest) (q : NPath) : Option String :=
  (getNode f q).map INode.id

/-- The text of the node at `q`. -/
def textAt (f : Forest) (q : NPath) : Option String :=
  (getNode f q).map INode.text

lemma getNode_updateAt_incomp (g : INode → INode) :
    ∀ (p : NPath) (f : Forest) (q : NPath), ¬ p <+: q → ¬ q <+: p →
      getNode (updateAt f p g) q = getNode f q := by
  intro p
  induction p with
  | nil => intro f q hpq _; exact absurd List.nil_prefix hpq
  | cons i p' ih =>
      intro f q hpq hqp
      cases q with
      | nil => exact absurd List.nil_prefix hqp
      | cons k q' =>
          by_cases hik : k = i
          · subst hik
            cases p' with
            | nil =>
                cases q' with
                | nil => exact absurd (List.prefix_refl _) hpq
                | cons k2 qr => exact absurd ⟨k2 :: qr, rfl⟩ hpq
            | cons j rest =>
                cases q' with
                | nil => exact absurd ⟨j :: rest, rfl⟩ hqp
                | cons k2 qr =>
                    rw [updateAt]
                    show getNode (modifyList _ f k) (k :: k2 :: qr) = _
                    rw [getNode, modifyList_getElem?, if_pos rfl]
                    cases hfi : f[k]? with
                    | none => simp [getNode, hfi]
                    | some n =>
                        simp only [Option.map_some']
                        rw [childList_withChildList]
                        cases hcl : n.childList with
                        | none => simp [getNode, hfi, hcl]
                        | some l =>
                            simp only [Option.map_some']
                            rw [ih l (k2 :: qr)
                              (by intro ⟨t, ht⟩; exact hpq ⟨t, by rw [List.cons_append, ht]⟩)
                              (by intro ⟨t, ht⟩; exact hqp ⟨t, by rw [List.cons_append, ht]⟩)]
                            simp [getNode, hfi, hcl]
          · cases p' with
            | nil =>
                rw [updateAt]
                cases q' with
                | nil =>
                    show (modifyList g f i)[k]? = _
                    rw [modifyList_getElem?, if_neg hik]
                    rfl
                | cons k2 qr =>
                    show getNode (modifyList g f i) (k :: k2 :: qr) = _
                    rw [getNode, modifyList_getElem?, if_neg hik]
                    rw [getNode]
            | cons j rest =>
                rw [updateAt]
                cases q' with
                | nil =>
                    show (modifyList _ f i)[k]? = _
                    rw [modifyList_getElem?, if_neg hik]
                    rfl
                | cons k2 qr =>
                    show getNode (modifyList _ f i) (k :: k2 :: qr) = _
                    rw [getNode, modifyList_getElem?, if_neg hik]
                    rw [getNode]

lemma fieldsShapeAt_updateAt_above (g : INode → INode) :
    ∀ (p : NPath) (f : Forest) (q : NPath), q <+: p → q ≠ p →
      fieldsAt (updateAt f p g) q = fieldsAt f q ∧
      shapeAt (updateAt f p g) q = shapeAt f q := by
  intro p
  induction p with
  | nil =>
      intro f q hq hne
      exact absurd (List.prefix_nil.mp hq) hne
  | cons i p' ih =>
      intro f q hq hne
      cases q with
      | nil => simp [fieldsAt, shapeAt, getNode]
      | cons k q' =>
          have hki : k = i := by
            obtain ⟨t, ht⟩ := hq
            exact (List.cons.injEq _ _ _ _ ▸ ht.symm).1.symm
          subst hki
          have hq' : q' <+: p' := by
            obtain ⟨t, ht⟩ := hq
            exact ⟨t, by simpa using ht⟩
          have hne' : q' ≠ p' := by
            intro hcon
            exact hne (by rw [hcon])
          cases p' with
          | nil => exact absurd (List.prefix_nil.mp hq') hne'
          | cons j rest =>
              rw [updateAt]
              cases q' with
              | nil =>
                  constructor
                  · rw [fieldsAt, fieldsAt]
                    show ((modifyList _ f k)[k]?.map _) = _
                    rw [modifyList_getElem?, if_pos rfl]
                    cases hfi : f[k]? with
                    | none => simp [getNode, hfi]
                    | some n =>
                        simp only [Option.map_some', getNode, hfi]
                        rw [show (INode.withChildList (fun l => updateAt l (j :: rest) g) n).id
                            = n.id from congrArg (fun c => c.1) (core_withChildList _ n),
                          show (INode.withChildList (fun l => updateAt l (j :: rest) g) n).text
                            = n.text from congrArg (fun c => c.2.1) (core_withChildList _ n),
                          show (INode.withChildList (fun l => updateAt l (j :: rest) g) n).state
                            = n.state from congrArg (fun c => c.2.2.1) (core_withChildList _ n)]
                  · rw [shapeAt, shapeAt]
                    show ((modifyList _ f k)[k]?.map _) = _
                    rw [modifyList_getElem?, if_pos rfl]
                    cases hfi : f[k]? with
                    | none => simp [getNode, hfi]
                    | some n =>
                        simp only [Option.map_some', getNode, hfi]
                        rw [childShape_withChildList _
                          (fun l => updateAt_length g l (j :: rest)) n]
              | cons k2 qr =>
                  have hfs : fieldsAt (updateAt f (k :: j :: rest) g) (k :: k2 :: qr)
                        = fieldsAt f (k :: k2 :: qr) ∧
                      shapeAt (updateAt f (k :: j :: rest) g) (k :: k2 :: qr)
                        = shapeAt f (k :: k2 :: qr) := by
                    rw [updateAt]
                    constructor
                    · rw [fieldsAt, fieldsAt, getNode, getNode, modifyList_getElem?, if_pos rfl]
                      cases hfi : f[k]? with
                      | none => simp
                      | some n =>
                          simp only [Option.map_some']
                          rw [childList_withChildList]
                          cases hcl : n.childList with
                          | none => simp
                          | some l =>
                              simp only [Option.map_some']
                              exact (ih l (k2 :: qr) hq' hne').1
                    · rw [shapeAt, shapeAt, getNode, getNode, modifyList_getElem?, if_pos rfl]
                      cases hfi : f[k]? with
                      | none => simp
                      | some n =>
                          simp only [Option.map_some']
                          rw [childList_withChildList]
                          cases hcl : n.childList with
                          | none => simp
                          | some l =>
                              simp only [Option.map_some']
                              exact (ih l (k2 :: qr) hq' hne').2
                  exact hfs

lemma idAt_eq_fieldsAt (f : Forest) (q : NPath) :
    idAt f q = (fieldsAt f q).map (fun c => c.1) := by
  rw [idAt, fieldsAt, Option.map_map]
  rfl

lemma textAt_eq_fieldsAt (f : Forest) (q : NPath) :
    textAt f q = (fieldsAt f q).map (fun c => c.2.1) := by
  rw [textAt, fieldsAt, Option.map_map]
  rfl

lemma stateSet_idAt (f : Forest) (p : NPath) (name : String) (v : Bool) (q : NPath) :
    idAt (stateSet f p name v).1 q = idAt f q := by
  rw [stateSet]
  cases hget : getNode f p with
  | none => rfl
  | some n =>
      dsimp only
      split
      · rw [idAt_eq_fieldsAt, markDirty_fieldsAt,
          fieldsAt_updateAt _ (INode.children_setFlagN name v)]
        by_cases hqp : q = p
        · subst hqp
          rw [if_pos rfl, idAt_eq_fieldsAt, fieldsAt, hget]
          simp [INode.id_setFlagN]
        · rw [if_neg hqp, idAt_eq_fieldsAt]
      · rfl

lemma stateSet_textAt (f : Forest) (p : NPath) (name : String) (v : Bool) (q : NPath) :
    textAt (stateSet f p name v).1 q = textAt f q := by
  rw [stateSet]
  cases hget : getNode f p with
  | none => rfl
  | some n =>
      dsimp only
      split
      · rw [textAt_eq_fieldsAt, markDirty_fieldsAt,
          fieldsAt_updateAt _ (INode.children_setFlagN name v)]
        by_cases hqp : q = p
        · subst hqp
          rw [if_pos rfl, textAt_eq_fieldsAt, fieldsAt, hget]
          simp [INode.text_setFlagN]
        · rw [if_neg hqp, textAt_eq_fieldsAt]
      · rfl

lemma stateSet_shapeAt (f : Forest) (p : NPath) (name : String) (v : Bool) (q : NPath) :
    shapeAt (stateSet f p name v).1 q = shapeAt f q := by
  rw [stateSet]
  cases hget : getNode f p with
  | none => rfl
  | some n =>
      dsimp only
      split
      · rw [markDirty_shapeAt, shapeAt_updateAt _ (INode.children_setFlagN name v)]
      · rfl

lemma stateSet_fieldsAt_ne (f : Forest) (p : NPath) (name : String) (v : Bool)
    (q : NPath) (hqp : q ≠ p) :
    fieldsAt (stateSet f p name v).1 q = fieldsAt f q := by
  rw [stateSet]
  cases hget : getNode f p with
  | none => rfl
  | some n =>
      dsimp only
      split
      · rw [markDirty_fieldsAt, fieldsAt_updateAt _ (INode.children_setFlagN name v),
          if_neg hqp]
      · rfl

lemma length_filter_eq_iff {α : Type} (pred : α → Bool) :
    ∀ l : List α, ((l.filter pred).length = l.length ↔ ∀ x ∈ l, pred x = true) := by
  intro l
  induction l with
  | nil => simp
  | cons a rest ih =>
      simp only [List.filter_cons]
      by_cases ha : pred a = true
      · rw [if_pos ha]
        simp only [List.length_cons]
        constructor
        · intro h x hx
          rcases List.mem_cons.mp hx with h1 | h2
          · subst h1; exact ha
          · exact (ih.mp (by omega)) x h2
        · intro h
          have := ih.mpr (fun x hx => h x (List.mem_cons_of_mem a hx))
          omega
      · rw [if_neg ha]
        constructor
        · intro h
          exfalso
          have hle := List.length_filter_le pred rest
          simp only [List.length_cons] at h
          omega
        · intro h
          exact absurd (h a (List.mem_cons_self a rest)) ha

/-! ## Selection (TreeNode.select / refreshIndeterminateState) -/

/-- The configuration flags the selection operations read. The tree
class itself is not under src/: `showCheckboxes` and
`selection.autoSelectChildren` are read-only configuration per the
spec; `canAutoDeselect` stands for the tree's helper of that name
(modelled from the spec: true when single-selection auto-deselection
applies, false in multi-selection mode). -/
structure Config where
  showCheckboxes : Bool
  autoSelectChildren : Bool
  canAutoDeselect : Bool
  allow : Option Bool

/-- Modelled from the spec: `InspireTree.baseStateChange` (tree.ts is
not under src/) — when the raw stored flag differs from the target
value, set it via the node's `state` setter, emit the corresponding
`node.<verb>` notification, mark the node dirty and apply changes;
otherwise fail silently. -/
def baseStateChange (s : TState) (p : NPath) (prop : String) (value : Bool)
    (verb : String) : TState :=
  match getNode s.model p with
  | none => s
  | some n =>
      if n.stateRaw prop ≠ some value then
        let s1 := stateSetT s p prop value
        let s2 := { s1 with events := s1.events ++ [Event.verb verb n.id] }
        applyChangesT (markDirtyT s2 p)
      else s

/-- The per-node body of `refreshIndeterminateState`: reset
`indeterminate`, then (when the node has children) recompute `selected`
and — when not all children are selected — `indeterminate` from the
direct children's counts. -/
def refreshIndetLocal (s : TState) (q : NPath) (n : INode) : TState :=
  let s1 := stateSetT s q "indeterminate" false
  if n.hasChildren then
    let kids := n.childList.getD []
    let childrenCount := kids.length
    let selCount := (kids.filter (fun c => c.stateB "selected")).length
    let indCount := (kids.filter (fun c => c.stateB "indeterminate")).length
    let s2 := stateSetT s1 q "selected" (decide (selCount = childrenCount))
    if ¬ (selCount = childrenCount) then
      stateSetT s2 q "indeterminate"
        (decide (0 < indCount) ||
          (decide (0 < childrenCount) && decide (0 < selCount)
            && decide (selCount < childrenCount)))
    else s2
  else s1

/-- The closing step of `refreshIndeterminateState`: mark the node
dirty when the raw `indeterminate` value changed from the value read at
entry. -/
def dirtyStep (q : NPath) (n : INode) (sB : TState) : TState :=
  if n.stateRaw "indeterminate" ≠ (flagAt sB.model q "indeterminate").getD none
  then markDirtyT sB q else sB

/-- `TreeNode.refreshIndeterminateState`: reset `indeterminate`, then —
when checkboxes are shown — recompute `selected`/`indeterminate` from
the direct children's counts, recurse to the parent, and mark dirty
when the raw `indeterminate` value changed. -/
def refreshIndet (cfg : Config) (s : TState) (q : NPath) : TState :=
  match getNode s.model q with
  | none => s
  | some n =>
      if cfg.showCheckboxes then
        let sA := refreshIndetLocal s q n
        let sB :=
          match hq : parentPath q with
          | none => sA
          | some q2 => refreshIndet cfg sA q2
        dirtyStep q n sB
      else stateSetT s q "indeterminate" false
termination_by q.length
decreasing_by exact parentPath_length hq

lemma refreshIndet_none {cfg : Config} {s : TState} {q : NPath}
    (h : getNode s.model q = none) : refreshIndet cfg s q = s := by
  rw [refreshIndet, h]

lemma refreshIndet_nocb {cfg : Config} {s : TState} {q : NPath} {n : INode}
    (h : getNode s.model q = some n) (hcb : cfg.showCheckboxes = false) :
    refreshIndet cfg s q = stateSetT s q "indeterminate" false := by
  rw [refreshIndet, h]
  dsimp only
  rw [if_neg (by rw [hcb]; simp)]

lemma refreshIndet_root {cfg : Config} {s : TState} {q : NPath} {n : INode}
    (h : getNode s.model q = some n) (hcb : cfg.showCheckboxes = true)
    (hp : parentPath q = none) :
    refreshIndet cfg s q = dirtyStep q n (refreshIndetLocal s q n) := by
  rw [refreshIndet, h]
  dsimp only
  rw [if_pos hcb]
  congr 1
  split
  · rfl
  · rename_i q2 hqq
    rw [hp] at hqq
    cases hqq

lemma refreshIndet_parent {cfg : Config} {s : TState} {q : NPath} {n : INode} {q2 : NPath}
    (h : getNode s.model q = some n) (hcb : cfg.showCheckboxes = true)
    (hp : parentPath q = some q2) :
    refreshIndet cfg s q
      = dirtyStep q n (refreshIndet cfg (refreshIndetLocal s q n) q2) := by
  rw [refreshIndet, h]
  dsimp only
  rw [if_pos hcb]
  congr 1
  split
  · rename_i hqq
    rw [hp] at hqq
    cases hqq
  · rename_i q3 hqq
    rw [hp] at hqq
    cases hqq
    rfl


lemma childMap_eq_of_obs {β : Type} (obs : INode → β) (f f' : Forest) (r : NPath)
    (hr : r ≠ [])
    (hs : shapeAt f r = shapeAt f' r)
    (hv : (getNode f r).isSome = (getNode f' r).isSome)
    (hp : ∀ i : Nat, (getNode f (r ++ [i])).map obs = (getNode f' (r ++ [i])).map obs) :
    (((getNode f r).bind INode.childList).getD []).map obs =
      (((getNode f' r).bind INode.childList).getD []).map obs := by
  cases hx : getNode f r with
  | none =>
      cases hy : getNode f' r with
      | none => simp
      | some n' => rw [hx, hy] at hv; simp at hv
  | some n =>
      cases hy : getNode f' r with
      | none => rw [hx, hy] at hv; simp at hv
      | some n' =>
          rw [shapeAt, shapeAt, hx, hy] at hs
          simp only [Option.map_some', Option.some.injEq] at hs
          rw [INode.childShape, INode.childShape] at hs
          simp only [Option.some_bind]
          rw [INode.childList, INode.childList]
          cases hc : n.children with
          | none =>
              rw [hc] at hs
              cases hc' : n'.children with
              | none => rfl
              | some c2 => rw [hc'] at hs; simp at hs
          | some c2 =>
              rw [hc] at hs
              cases c2 with
              | none =>
                  cases hc' : n'.children with
                  | none => rfl
                  | some c2' =>
                      rw [hc'] at hs
                      cases c2' with
                      | none => rfl
                      | some l' => simp at hs
              | some l =>
                  cases hc' : n'.children with
                  | none => rw [hc'] at hs; simp at hs
                  | some c2' =>
                      rw [hc'] at hs
                      cases c2' with
                      | none => simp at hs
                      | some l' =>
                          simp only [Option.some_bind, Option.getD_some]
                          simp only [Option.map_some', Option.some.injEq] at hs
                          apply List.ext_getElem?
                          intro i
                          have hgi := hp i
                          rw [getNode_append f r [i] hr (by simp),
                              getNode_append f' r [i] hr (by simp), hx, hy] at hgi
                          simp only [Option.some_bind] at hgi
                          rw [INode.childList, INode.childList, hc, hc'] at hgi
                          simp only [Option.some_bind] at hgi
                          have h1 : getNode l [i] = l[i]? := rfl
                          have h2 : getNode l' [i] = l'[i]? := rfl
                          rw [h1, h2] at hgi
                          rw [List.getElem?_map, List.getElem?_map, hgi]

/-- What a selection-refresh pass may change below and beside a path:
anything outside the ancestor chain of `q` keeps all its fields, every
node keeps its shape, identity, text and validity, flags other than
`indeterminate` and `selected` are untouched everywhere, and the
`children` values at `q` and below are untouched. -/
def AncFrame (q : NPath) (f f' : Forest) : Prop :=
  (∀ r, ¬ r <+: q → fieldsAt f' r = fieldsAt f r) ∧
  (∀ r name, name ≠ "indeterminate" → name ≠ "selected" →
    flagAt f' r name = flagAt f r name) ∧
  (∀ r, shapeAt f' r = shapeAt f r) ∧
  (∀ r, idAt f' r = idAt f r) ∧
  (∀ r, textAt f' r = textAt f r) ∧
  (∀ r, (getNode f' r).isSome = (getNode f r).isSome) ∧
  (∀ r, q <+: r → childrenAt f' r = childrenAt f r)

lemma ancFrameRefl (q : NPath) (f : Forest) : AncFrame q f f :=
  ⟨fun _ _ => rfl, fun _ _ _ _ => rfl, fun _ => rfl, fun _ => rfl, fun _ => rfl,
   fun _ => rfl, fun _ _ => rfl⟩

lemma ancFrame_stateSet (q : NPath) (f : Forest) (name : String) (v : Bool)
    (hn1 : name = "indeterminate" ∨ name = "selected") :
    AncFrame q f (stateSet f q name v).1 := by
  refine ⟨?_, ?_, ?_, ?_, ?_, ?_, ?_⟩
  · intro r hr
    exact stateSet_fieldsAt_ne f q name v r (fun hc => hr (hc ▸ List.prefix_refl q))
  · intro r nm h1 h2
    apply stateSet_flagAt_other
    rcases hn1 with h | h <;> rw [h]
    · exact h1
    · exact h2
  · intro r; exact stateSet_shapeAt f q name v r
  · intro r; exact stateSet_idAt f q name v r
  · intro r; exact stateSet_textAt f q name v r
  · intro r; exact stateSet_isSome f q name v r
  · intro r hqr; exact stateSet_childrenAt f q name v r hqr

lemma ancFrame_markDirty (q : NPath) (f : Forest) : AncFrame q f (markDirty f q) := by
  refine ⟨?_, ?_, ?_, ?_, ?_, ?_, ?_⟩
  · intro r _; exact markDirty_fieldsAt f q r
  · intro r nm _ _; exact markDirty_flagAt f q r nm
  · intro r; exact markDirty_shapeAt f q r
  · intro r
    rw [idAt_eq_fieldsAt, markDirty_fieldsAt, idAt_eq_fieldsAt]
  · intro r
    rw [textAt_eq_fieldsAt, markDirty_fieldsAt, textAt_eq_fieldsAt]
  · intro r; exact markDirty_isSome f q r
  · intro r hqr; exact markDirty_childrenAt f q r hqr

lemma AncFrame.trans_sub {q q2 : NPath} {f f1 f2 : Forest} (hsub : q2 <+: q)
    (h1 : AncFrame q f f1) (h2 : AncFrame q2 f1 f2) : AncFrame q f f2 := by
  obtain ⟨a1, b1, c1, d1, e1, g1, k1⟩ := h1
  obtain ⟨a2, b2, c2, d2, e2, g2, k2⟩ := h2
  refine ⟨?_, ?_, ?_, ?_, ?_, ?_, ?_⟩
  · intro r hr
    rw [a2 r (fun hc => hr (prefix_trans hc hsub)), a1 r hr]
  · intro r nm h3 h4
    rw [b2 r nm h3 h4, b1 r nm h3 h4]
  · intro r; rw [c2 r, c1 r]
  · intro r; rw [d2 r, d1 r]
  · intro r; rw [e2 r, e1 r]
  · intro r; rw [g2 r, g1 r]
  · intro r hqr
    rw [k2 r (prefix_trans hsub hqr), k1 r hqr]

lemma ancFrame_refreshLocal (s : TState) (q : NPath) (n : INode) :
    AncFrame q s.model (refreshIndetLocal s q n).model := by
  have hset : ∀ (t : TState) (name : String) (v : Bool),
      name = "indeterminate" ∨ name = "selected" →
      AncFrame q t.model (stateSetT t q name v).model := by
    intro t name v h
    exact ancFrame_stateSet q t.model name v h
  simp only [refreshIndetLocal]
  split
  · split
    · exact AncFrame.trans_sub (List.prefix_refl q)
        (AncFrame.trans_sub (List.prefix_refl q)
          (hset s "indeterminate" false (Or.inl rfl))
          (hset _ "selected" _ (Or.inr rfl)))
        (hset _ "indeterminate" _ (Or.inl rfl))
    · exact AncFrame.trans_sub (List.prefix_refl q)
        (hset s "indeterminate" false (Or.inl rfl))
        (hset _ "selected" _ (Or.inr rfl))
  · exact hset s "indeterminate" false (Or.inl rfl)

lemma ancFrame_dirtyStep (sB : TState) (q : NPath) (n : INode) :
    AncFrame q sB.model (dirtyStep q n sB).model := by
  rw [dirtyStep]
  split
  · exact ancFrame_markDirty q sB.model
  · exact ancFrameRefl q sB.model

/-- The concrete child collection of the node at `q` (empty when the
node is absent or its children are not array-like). -/
def childListAt (f : Forest) (q : NPath) : List INode :=
  ((getNode f q).bind INode.childList).getD []

/-- The direct children's boolean `selected` flags at `q`. -/
def selMapAt (f : Forest) (q : NPath) : List Bool :=
  (childListAt f q).map (fun c => c.stateB "selected")

/-- Whether the node at `q` exists and has array-like, non-empty
children. -/
def hasChildrenAt (f : Forest) (q : NPath) : Bool :=
  ((getNode f q).map INode.hasChildren).getD false

/-- The invariant `refreshIndeterminateState` establishes at a node
with children: `selected` holds exactly when every direct child is
selected, and a selected node is never indeterminate. -/
def SelInvAt (f : Forest) (q : NPath) : Prop :=
  hasChildrenAt f q = true →
    flagBAt f q "selected"
        = some (decide ((selMapAt f q).count true = (selMapAt f q).length)) ∧
    (flagBAt f q "selected" = some true → flagBAt f q "indeterminate" = some false)

lemma flagBAt_eq_flagAt (f : Forest) (q : NPath) (name : String) :
    flagBAt f q name = (flagAt f q name).map (fun o => o.getD false) := by
  rw [flagBAt, flagAt, Option.map_map]
  rfl

lemma count_true_map (p : INode → Bool) (l : List INode) :
    (l.map p).count true = (l.filter p).length := by
  induction l with
  | nil => rfl
  | cons a t ih =>
      by_cases h : p a = true
      · simp [List.filter_cons, h, ih, List.count_cons]
      · simp only [Bool.not_eq_true] at h
        simp [List.filter_cons, h, ih, List.count_cons]

lemma INode.hasChildren_eq_of_shape (n n' : INode)
    (h : n.childShape = n'.childShape) : n.hasChildren = n'.hasChildren := by
  rw [INode.childShape, INode.childShape] at h
  rw [INode.hasChildren, INode.hasChildren, INode.childList, INode.childList]
  cases hc : n.children with
  | none =>
      rw [hc] at h
      cases hc' : n'.children with
      | none => rfl
      | some o' => rw [hc'] at h; simp at h
  | some o =>
      rw [hc] at h
      cases hc' : n'.children with
      | none => rw [hc'] at h; simp at h
      | some o' =>
          rw [hc'] at h
          simp only [Option.map_some', Option.some.injEq] at h
          cases ho : o with
          | none =>
              rw [ho] at h
              cases ho' : o' with
              | none => rfl
              | some l' => rw [ho'] at h; simp at h
          | some l =>
              rw [ho] at h
              cases ho' : o' with
              | none => rw [ho'] at h; simp at h
              | some l' =>
                  rw [ho'] at h
                  simp only [Option.map_some', Option.some.injEq] at h
                  simp [h]

lemma hasChildrenAt_eq_of_shape (f f' : Forest) (r : NPath)
    (hs : shapeAt f' r = shapeAt f r)
    (hv : (getNode f' r).isSome = (getNode f r).isSome) :
    hasChildrenAt f' r = hasChildrenAt f r := by
  rw [shapeAt, shapeAt] at hs
  rw [hasChildrenAt, hasChildrenAt]
  cases hx : getNode f' r with
  | none =>
      cases hy : getNode f r with
      | none => rfl
      | some m => rw [hx, hy] at hv; simp at hv
  | some m =>
      cases hy : getNode f r with
      | none => rw [hx, hy] at hv; simp at hv
      | some m' =>
          rw [hx, hy] at hs
          simp only [Option.map_some', Option.some.injEq] at hs
          simp only [Option.map_some', Option.getD_some]
          exact INode.hasChildren_eq_of_shape m m' hs

lemma childListAt_eq_of_childrenAt (f f' : Forest) (q : NPath)
    (h : childrenAt f' q = childrenAt f q) : childListAt f' q = childListAt f q := by
  rw [childrenAt, childrenAt] at h
  rw [childListAt, childListAt]
  cases hx : getNode f' q with
  | none =>
      cases hy : getNode f q with
      | none => rfl
      | some m => rw [hx, hy] at h; simp at h
  | some m =>
      cases hy : getNode f q with
      | none => rw [hx, hy] at h; simp at h
      | some m' =>
          rw [hx, hy] at h
          simp only [Option.map_some', Option.some.injEq] at h
          simp only [Option.some_bind]
          rw [INode.childList, INode.childList, h]

lemma selInv_transfer (f f' : Forest) (r : NPath) (hr : r ≠ [])
    (hsel : flagAt f' r "selected" = flagAt f r "selected")
    (hind : flagAt f' r "indeterminate" = flagAt f r "indeterminate")
    (hs : shapeAt f' r = shapeAt f r)
    (hv : (getNode f' r).isSome = (getNode f r).isSome)
    (hc : ∀ i : Nat, flagAt f' (r ++ [i]) "selected" = flagAt f (r ++ [i]) "selected")
    (h : SelInvAt f r) : SelInvAt f' r := by
  intro hch
  have hch0 : hasChildrenAt f r = true := by
    rw [← hasChildrenAt_eq_of_shape f f' r hs hv]
    exact hch
  have hmap : selMapAt f' r = selMapAt f r := by
    rw [selMapAt, selMapAt, childListAt, childListAt]
    refine childMap_eq_of_obs (fun c => c.stateB "selected") f' f r hr hs ?_ ?_
    · rw [hv]
    · intro i
      have h1 : (getNode f' (r ++ [i])).map (fun c => c.stateB "selected")
          = flagBAt f' (r ++ [i]) "selected" := rfl
      have h2 : (getNode f (r ++ [i])).map (fun c => c.stateB "selected")
          = flagBAt f (r ++ [i]) "selected" := rfl
      rw [h1, h2, flagBAt_eq_flagAt, flagBAt_eq_flagAt, hc i]
  obtain ⟨hA, hB⟩ := h hch0
  have hselB : flagBAt f' r "selected" = flagBAt f r "selected" := by
    rw [flagBAt_eq_flagAt, flagBAt_eq_flagAt, hsel]
  have hindB : flagBAt f' r "indeterminate" = flagBAt f r "indeterminate" := by
    rw [flagBAt_eq_flagAt, flagBAt_eq_flagAt, hind]
  constructor
  · rw [hselB, hmap]
    exact hA
  · intro hsv
    rw [hindB]
    exact hB (by rw [← hselB]; exact hsv)

lemma stateSetT_model (s : TState) (p : NPath) (name : String) (v : Bool) :
    (stateSetT s p name v).model = (stateSet s.model p name v).1 := rfl

lemma markDirtyT_model (s : TState) (p : NPath) :
    (markDirtyT s p).model = markDirty s.model p := rfl

lemma selInv_local (s : TState) (q : NPath) (n : INode)
    (hget : getNode s.model q = some n) :
    SelInvAt (refreshIndetLocal s q n).model q := by
  have hA1 : (getNode (stateSet s.model q "indeterminate" false).1 q).isSome := by
    rw [stateSet_isSome, hget]; rfl
  obtain ⟨n1, hn1⟩ := Option.isSome_iff_exists.mp hA1
  have hA2 : (getNode (stateSet (stateSet s.model q "indeterminate" false).1 q "selected"
      (decide (((n.childList.getD []).filter (fun c => c.stateB "selected")).length
        = (n.childList.getD []).length))).1 q).isSome := by
    rw [stateSet_isSome, hn1]; rfl
  obtain ⟨n2, hn2⟩ := Option.isSome_iff_exists.mp hA2
  have hclA : childListAt (stateSet s.model q "indeterminate" false).1 q
      = childListAt s.model q :=
    childListAt_eq_of_childrenAt _ _ q
      (stateSet_childrenAt s.model q "indeterminate" false q (List.prefix_refl q))
  have hcl0 : childListAt s.model q = n.childList.getD [] := by
    rw [childListAt, hget, Option.some_bind]
  simp only [refreshIndetLocal]
  split
  · rename_i hch
    have hclB : childListAt (stateSet (stateSet s.model q "indeterminate" false).1 q
        "selected" (decide (((n.childList.getD []).filter
          (fun c => c.stateB "selected")).length = (n.childList.getD []).length))).1 q
        = n.childList.getD [] := by
      rw [childListAt_eq_of_childrenAt _ _ q
        (stateSet_childrenAt _ q "selected" _ q (List.prefix_refl q)), hclA, hcl0]
    have hselB : flagBAt (stateSet (stateSet s.model q "indeterminate" false).1 q
        "selected" (decide (((n.childList.getD []).filter
          (fun c => c.stateB "selected")).length = (n.childList.getD []).length))).1 q
        "selected"
        = some (decide (((n.childList.getD []).filter
            (fun c => c.stateB "selected")).length = (n.childList.getD []).length)) := by
      rw [flagBAt_eq_flagAt, stateSet_flagAt_self _ q "selected" _ n1 hn1]
      rfl
    have hmapB : ∀ f2 : Forest, childListAt f2 q = n.childList.getD [] →
        (decide ((selMapAt f2 q).count true = (selMapAt f2 q).length)
          = decide (((n.childList.getD []).filter
              (fun c => c.stateB "selected")).length = (n.childList.getD []).length)) := by
      intro f2 hcl
      rw [selMapAt, hcl, count_true_map, List.length_map]
    split
    · rename_i hne1
      intro hchAt
      have hsel3 : ∀ w : Bool, flagBAt (stateSet (stateSet (stateSet s.model
          q "indeterminate" false).1 q "selected" (decide (((n.childList.getD []).filter
            (fun c => c.stateB "selected")).length = (n.childList.getD []).length))).1 q
          "indeterminate" w).1 q "selected"
          = some (decide (((n.childList.getD []).filter
              (fun c => c.stateB "selected")).length = (n.childList.getD []).length)) := by
        intro w
        rw [flagBAt_eq_flagAt,
          stateSet_flagAt_other _ q "indeterminate" w "selected" (by decide) q,
          ← flagBAt_eq_flagAt, hselB]
      have hcl3 : ∀ w : Bool, childListAt (stateSet (stateSet (stateSet s.model
          q "indeterminate" false).1 q "selected" (decide (((n.childList.getD []).filter
            (fun c => c.stateB "selected")).length = (n.childList.getD []).length))).1 q
          "indeterminate" w).1 q = n.childList.getD [] := by
        intro w
        rw [childListAt_eq_of_childrenAt _ _ q
          (stateSet_childrenAt _ q "indeterminate" w q (List.prefix_refl q)), hclB]
      refine ⟨?_, ?_⟩
      · rw [stateSetT_model, stateSetT_model, stateSetT_model, hsel3 _, hmapB _ (hcl3 _)]
      · intro hsv
        rw [stateSetT_model, stateSetT_model, stateSetT_model] at hsv
        rw [hsel3 _] at hsv
        rw [show (decide (((n.childList.getD []).filter
            (fun c => c.stateB "selected")).length = (n.childList.getD []).length))
            = false from by simpa using hne1] at hsv
        simp at hsv
    · rename_i heq1
      intro hchAt
      refine ⟨?_, ?_⟩
      · rw [stateSetT_model, stateSetT_model, hselB, hmapB _ hclB]
      · intro hsv
        rw [stateSetT_model, stateSetT_model, flagBAt_eq_flagAt,
          stateSet_flagAt_other _ q "selected" _ "indeterminate" (by decide) q,
          stateSet_flagAt_self s.model q "indeterminate" false n hget]
        rfl
  · rename_i hch
    intro hchAt
    exfalso
    rw [stateSetT_model] at hchAt
    rw [hasChildrenAt_eq_of_shape s.model (stateSet s.model q "indeterminate" false).1 q
      (stateSet_shapeAt s.model q "indeterminate" false q)
      (stateSet_isSome s.model q "indeterminate" false q)] at hchAt
    rw [hasChildrenAt, hget] at hchAt
    simp only [Option.map_some', Option.getD_some] at hchAt
    exact hch hchAt

lemma parentPath_eq_dropLast {q q2 : NPath} (h : parentPath q = some q2) :
    q2 = q.dropLast := by
  match q with
  | [] => simp [parentPath] at h
  | [i] => simp [parentPath] at h
  | i :: j :: rest =>
      simp only [parentPath, Option.some.injEq] at h
      exact h.symm

lemma prefix_dropLast {r q : NPath} (h : r <+: q) (hne : r ≠ q) : r <+: q.dropLast := by
  obtain ⟨t, ht⟩ := h
  cases t with
  | nil => rw [List.append_nil] at ht; exact absurd ht hne
  | cons a t' =>
      rw [← ht, List.dropLast_append_of_ne_nil _ (by simp)]
      exact ⟨(a :: t').dropLast, rfl⟩

lemma selInv_dirtyStep (q' : NPath) (n : INode) (sB : TState) (r : NPath) (hr : r ≠ [])
    (h : SelInvAt sB.model r) : SelInvAt (dirtyStep q' n sB).model r := by
  rw [dirtyStep]
  split
  · rw [markDirtyT_model]
    exact selInv_transfer sB.model _ r hr (markDirty_flagAt sB.model q' r "selected")
      (markDirty_flagAt sB.model q' r "indeterminate") (markDirty_shapeAt sB.model q' r)
      (markDirty_isSome sB.model q' r)
      (fun i => markDirty_flagAt sB.model q' (r ++ [i]) "selected") h
  · exact h

lemma selInv_ancFrame {q2 : NPath} {f f' : Forest} (hfr : AncFrame q2 f f') (r : NPath)
    (hne : r ≠ []) (hq : ¬ r <+: q2) (hqc : ∀ i : Nat, ¬ (r ++ [i]) <+: q2)
    (h : SelInvAt f r) : SelInvAt f' r := by
  obtain ⟨a, b, c, d, e, g, k⟩ := hfr
  refine selInv_transfer f f' r hne ?_ ?_ (c r) (g r) ?_ h
  · rw [flagAt_eq_fieldsAt, flagAt_eq_fieldsAt, a r hq]
  · rw [flagAt_eq_fieldsAt, flagAt_eq_fieldsAt, a r hq]
  · intro i
    rw [flagAt_eq_fieldsAt, flagAt_eq_fieldsAt, a _ (hqc i)]

lemma ancFrame_refreshIndet_aux (cfg : Config) :
    ∀ (L : Nat) (s : TState) (q : NPath), q.length ≤ L →
      AncFrame q s.model (refreshIndet cfg s q).model := by
  intro L
  induction L with
  | zero =>
      intro s q hq
      have hq0 : q = [] := List.length_eq_zero.mp (Nat.le_zero.mp hq)
      subst hq0
      rw [refreshIndet_none (show getNode s.model [] = none from rfl)]
      exact ancFrameRefl [] s.model
  | succ L ih =>
      intro s q hq
      cases hget : getNode s.model q with
      | none =>
          rw [refreshIndet_none hget]
          exact ancFrameRefl q s.model
      | some n =>
          by_cases hcb : cfg.showCheckboxes = true
          · cases hp : parentPath q with
            | none =>
                rw [refreshIndet_root hget hcb hp]
                exact AncFrame.trans_sub (List.prefix_refl q)
                  (ancFrame_refreshLocal s q n) (ancFrame_dirtyStep _ q n)
            | some q2 =>
                rw [refreshIndet_parent hget hcb hp]
                have hlen : q2.length ≤ L := by
                  have := parentPath_length hp
                  omega
                refine AncFrame.trans_sub (List.prefix_refl q)
                  (AncFrame.trans_sub (parentPath_isPrefix hp)
                    (ancFrame_refreshLocal s q n)
                    (ih (refreshIndetLocal s q n) q2 hlen))
                  (ancFrame_dirtyStep _ q n)
          · rw [refreshIndet_nocb hget (Bool.not_eq_true _ |>.mp hcb), stateSetT_model]
            exact ancFrame_stateSet q s.model "indeterminate" false (Or.inl rfl)

lemma ancFrame_refreshIndet (cfg : Config) (s : TState) (q : NPath) :
    AncFrame q s.model (refreshIndet cfg s q).model :=
  ancFrame_refreshIndet_aux cfg q.length s q le_rfl

lemma not_prefix_of_length_lt {r q : NPath} (h : q.length < r.length) : ¬ r <+: q :=
  fun hc => absurd hc.length_le (by omega)

lemma refreshIndet_selInv (cfg : Config) (hcb : cfg.showCheckboxes = true) :
    ∀ (L : Nat) (s : TState) (q : NPath) (n : INode), q.length ≤ L →
      getNode s.model q = some n →
      ∀ r, r <+: q → r ≠ [] → SelInvAt (refreshIndet cfg s q).model r := by
  intro L
  induction L with
  | zero =>
      intro s q n hL hget r hpre hne
      have hq0 : q = [] := List.length_eq_zero.mp (Nat.le_zero.mp hL)
      subst hq0
      exact absurd (List.prefix_nil.mp hpre) hne
  | succ L ih =>
      intro s q n hL hget r hpre hne
      cases hp : parentPath q with
      | none =>
          have hrq : r = q := by
            match q, hp with
            | [], _ => exact absurd (List.prefix_nil.mp hpre) hne
            | [i], _ =>
                obtain ⟨t, ht⟩ := hpre
                cases hr : r with
                | nil => exact absurd hr hne
                | cons a r' =>
                    rw [hr] at ht
                    cases r' with
                    | nil => cases t with
                        | nil => simpa using ht
                        | cons b t' => simp at ht
                    | cons b r'' => simp at ht
          subst hrq
          rw [refreshIndet_root hget hcb hp]
          exact selInv_dirtyStep r n _ r hne (selInv_local s r n hget)
      | some q2 =>
          rw [refreshIndet_parent hget hcb hp]
          have hq2len : q2.length < q.length := parentPath_length hp
          have hn2 : (getNode (refreshIndetLocal s q n).model q2).isSome := by
            obtain ⟨_, _, _, _, _, g, _⟩ := ancFrame_refreshLocal s q n
            rw [g q2]
            have hq2ne : q2 ≠ [] := by
              have h1 := parentPath_eq_dropLast hp
              match q, hp with
              | i :: j :: rest, _ =>
                  rw [h1]
                  simp
            exact isSome_getNode_prefix hget (parentPath_isPrefix hp) hq2ne
          obtain ⟨n2, hn2e⟩ := Option.isSome_iff_exists.mp hn2
          by_cases hrq : r = q
          · subst hrq
            refine selInv_dirtyStep r n _ r hne ?_
            refine selInv_ancFrame (ancFrame_refreshIndet cfg (refreshIndetLocal s r n) q2)
              r hne (not_prefix_of_length_lt hq2len) ?_ ?_
            · intro i
              refine not_prefix_of_length_lt ?_
              rw [List.length_append]
              simp only [List.length_cons, List.length_nil]
              omega
            · exact selInv_local s r n hget
          · have hrq2 : r <+: q2 := by
              rw [parentPath_eq_dropLast hp]
              exact prefix_dropLast hpre hrq
            refine selInv_dirtyStep q n _ r hne ?_
            exact ih (refreshIndetLocal s q n) q2 n2 (by omega) hn2e r hrq2 hne

/-- `TreeNode.selectable`: the `config.selection.allow` callback's
result when it is a boolean, otherwise the node's `selectable` state
flag. -/
def selectableB (cfg : Config) (n : INode) : Bool :=
  match cfg.allow with
  | some b => b
  | none => n.stateB "selectable"

mutual
/-- The paths visited by `recurseDown` over a node's children (the
node's strict descendants, pre-order, collection order). -/
def descPathsN (p : NPath) : INode → List NPath
  | INode.mk _ _ _ _ (some (some l)) => descPathsL p 0 l
  | _ => []

/-- The paths visited by `recurseDown` over a collection that sits at
child indices `i, i+1, …` of the node at `p`. -/
def descPathsL (p : NPath) (i : Nat) : List INode → List NPath
  | [] => []
  | c :: rest => (p ++ [i]) :: (descPathsN (p ++ [i]) c ++ descPathsL p (i + 1) rest)
end

lemma descPathsN_eq (p : NPath) (n : INode) :
    descPathsN p n = match n.childList with
      | some l => descPathsL p 0 l
      | none => [] := by
  cases n with
  | mk i t s d c =>
      match c with
      | none => rfl
      | some none => rfl
      | some (some l) => rfl

/-- The strict-descendant paths of the node at `p`. -/
def descPathsAt (f : Forest) (p : NPath) : List NPath :=
  match getNode f p with
  | some n => descPathsN p n
  | none => []

/-- The paths of every node of the forest, pre-order. -/
def forestPaths (f : Forest) : List NPath :=
  descPathsL [] 0 f

/-- The `autoSelectChildren` walk of `select`: `baseStateChange`
(`selected`, `true`) applied to each visited child. -/
def selectDown (s : TState) (ps : List NPath) : TState :=
  ps.foldl (fun t r => baseStateChange t r "selected" true "selected") s

/-- Modelled from the spec: `InspireTree.deselectDeep` (tree.ts is not
under src/) — deselect every node of the tree. -/
def deselectDeep (s : TState) : TState :=
  (forestPaths s.model).foldl
    (fun t r => baseStateChange t r "selected" false "deselected") s

/-- `select` up to and including the `state('selected', true)` call:
batch, optionally auto-deselect, then set the node's `selected` flag. -/
def selStep3 (cfg : Config) (s : TState) (p : NPath) : TState :=
  stateSetT (if cfg.canAutoDeselect then deselectDeep (batchT s) else batchT s)
    p "selected" true

/-- `selStep3` followed by the `children.recurseDown` walk (when the
node has children). -/
def selStep3a (cfg : Config) (s : TState) (p : NPath) : TState :=
  if hasChildrenAt (selStep3 cfg s p).model p then
    selectDown (selStep3 cfg s p) (descPathsAt (selStep3 cfg s p).model p)
  else selStep3 cfg s p

/-- The mutating middle of `select`: batch bookkeeping aside — the
optional auto-deselect, the `state('selected', true)` call, and the
`autoSelectChildren` walk with the parent's indeterminate refresh. -/
def selectCore (cfg : Config) (s : TState) (p : NPath) : TState :=
  if cfg.autoSelectChildren then
    if cfg.showCheckboxes then
      match parentPath p with
      | some pp => refreshIndet cfg (selStep3a cfg s p) pp
      | none => selStep3a cfg s p
    else selStep3a cfg s p
  else selStep3 cfg s p

/-- `TreeNode.select`: when the node is not yet selected and is
selectable — batch, auto-deselect when the tree allows only one
selection, set `selected`, and with `autoSelectChildren` walk the
children with `baseStateChange` and refresh the parent's indeterminate
state when checkboxes are shown; then emit `node.selected`, mark the
hierarchy dirty and end the batch. -/
def select (cfg : Config) (s : TState) (p : NPath) : TState :=
  match getNode s.model p with
  | none => s
  | some n =>
      if !(n.stateB "selected") && selectableB cfg n then
        let s4 := selectCore cfg s p
        let s5 := { s4 with events := s4.events ++ [Event.verb "node.selected" n.id] }
        endT (markDirtyT s5 p)
      else s

lemma baseStateChange_model_cases (s : TState) (a : NPath) (prop : String) (v : Bool)
    (verb : String) :
    (baseStateChange s a prop v verb).model = s.model ∨
      (baseStateChange s a prop v verb).model
        = markDirty (stateSet s.model a prop v).1 a := by
  rw [baseStateChange]
  cases hget : getNode s.model a with
  | none => exact Or.inl rfl
  | some n =>
      dsimp only
      split
      · exact Or.inr rfl
      · exact Or.inl rfl

lemma baseStateChange_shapeAt (s : TState) (a : NPath) (prop : String) (v : Bool)
    (verb : String) (r : NPath) :
    shapeAt (baseStateChange s a prop v verb).model r = shapeAt s.model r := by
  rcases baseStateChange_model_cases s a prop v verb with h | h
  · rw [h]
  · rw [h, markDirty_shapeAt, stateSet_shapeAt]

lemma baseStateChange_isSome (s : TState) (a : NPath) (prop : String) (v : Bool)
    (verb : String) (r : NPath) :
    (getNode (baseStateChange s a prop v verb).model r).isSome
      = (getNode s.model r).isSome := by
  rcases baseStateChange_model_cases s a prop v verb with h | h
  · rw [h]
  · rw [h, markDirty_isSome, stateSet_isSome]

lemma baseStateChange_flag_true (s : TState) (a : NPath) (verb : String) (r : NPath)
    (h : flagBAt s.model r "selected" = some true) :
    flagBAt (baseStateChange s a "selected" true verb).model r "selected" = some true := by
  rcases baseStateChange_model_cases s a "selected" true verb with hm | hm
  · rw [hm, h]
  · rw [hm]
    by_cases hra : r = a
    · subst hra
      have hS : (getNode s.model r).isSome := by
        rw [flagBAt] at h
        cases hg : getNode s.model r with
        | none => rw [hg] at h; cases h
        | some m => rfl
      obtain ⟨m, hme⟩ := Option.isSome_iff_exists.mp hS
      rw [flagBAt_eq_flagAt, markDirty_flagAt, stateSet_flagAt_self s.model r
        "selected" true m hme]
      rfl
    · rw [flagBAt_eq_flagAt, markDirty_flagAt, flagAt_eq_fieldsAt,
        stateSet_fieldsAt_ne s.model a "selected" true r hra,
        ← flagAt_eq_fieldsAt, ← flagBAt_eq_flagAt, h]

lemma baseStateChange_self_selected (s : TState) (a : NPath) (verb : String)
    (n : INode) (hget : getNode s.model a = some n) :
    flagBAt (baseStateChange s a "selected" true verb).model a "selected" = some true := by
  rw [baseStateChange, hget]
  dsimp only
  split
  · rename_i hcond
    have hmodel : (applyChangesT (markDirtyT ({ stateSetT s a "selected" true with
        events := (stateSetT s a "selected" true).events
          ++ [Event.verb verb n.id] }) a)).model
        = markDirty (stateSet s.model a "selected" true).1 a := rfl
    rw [hmodel, flagBAt_eq_flagAt, markDirty_flagAt,
      stateSet_flagAt_self s.model a "selected" true n hget]
    rfl
  · rename_i hcond
    simp only [ne_eq, Decidable.not_not] at hcond
    rw [flagBAt, hget]
    simp only [Option.map_some', Option.some.injEq]
    rw [INode.stateB, hcond]
    rfl

lemma foldBSC_shapeAt (prop verb : String) (v : Bool) :
    ∀ (ps : List NPath) (s : TState) (r : NPath),
      shapeAt ((ps.foldl (fun t q => baseStateChange t q prop v verb) s).model) r
        = shapeAt s.model r := by
  intro ps
  induction ps with
  | nil => intro s r; rfl
  | cons a ps ih =>
      intro s r
      rw [List.foldl_cons, ih, baseStateChange_shapeAt]

lemma foldBSC_isSome (prop verb : String) (v : Bool) :
    ∀ (ps : List NPath) (s : TState) (r : NPath),
      (getNode ((ps.foldl (fun t q => baseStateChange t q prop v verb) s).model) r).isSome
        = (getNode s.model r).isSome := by
  intro ps
  induction ps with
  | nil => intro s r; rfl
  | cons a ps ih =>
      intro s r
      rw [List.foldl_cons, ih, baseStateChange_isSome]

lemma foldBSC_flag_true (verb : String) :
    ∀ (ps : List NPath) (s : TState) (r : NPath),
      flagBAt s.model r "selected" = some true →
      flagBAt ((ps.foldl (fun t q => baseStateChange t q "selected" true verb) s).model)
          r "selected" = some true := by
  intro ps
  induction ps with
  | nil => intro s r h; exact h
  | cons a ps ih =>
      intro s r h
      rw [List.foldl_cons]
      exact ih _ r (baseStateChange_flag_true s a verb r h)

lemma selectDown_mem :
    ∀ (ps : List NPath) (s : TState) (r : NPath), r ∈ ps →
      (getNode s.model r).isSome →
      flagBAt (selectDown s ps).model r "selected" = some true := by
  intro ps
  induction ps with
  | nil => intro s r h; exact absurd h (List.not_mem_nil r)
  | cons a ps ih =>
      intro s r hmem hS
      rw [selectDown, List.foldl_cons]
      by_cases hin : r ∈ ps
      · refine ih _ r hin ?_
        rw [baseStateChange_isSome, hS]
      · have hra : r = a := by
          rcases List.mem_cons.mp hmem with h | h
          · exact h
          · exact absurd h hin
        subst hra
        obtain ⟨m, hme⟩ := Option.isSome_iff_exists.mp hS
        exact foldBSC_flag_true "selected" ps _ r
          (baseStateChange_self_selected s r "selected" m hme)

lemma getNode_nil_path (j : Nat) (rest : NPath) : getNode [] (j :: rest) = none := by
  cases rest with
  | nil => rfl
  | cons b r2 => rfl

lemma getNode_cons_succ (c : INode) (l : List INode) (j : Nat) (rest : NPath) :
    getNode (c :: l) ((j + 1) :: rest) = getNode l (j :: rest) := by
  cases rest with
  | nil => simp [getNode]
  | cons b r2 => simp [getNode]

lemma getNode_cons_zero_cons (c : INode) (l : List INode) (j2 : Nat) (r2 : NPath) :
    getNode (c :: l) (0 :: j2 :: r2)
      = match c.childList with
        | some cl => getNode cl (j2 :: r2)
        | none => none := by
  simp [getNode]

lemma mem_descPathsL_of_getNode :
    ∀ (rest : NPath) (l : List INode) (p : NPath) (i j : Nat),
      (getNode l (j :: rest)).isSome →
      (p ++ (i + j) :: rest) ∈ descPathsL p i l := by
  intro rest
  induction rest with
  | nil =>
      intro l
      induction l with
      | nil =>
          intro p i j h
          rw [getNode_nil_path] at h
          cases h
      | cons c t ih =>
          intro p i j h
          cases j with
          | zero =>
              rw [descPathsL]
              exact List.mem_cons_self _ _
          | succ j =>
              rw [getNode_cons_succ] at h
              have hmem := ih p (i + 1) j h
              rw [show i + (j + 1) = (i + 1) + j from by omega]
              rw [descPathsL]
              exact List.mem_cons_of_mem _ (List.mem_append_right _ hmem)
  | cons j2 r2 ih =>
      intro l
      induction l with
      | nil =>
          intro p i j h
          rw [getNode_nil_path] at h
          cases h
      | cons c t ihl =>
          intro p i j h
          cases j with
          | zero =>
              rw [getNode_cons_zero_cons] at h
              cases hcl : c.childList with
              | none => rw [hcl] at h; cases h
              | some cl =>
                  rw [hcl] at h
                  have hmem := ih cl (p ++ [i]) 0 j2 h
                  rw [Nat.zero_add] at hmem
                  rw [descPathsL]
                  refine List.mem_cons_of_mem _ (List.mem_append_left _ ?_)
                  rw [descPathsN_eq, hcl]
                  rw [show p ++ (i + 0) :: j2 :: r2 = (p ++ [i]) ++ j2 :: r2 from by simp]
                  exact hmem
          | succ j =>
              rw [getNode_cons_succ] at h
              have hmem := ihl p (i + 1) j h
              rw [show i + (j + 1) = (i + 1) + j from by omega]
              rw [descPathsL]
              exact List.mem_cons_of_mem _ (List.mem_append_right _ hmem)

lemma INode.children_eq_of_childList {n : INode} {cl : List INode}
    (h : n.childList = some cl) : n.children = some (some cl) := by
  rw [INode.childList] at h
  cases hc : n.children with
  | none => rw [hc] at h; cases h
  | some o =>
      rw [hc] at h
      cases o with
      | none => cases h
      | some l =>
          rw [Option.some_bind] at h
          rw [h]

lemma sizeOf_childList {n : INode} {cl : List INode} (h : n.childList = some cl) :
    sizeOf cl < sizeOf n := by
  have hc := INode.children_eq_of_childList h
  cases n with
  | mk i t s d c =>
      simp only [INode.children] at hc
      subst hc
      simp
      omega

lemma descPathsL_sound :
    ∀ (K : Nat) (l : List INode), sizeOf l ≤ K →
      ∀ (p : NPath) (i : Nat) (r : NPath), r ∈ descPathsL p i l →
        ∃ j rest, r = p ++ (i + j) :: rest ∧ (getNode l (j :: rest)).isSome := by
  intro K
  induction K with
  | zero =>
      intro l hl
      cases l with
      | nil => intro p i r hr; rw [descPathsL] at hr; cases hr
      | cons c t =>
          exfalso
          simp only [List.cons.sizeOf_spec] at hl
          omega
  | succ K ih =>
      intro l hl
      cases l with
      | nil => intro p i r hr; rw [descPathsL] at hr; cases hr
      | cons c t =>
          intro p i r hr
          rw [descPathsL] at hr
          rcases List.mem_cons.mp hr with hhd | htl
          · refine ⟨0, [], ?_, ?_⟩
            · rw [hhd, Nat.add_zero]
            · simp [getNode]
          · rcases List.mem_append.mp htl with hNm | hLm
            · rw [descPathsN_eq] at hNm
              cases hcl : c.childList with
              | none => rw [hcl] at hNm; cases hNm
              | some cl =>
                  rw [hcl] at hNm
                  have hsz : sizeOf cl ≤ K := by
                    have h1 := sizeOf_childList hcl
                    have h2 : sizeOf c < sizeOf (c :: t) := by
                      simp only [List.cons.sizeOf_spec]
                      omega
                    omega
                  obtain ⟨j, rest, hre, hg⟩ := ih cl hsz (p ++ [i]) 0 r hNm
                  refine ⟨0, j :: rest, ?_, ?_⟩
                  · rw [hre, Nat.zero_add, Nat.add_zero]
                    simp
                  · rw [getNode_cons_zero_cons, hcl]
                    exact hg
            · have hsz : sizeOf t ≤ K := by
                simp only [List.cons.sizeOf_spec] at hl
                omega
              obtain ⟨j, rest, hre, hg⟩ := ih t hsz p (i + 1) r hLm
              refine ⟨j + 1, rest, ?_, ?_⟩
              · rw [hre]
                rw [show (i + 1) + j = i + (j + 1) from by omega]
              · rw [getNode_cons_succ]
                exact hg

lemma select_model {cfg : Config} {s : TState} {p : NPath} {n : INode}
    (hget : getNode s.model p = some n)
    (hcond : (!(n.stateB "selected") && selectableB cfg n) = true) :
    (select cfg s p).model = markDirty (selectCore cfg s p).model p := by
  rw [select, hget]
  dsimp only
  rw [if_pos hcond]
  rfl

lemma getNode_some_ne_nil {f : Forest} {p : NPath} {n : INode}
    (h : getNode f p = some n) : p ≠ [] := by
  intro hp
  subst hp
  cases h

lemma getNode_cons_head_isSome {l : List INode} {j : Nat} {rest : NPath}
    (h : (getNode l (j :: rest)).isSome) : l[j]?.isSome := by
  cases rest with
  | nil => exact h
  | cons b r2 =>
      cases hx : l[j]? with
      | none => simp [getNode, hx] at h
      | some c => rfl

lemma hasChildrenAt_of_strict_ext (f : Forest) {a b : NPath} (ha : a ≠ [])
    (hab : a <+: b) (hne : a ≠ b) (hS : (getNode f b).isSome) :
    hasChildrenAt f a = true := by
  obtain ⟨t, ht⟩ := hab
  have ht0 : t ≠ [] := by
    intro h0
    rw [h0, List.append_nil] at ht
    exact hne ht
  rw [← ht, getNode_append f a t ha ht0] at hS
  cases hg : getNode f a with
  | none => rw [hg] at hS; cases hS
  | some m =>
      rw [hg, Option.some_bind] at hS
      cases hcl : m.childList with
      | none => rw [hcl] at hS; cases hS
      | some l =>
          rw [hcl, Option.some_bind] at hS
          match t, ht0 with
          | j :: rest, _ =>
              have hidx := getNode_cons_head_isSome hS
              have hjl : j < l.length := by
                by_contra hlt
                rw [List.getElem?_eq_none (by omega)] at hidx
                cases hidx
              rw [hasChildrenAt, hg]
              simp only [Option.map_some', Option.getD_some]
              rw [INode.hasChildren, hcl]
              simp only [decide_eq_true_eq]
              omega

lemma mem_descPathsAt_of_desc (f : Forest) {p r : NPath} {n : INode}
    (hget : getNode f p = some n) (hpr : p <+: r) (hne : r ≠ p)
    (hS : (getNode f r).isSome) : r ∈ descPathsAt f p := by
  obtain ⟨t, ht⟩ := hpr
  have ht0 : t ≠ [] := by
    intro h0
    rw [h0, List.append_nil] at ht
    exact hne ht.symm
  rw [← ht, getNode_append f p t (getNode_some_ne_nil hget) ht0] at hS
  rw [hget, Option.some_bind] at hS
  cases hcl : n.childList with
  | none => rw [hcl] at hS; cases hS
  | some l =>
      rw [hcl, Option.some_bind] at hS
      simp only [descPathsAt, hget]
      rw [descPathsN_eq, hcl]
      match t, ht0 with
      | j :: rest, _ =>
          have := mem_descPathsL_of_getNode rest l p 0 j hS
          rw [Nat.zero_add] at this
          rw [← ht]
          exact this

lemma isSome_of_mem_descPathsAt (f : Forest) {p : NPath} {n : INode}
    (hget : getNode f p = some n) (r : NPath) (hmem : r ∈ descPathsAt f p) :
    (getNode f r).isSome := by
  simp only [descPathsAt, hget] at hmem
  rw [descPathsN_eq] at hmem
  cases hcl : n.childList with
  | none => rw [hcl] at hmem; cases hmem
  | some l =>
      rw [hcl] at hmem
      obtain ⟨j, rest, hre, hg⟩ := descPathsL_sound (sizeOf l) l le_rfl p 0 r hmem
      rw [Nat.zero_add] at hre
      rw [hre, getNode_append f p (j :: rest) (getNode_some_ne_nil hget) (by simp),
        hget, Option.some_bind, hcl, Option.some_bind]
      exact hg

lemma deselectDeep_shapeAt (s : TState) (r : NPath) :
    shapeAt (deselectDeep s).model r = shapeAt s.model r := by
  rw [deselectDeep]
  exact foldBSC_shapeAt "selected" "deselected" false _ s r

lemma deselectDeep_isSome (s : TState) (r : NPath) :
    (getNode (deselectDeep s).model r).isSome = (getNode s.model r).isSome := by
  rw [deselectDeep]
  exact foldBSC_isSome "selected" "deselected" false _ s r

lemma selStep3_shapeAt (cfg : Config) (s : TState) (p r : NPath) :
    shapeAt (selStep3 cfg s p).model r = shapeAt s.model r := by
  rw [selStep3, stateSetT_model, stateSet_shapeAt]
  split
  · exact deselectDeep_shapeAt (batchT s) r
  · rfl

lemma selStep3_isSome (cfg : Config) (s : TState) (p r : NPath) :
    (getNode (selStep3 cfg s p).model r).isSome = (getNode s.model r).isSome := by
  rw [selStep3, stateSetT_model, stateSet_isSome]
  split
  · exact deselectDeep_isSome (batchT s) r
  · rfl

lemma selStep3_flag_self (cfg : Config) (s : TState) (p : NPath)
    (hS : (getNode s.model p).isSome) :
    flagBAt (selStep3 cfg s p).model p "selected" = some true := by
  have hS2 : (getNode (if cfg.canAutoDeselect then deselectDeep (batchT s)
      else batchT s).model p).isSome := by
    split
    · rw [deselectDeep_isSome]; exact hS
    · exact hS
  obtain ⟨m, hm⟩ := Option.isSome_iff_exists.mp hS2
  rw [selStep3, stateSetT_model, flagBAt_eq_flagAt,
    stateSet_flagAt_self _ p "selected" true m hm]
  rfl

lemma selStep3a_shapeAt (cfg : Config) (s : TState) (p r : NPath) :
    shapeAt (selStep3a cfg s p).model r = shapeAt s.model r := by
  rw [selStep3a]
  split
  · rw [selectDown, foldBSC_shapeAt, selStep3_shapeAt]
  · rw [selStep3_shapeAt]

lemma selStep3a_isSome (cfg : Config) (s : TState) (p r : NPath) :
    (getNode (selStep3a cfg s p).model r).isSome = (getNode s.model r).isSome := by
  rw [selStep3a]
  split
  · rw [selectDown, foldBSC_isSome, selStep3_isSome]
  · rw [selStep3_isSome]

lemma selStep3a_flag_self (cfg : Config) (s : TState) (p : NPath)
    (hS : (getNode s.model p).isSome) :
    flagBAt (selStep3a cfg s p).model p "selected" = some true := by
  rw [selStep3a]
  split
  · rw [selectDown]
    exact foldBSC_flag_true "selected" _ _ p (selStep3_flag_self cfg s p hS)
  · exact selStep3_flag_self cfg s p hS

lemma selStep3a_flag_desc (cfg : Config) (s : TState) (p r : NPath)
    (hSp : (getNode s.model p).isSome)
    (hpr : p <+: r) (hne : r ≠ p) (hSr : (getNode s.model r).isSome) :
    flagBAt (selStep3a cfg s p).model r "selected" = some true := by
  have hSp3 : (getNode (selStep3 cfg s p).model p).isSome := by
    rw [selStep3_isSome]; exact hSp
  obtain ⟨m3, hm3⟩ := Option.isSome_iff_exists.mp hSp3
  have hSr3 : (getNode (selStep3 cfg s p).model r).isSome := by
    rw [selStep3_isSome]; exact hSr
  rw [selStep3a]
  split
  · exact selectDown_mem _ _ r
      (mem_descPathsAt_of_desc _ hm3 hpr hne hSr3) hSr3
  · rename_i hch
    exfalso
    exact hch (hasChildrenAt_of_strict_ext (selStep3 cfg s p).model
      (getNode_some_ne_nil hm3) hpr (fun h => hne h.symm) hSr3)

lemma selInv_markDirty (f : Forest) (p r : NPath) (hr : r ≠ [])
    (h : SelInvAt f r) : SelInvAt (markDirty f p) r :=
  selInv_transfer f (markDirty f p) r hr (markDirty_flagAt f p r "selected")
    (markDirty_flagAt f p r "indeterminate") (markDirty_shapeAt f p r)
    (markDirty_isSome f p r) (fun i => markDirty_flagAt f p (r ++ [i]) "selected") h

lemma selectCore_parent (cfg : Config) (s : TState) (p pp : NPath)
    (hauto : cfg.autoSelectChildren = true) (hcb : cfg.showCheckboxes = true)
    (hp : parentPath p = some pp) :
    selectCore cfg s p = refreshIndet cfg (selStep3a cfg s p) pp := by
  rw [selectCore, if_pos hauto, if_pos hcb]
  split
  · rename_i pp2 hpp2
    rw [hp] at hpp2
    cases hpp2
    rfl
  · rename_i hpp2
    rw [hp] at hpp2
    cases hpp2

lemma selectCore_root (cfg : Config) (s : TState) (p : NPath)
    (hauto : cfg.autoSelectChildren = true) (hcb : cfg.showCheckboxes = true)
    (hp : parentPath p = none) :
    selectCore cfg s p = selStep3a cfg s p := by
  rw [selectCore, if_pos hauto, if_pos hcb]
  split
  · rename_i pp2 hpp2
    rw [hp] at hpp2
    cases hpp2
  · rfl

lemma selectCore_shapeAt (cfg : Config) (s : TState) (p r : NPath) :
    shapeAt (selectCore cfg s p).model r = shapeAt s.model r := by
  rw [selectCore]
  split
  · split
    · split
      · rename_i pp hpp
        obtain ⟨_, _, c, _, _, _, _⟩ := ancFrame_refreshIndet cfg (selStep3a cfg s p) pp
        rw [c r, selStep3a_shapeAt]
      · rw [selStep3a_shapeAt]
    · rw [selStep3a_shapeAt]
  · rw [selStep3_shapeAt]

lemma selectCore_isSome (cfg : Config) (s : TState) (p r : NPath) :
    (getNode (selectCore cfg s p).model r).isSome = (getNode s.model r).isSome := by
  rw [selectCore]
  split
  · split
    · split
      · rename_i pp hpp
        obtain ⟨_, _, _, _, _, g, _⟩ := ancFrame_refreshIndet cfg (selStep3a cfg s p) pp
        rw [g r, selStep3a_isSome]
      · rw [selStep3a_isSome]
    · rw [selStep3a_isSome]
  · rw [selStep3_isSome]

lemma parentPath_none_cases {p : NPath} (h : parentPath p = none) :
    p = [] ∨ ∃ i, p = [i] := by
  match p with
  | [] => exact Or.inl rfl
  | [i] => exact Or.inr ⟨i, rfl⟩
  | i :: j :: rest => simp [parentPath] at h

lemma prefix_singleton {r : NPath} {i : Nat} (h : r <+: [i]) : r = [] ∨ r = [i] := by
  obtain ⟨t, ht⟩ := h
  cases r with
  | nil => exact Or.inl rfl
  | cons a r' =>
      refine Or.inr ?_
      cases r' with
      | nil =>
          cases t with
          | nil => simpa using ht
          | cons b t' => simp at ht
      | cons b r'' => simp at ht

/-- C3. Corrected: selecting node `N` via `select()` with
`autoSelectChildren` and `showCheckboxes` enabled makes `selected` true
on `N` and on every descendant of `N`, and leaves every proper ancestor
`P` with `selected(P)` true exactly when all of `P`'s direct children
are selected, a selected ancestor never being indeterminate. (The
claim's further assertion that `indeterminate(P)` is always false is
refuted separately: an unselected sibling leaves the parent
indeterminate.) -/
theorem select_auto_spec (cfg : Config) (s : TState) (p : NPath) (n : INode)
    (hcb : cfg.showCheckboxes = true) (hauto : cfg.autoSelectChildren = true)
    (hget : getNode s.model p = some n)
    (hnotsel : n.stateB "selected" = false)
    (hselectable : selectableB cfg n = true) :
    flagBAt (select cfg s p).model p "selected" = some true ∧
    (∀ r, p <+: r → r ≠ p → (getNode s.model r).isSome →
      flagBAt (select cfg s p).model r "selected" = some true) ∧
    (∀ r, r <+: p → r ≠ [] → r ≠ p →
      flagBAt (select cfg s p).model r "selected"
          = some (decide ((selMapAt (select cfg s p).model r).count true
              = (selMapAt (select cfg s p).model r).length)) ∧
      (flagBAt (select cfg s p).model r "selected" = some true →
        flagBAt (select cfg s p).model r "indeterminate" = some false)) := by
  have hcond : (!(n.stateB "selected") && selectableB cfg n) = true := by
    rw [hnotsel, hselectable]
    rfl
  have hM := select_model hget hcond
  have hSp : (getNode s.model p).isSome := by rw [hget]; rfl
  refine ⟨?_, ?_, ?_⟩
  · rw [hM, flagBAt_eq_flagAt, markDirty_flagAt, ← flagBAt_eq_flagAt]
    cases hp : parentPath p with
    | none =>
        rw [selectCore_root cfg s p hauto hcb hp]
        exact selStep3a_flag_self cfg s p hSp
    | some pp =>
        rw [selectCore_parent cfg s p pp hauto hcb hp]
        obtain ⟨a, _, _, _, _, _, _⟩ := ancFrame_refreshIndet cfg (selStep3a cfg s p) pp
        rw [flagBAt_eq_flagAt, flagAt_eq_fieldsAt,
          a p (not_prefix_of_length_lt (parentPath_length hp)),
          ← flagAt_eq_fieldsAt, ← flagBAt_eq_flagAt]
        exact selStep3a_flag_self cfg s p hSp
  · intro r hpr hne hSr
    have hlen : p.length < r.length := by
      rcases Nat.lt_or_ge p.length r.length with h | h
      · exact h
      · exact absurd (List.IsPrefix.eq_of_length hpr
          (le_antisymm hpr.length_le h)) (fun hc => hne hc.symm)
    rw [hM, flagBAt_eq_flagAt, markDirty_flagAt, ← flagBAt_eq_flagAt]
    cases hp : parentPath p with
    | none =>
        rw [selectCore_root cfg s p hauto hcb hp]
        exact selStep3a_flag_desc cfg s p r hSp hpr hne hSr
    | some pp =>
        rw [selectCore_parent cfg s p pp hauto hcb hp]
        obtain ⟨a, _, _, _, _, _, _⟩ := ancFrame_refreshIndet cfg (selStep3a cfg s p) pp
        have hnpr : ¬ r <+: pp := by
          refine not_prefix_of_length_lt ?_
          have := parentPath_length hp
          omega
        rw [flagBAt_eq_flagAt, flagAt_eq_fieldsAt, a r hnpr,
          ← flagAt_eq_fieldsAt, ← flagBAt_eq_flagAt]
        exact selStep3a_flag_desc cfg s p r hSp hpr hne hSr
  · intro r hrp hrne hrnep
    cases hp : parentPath p with
    | none =>
        exfalso
        rcases parentPath_none_cases hp with h0 | ⟨i, hi⟩
        · exact getNode_some_ne_nil hget h0
        · subst hi
          rcases prefix_singleton hrp with h | h
          · exact hrne h
          · exact hrnep h
    | some pp =>
        have hrpp : r <+: pp := by
          rw [parentPath_eq_dropLast hp]
          exact prefix_dropLast hrp hrnep
        have hn2S : (getNode (selStep3a cfg s p).model pp).isSome := by
          rw [selStep3a_isSome]
          exact isSome_getNode_prefix hget (parentPath_isPrefix hp)
            (parentPath_some_ne_nil hp)
        obtain ⟨n2, hn2⟩ := Option.isSome_iff_exists.mp hn2S
        have hInv := refreshIndet_selInv cfg hcb pp.length (selStep3a cfg s p) pp n2
          le_rfl hn2 r hrpp hrne
        have hInv2 : SelInvAt (select cfg s p).model r := by
          rw [hM, selectCore_parent cfg s p pp hauto hcb hp]
          exact selInv_markDirty _ p r hrne hInv
        have hch : hasChildrenAt (select cfg s p).model r = true := by
          rw [hasChildrenAt_eq_of_shape s.model (select cfg s p).model r
            (by rw [hM, markDirty_shapeAt, selectCore_shapeAt])
            (by rw [hM, markDirty_isSome, selectCore_isSome])]
          exact hasChildrenAt_of_strict_ext s.model hrne hrp hrnep hSp
        exact hInv2 hch

/-! ### C3 concrete inputs: a parent with two children, one selected -/

def c3C1 : INode := .mk "2" "B" [] false none

def c3C2 : INode := .mk "3" "C" [] false none

def c3WForest : Forest := [.mk "1" "A" [] false (some (some [c3C1, c3C2]))]

def c3WState : TState := ⟨c3WForest, ⟨0, 0⟩, [], 0⟩

def c3Cfg : Config := ⟨true, true, false, some true⟩

def c3C1s : INode := .mk "2" "B" [("selected", true)] false none

def c3C1sd : INode := .mk "2" "B" [("selected", true)] true none

def c3F1 : Forest := [.mk "1" "A" [] false (some (some [c3C1s, c3C2]))]

def c3F2 : Forest := [.mk "1" "A" [] false (some (some [c3C1sd, c3C2]))]

def c3F3 : Forest := [.mk "1" "A" [] true (some (some [c3C1sd, c3C2]))]

def c3Root2 : INode := .mk "1" "A" [] false (some (some [c3C1sd, c3C2]))

def c3Root3 : INode := .mk "1" "A" [] true (some (some [c3C1sd, c3C2]))

def c3F4 : Forest :=
  [.mk "1" "A" [("indeterminate", false)] true (some (some [c3C1sd, c3C2]))]

def c3F5 : Forest :=
  [.mk "1" "A" [("indeterminate", false), ("selected", false)] true
    (some (some [c3C1sd, c3C2]))]

def c3F6 : Forest :=
  [.mk "1" "A" [("indeterminate", true), ("selected", false)] true
    (some (some [c3C1sd, c3C2]))]

lemma c3_step3_model : (selStep3 c3Cfg c3WState [0, 0]).model = c3F3 := by
  rw [selStep3, if_neg (by decide : ¬ c3Cfg.canAutoDeselect = true), stateSetT_model]
  show (stateSet c3WForest [0, 0] "selected" true).1 = c3F3
  rw [stateSet, show getNode c3WForest [0, 0] = some c3C1 from rfl]
  dsimp only
  rw [if_pos (by decide : c3C1.stateRaw "selected" ≠ some true)]
  show markDirty (updateAt c3WForest [0, 0] (INode.setFlagN "selected" true)) [0, 0] = c3F3
  rw [show updateAt c3WForest [0, 0] (INode.setFlagN "selected" true) = c3F1 from rfl]
  rw [markDirty_parent (show getNode c3F1 [0, 0] = some c3C1s from rfl) rfl
    (show parentPath [0, 0] = some [0] from rfl)]
  rw [show updateAt c3F1 [0, 0] INode.setDirty = c3F2 from rfl]
  rw [markDirty_root (show getNode c3F2 [0] = some c3Root2 from rfl) rfl rfl]
  rfl

lemma c3_step3a_eq : selStep3a c3Cfg c3WState [0, 0] = selStep3 c3Cfg c3WState [0, 0] := by
  rw [selStep3a, c3_step3_model]
  rw [if_neg (by decide : ¬ hasChildrenAt c3F3 [0, 0] = true)]

lemma c3_s3a_model : (selStep3a c3Cfg c3WState [0, 0]).model = c3F3 := by
  rw [c3_step3a_eq, c3_step3_model]

lemma dirtyStep_flagAt (q : NPath) (n : INode) (sB : TState) (r : NPath) (name : String) :
    flagBAt (dirtyStep q n sB).model r name = flagBAt sB.model r name := by
  rw [dirtyStep]
  split
  · rw [markDirtyT_model, flagBAt_eq_flagAt, markDirty_flagAt, ← flagBAt_eq_flagAt]
  · rfl

lemma flagBAt_stateSetT_self (t : TState) (q : NPath) (name : String) (w : Bool)
    (hS : (getNode t.model q).isSome) :
    flagBAt (stateSetT t q name w).model q name = some w := by
  obtain ⟨m, hm⟩ := Option.isSome_iff_exists.mp hS
  rw [stateSetT_model, flagBAt_eq_flagAt, stateSet_flagAt_self _ q name w m hm]
  rfl

/-- C3 counterexample: in a tree `[A [B, C]]` with checkboxes and
auto-select-children on, selecting `B` (path `[0, 0]`) leaves its
parent `A` (path `[0]`) with `indeterminate = true` — the claim's
"every ancestor P of N has indeterminate(P) false" fails as soon as
the selected node has an unselected sibling. -/
theorem select_indeterminate_counterexample :
    getNode c3WState.model [0, 0] = some c3C1 ∧
    c3Cfg.autoSelectChildren = true ∧ c3Cfg.showCheckboxes = true ∧
    ([0] : NPath) <+: [0, 0] ∧ ([0] : NPath) ≠ [0, 0] ∧
    flagBAt (select c3Cfg c3WState [0, 0]).model [0] "indeterminate" = some true := by
  refine ⟨rfl, rfl, rfl, ⟨[0], rfl⟩, by decide, ?_⟩
  have hM := @select_model c3Cfg c3WState [0, 0] c3C1 rfl (by decide)
  rw [hM, flagBAt_eq_flagAt, markDirty_flagAt, ← flagBAt_eq_flagAt]
  rw [selectCore_parent c3Cfg c3WState [0, 0] [0] rfl rfl rfl]
  rw [refreshIndet_root (show getNode (selStep3a c3Cfg c3WState [0, 0]).model [0]
      = some c3Root3 from by rw [c3_s3a_model]; rfl) rfl rfl]
  rw [dirtyStep_flagAt]
  simp only [refreshIndetLocal]
  rw [if_pos (show c3Root3.hasChildren = true from rfl)]
  rw [if_pos (by decide)]
  refine Eq.trans (flagBAt_stateSetT_self _ [0] "indeterminate" _ ?_) ?_
  · rw [stateSetT_model, stateSet_isSome, stateSetT_model, stateSet_isSome, c3_s3a_model]
    rfl
  · decide

/-- Witness for the corrected C3: the theorem applied to the concrete
two-child tree, selecting `B` at path `[0, 0]`. -/
theorem select_auto_spec_witness :
    getNode c3WState.model [0, 0] = some c3C1 ∧
    flagBAt (select c3Cfg c3WState [0, 0]).model [0, 0] "selected" = some true :=
  ⟨rfl, (select_auto_spec c3Cfg c3WState [0, 0] c3C1 rfl rfl rfl rfl rfl).1⟩

/-! ## Insertion and merge (TreeNodes.insertAt / TreeNodes.addNode) -/

/-- Raw node data passed to `insertAt`/`addNode`: an optional id, a
label and an optional children value (absent, the boolean `true`
sentinel, or a concrete list). -/
inductive NodeData : Type where
  | mk (id : Option String) (text : String)
       (children : Option (Option (List NodeData)))

def NodeData.id : NodeData → Option String
  | .mk i _ _ => i

def NodeData.text : NodeData → String
  | .mk _ t _ => t

def NodeData.children : NodeData → Option (Option (List NodeData))
  | .mk _ _ c => c

/-- JS truthiness of `object.id` (undefined and the empty string are
falsy). -/
def idTruthy : Option String → Bool
  | some s => !(s == "")
  | none => false

mutual
/-- Modelled from the spec: `InspireTree.objectToModel` (tree.ts is not
under src/) — a raw object becomes a clean node carrying its id, text
and recursively converted children. -/
def toINode : NodeData → INode
  | .mk i t (some (some ds)) => .mk (i.getD "") t [] false (some (some (toINodeL ds)))
  | .mk i t (some none) => .mk (i.getD "") t [] false (some none)
  | .mk i t none => .mk (i.getD "") t [] false none

def toINodeL : List NodeData → List INode
  | [] => []
  | d :: ds => toINode d :: toINodeL ds
end

mutual
/-- `TreeNodes.node(id)`: first pre-order match by id in a collection
(the element at index `k`, then its subtree, then the next sibling);
returns the path relative to the collection. The search walk itself
(lib/recurse-down, aborting on the first match) is not under src/ and
is modelled from the spec. -/
def findIdL (x : String) : List INode → Nat → Option NPath
  | [], _ => none
  | c :: rest, k =>
      if c.id = x then some [k]
      else
        match findIdC x c with
        | some rel => some (k :: rel)
        | none => findIdL x rest (k + 1)

/-- Search a node's concrete children for an id, by relative path. -/
def findIdC (x : String) : INode → Option NPath
  | INode.mk _ _ _ _ (some (some l)) => findIdL x l 0
  | _ => none
end

/-- The collection addressed by a path: the whole root collection for
`[]`, otherwise the concrete children of the node at the path. -/
def colListD (f : Forest) : NPath → List INode
  | [] => f
  | i :: rest => ((getNode f (i :: rest)).bind INode.childList).getD []

/-- The direct ids of the collection at `cp`. -/
def colIdsD (f : Forest) (cp : NPath) : List String :=
  (colListD f cp).map INode.id

/-- `Array.prototype.splice(i, 0, n)`: insert at `i`, clamped to the
length. -/
def jsSplice (l : List INode) (i : Nat) (n : INode) : List INode :=
  l.take i ++ n :: l.drop i

/-- Splice a node into the collection at `cp`. -/
def spliceAt (f : Forest) (cp : NPath) (i : Nat) (n : INode) : Forest :=
  match cp with
  | [] => jsSplice f i n
  | _ :: _ => updateAt f cp (INode.withChildList (fun l => jsSplice l i n))

/-- `existingNode.children = new TreeNodes(...)` when the present value
is not array-like. -/
def INode.ensureChildList : INode → INode
  | .mk i t s d (some (some l)) => .mk i t s d (some (some l))
  | .mk i t s d _ => .mk i t s d (some (some []))

/-- `_.isBoolean(existingNode.children)` (the only boolean stored is
the `true` sentinel). -/
def INode.childrenBool (n : INode) : Bool :=
  match n.children with
  | some none => true
  | _ => false

/-- `existingNode.children = object.children` for the sentinel case. -/
def INode.setChildrenSentinel : INode → INode
  | .mk i t s d _ => .mk i t s d (some none)

def ensureChildrenT (s : TState) (q : NPath) : TState :=
  { s with model := updateAt s.model q INode.ensureChildList }

def setSentinelT (s : TState) (q : NPath) : TState :=
  { s with model := updateAt s.model q INode.setChildrenSentinel }

def childrenBoolAt (f : Forest) (q : NPath) : Bool :=
  ((getNode f q).map INode.childrenBool).getD false

/-- The new-node path of `insertAt`: convert via `objectToModel`,
splice into the collection, refresh the context parent's indeterminate
state and mark it dirty, emit `node.added`, mark the node dirty and
apply changes. -/
def insertNewP (cfg : Config) (s : TState) (cp : NPath) (index : Nat)
    (d : NodeData) : TState × NPath :=
  let node := toINode d
  let sA : TState := ⟨spliceAt s.model cp index node, s.dom, s.events, s.fetches⟩
  let sB := match cp with
    | [] => sA
    | _ :: _ => markDirtyT (refreshIndet cfg sA cp) cp
  let newPath := cp ++ [min index (colListD s.model cp).length]
  let sC : TState := ⟨sB.model, sB.dom, sB.events ++ [Event.verb "node.added" node.id],
    sB.fetches⟩
  (applyChangesT (markDirtyT sC newPath), newPath)

/-- `existingNode.restore().show()` of the merge path. -/
def restoreShow (s : TState) (q : NPath) : TState :=
  baseStateChange (baseStateChange s q "removed" false "restored") q "hidden" false "shown"

mutual
/-- `TreeNodes.insertAt`: when the data carries a truthy id already in
the collection, merge — restore and show the existing node, extend its
children (ensuring an array-like collection, adding each incoming
child via `addNode`) or copy the `true` sentinel onto a boolean
children value, mark dirty and apply changes; otherwise insert the
converted node at the index. Returns the state and the affected node's
path. -/
def insertAtP (cfg : Config) (s : TState) (cp : NPath) (index : Nat) :
    NodeData → TState × NPath
  | .mk i t dc =>
      if idTruthy i then
        match findIdL (i.getD "") (colListD s.model cp) 0 with
        | some rel =>
            let q := cp ++ rel
            let s2 := restoreShow s q
            let s3 :=
              match dc with
              | some (some ds) => insertChildren cfg (ensureChildrenT s2 q) q ds
              | some none =>
                  if childrenBoolAt s2.model q then setSentinelT s2 q else s2
              | none => s2
            (applyChangesT (markDirtyT s3 q), q)
        | none => insertNewP cfg s cp index (NodeData.mk i t dc)
      else insertNewP cfg s cp index (NodeData.mk i t dc)

/-- `_.each(object.children, child => existingNode.children.addNode(child))`:
each incoming child is added to the node's collection via `addNode`,
whose insertion index is the current collection length (no sort
comparator configured). -/
def insertChildren (cfg : Config) (s : TState) (q : NPath) : List NodeData → TState
  | [] => s
  | c :: cs =>
      insertChildren cfg (insertAtP cfg s q (colListD s.model q).length c).1 q cs
end

/-- `TreeNodes.addNode`: insert at the collection length (no sort
comparator configured in this model). -/
def addNodeP (cfg : Config) (s : TState) (cp : NPath) (d : NodeData) : TState × NPath :=
  insertAtP cfg s cp (colListD s.model cp).length d

lemma findIdL_sound :
    ∀ (K : Nat) (l : List INode), sizeOf l ≤ K →
      ∀ (x : String) (k : Nat) (rel : NPath), findIdL x l k = some rel →
        ∃ j rest, rel = (k + j) :: rest ∧
          ∃ m, getNode l (j :: rest) = some m ∧ m.id = x := by
  intro K
  induction K with
  | zero =>
      intro l hl
      cases l with
      | nil => intro x k rel h; rw [findIdL] at h; cases h
      | cons c t =>
          exfalso
          simp only [List.cons.sizeOf_spec] at hl
          omega
  | succ K ih =>
      intro l hl
      cases l with
      | nil => intro x k rel h; rw [findIdL] at h; cases h
      | cons c t =>
          intro x k rel h
          rw [findIdL] at h
          by_cases hx : c.id = x
          · rw [if_pos hx] at h
            cases h
            refine ⟨0, [], by rw [Nat.add_zero], c, by simp [getNode], hx⟩
          · rw [if_neg hx] at h
            cases hC : findIdC x c with
            | some rel' =>
                rw [hC] at h
                cases h
                cases c with
                | mk ci ct cs cd cc =>
                    match cc, hC with
                    | some (some cl), hC =>
                        rw [findIdC] at hC
                        have hszc : sizeOf cl ≤ K := by
                          simp only [List.cons.sizeOf_spec, INode.mk.sizeOf_spec] at hl
                          simp only [Option.some.sizeOf_spec] at hl
                          omega
                        obtain ⟨j', rest', hre, m, hm, hid⟩ := ih cl hszc x 0 rel' hC
                        rw [Nat.zero_add] at hre
                        refine ⟨0, rel', by rw [Nat.add_zero], m, ?_, hid⟩
                        rw [hre, getNode_cons_zero_cons]
                        rw [show (INode.mk ci ct cs cd (some (some cl))).childList
                          = some cl from rfl]
                        exact hre ▸ hm
            | none =>
                rw [hC] at h
                have hszt : sizeOf t ≤ K := by
                  simp only [List.cons.sizeOf_spec] at hl
                  omega
                obtain ⟨j', rest', hre, m, hm, hid⟩ := ih t hszt x (k + 1) rel h
                refine ⟨j' + 1, rest', ?_, m, ?_, hid⟩
                · rw [hre]
                  rw [show (k + 1) + j' = k + (j' + 1) from by omega]
                · rw [getNode_cons_succ]
                  exact hm

lemma findCol_sound (f : Forest) (cp : NPath) (x : String) (rel : NPath)
    (h : findIdL x (colListD f cp) 0 = some rel) :
    rel ≠ [] ∧ ∃ m, getNode f (cp ++ rel) = some m ∧ m.id = x := by
  obtain ⟨j, rest, hre, m, hm, hid⟩ :=
    findIdL_sound (sizeOf (colListD f cp)) (colListD f cp) le_rfl x 0 rel h
  rw [Nat.zero_add] at hre
  refine ⟨by rw [hre]; simp, ?_⟩
  cases cp with
  | nil =>
      refine ⟨m, ?_, hid⟩
      rw [List.nil_append, hre]
      exact hm
  | cons i cp' =>
      rw [colListD] at hm
      cases hg : getNode f (i :: cp') with
      | none =>
          rw [hg] at hm
          rw [Option.none_bind, Option.getD_none, getNode_nil_path] at hm
          cases hm
      | some nc =>
          rw [hg, Option.some_bind] at hm
          cases hcl : nc.childList with
          | none =>
              rw [hcl] at hm
              rw [Option.getD_none, getNode_nil_path] at hm
              cases hm
          | some l =>
              rw [hcl, Option.getD_some] at hm
              refine ⟨m, ?_, hid⟩
              rw [hre, getNode_append f (i :: cp') (j :: rest) (by simp) (by simp),
                hg, Option.some_bind, hcl, Option.some_bind]
              exact hm

lemma colIdsD_eq_of_obs (f f' : Forest) (cp : NPath)
    (hs : shapeAt f' cp = shapeAt f cp)
    (hv : (getNode f' cp).isSome = (getNode f cp).isSome)
    (hid : ∀ k : Nat, idAt f' (cp ++ [k]) = idAt f (cp ++ [k])) :
    colIdsD f' cp = colIdsD f cp := by
  cases cp with
  | nil =>
      rw [colIdsD, colIdsD, colListD, colListD]
      apply List.ext_getElem?
      intro k
      rw [List.getElem?_map, List.getElem?_map]
      have h1 : f'[k]? = getNode f' [k] := rfl
      have h2 : f[k]? = getNode f [k] := rfl
      rw [h1, h2]
      exact hid k
  | cons i cp' =>
      rw [colIdsD, colIdsD, colListD, colListD]
      exact childMap_eq_of_obs INode.id f' f (i :: cp') (by simp) hs hv
        (fun k => hid k)

lemma isSome_of_fieldsAt_eq {f f' : Forest} {r : NPath}
    (h : fieldsAt f' r = fieldsAt f r) :
    (getNode f' r).isSome = (getNode f r).isSome := by
  rw [fieldsAt, fieldsAt] at h
  cases hx : getNode f' r with
  | none =>
      cases hy : getNode f r with
      | none => rfl
      | some m => rw [hx, hy] at h; cases h
  | some m =>
      cases hy : getNode f r with
      | none => rw [hx, hy] at h; cases h
      | some m' => rfl

lemma fieldsAt_updateAt_outside (g : INode → INode)
    (hfields : ∀ n, (g n).id = n.id ∧ (g n).text = n.text ∧ (g n).state = n.state)
    (p : NPath) (f : Forest) (r : NPath) (h : ¬ p <+: r ∨ r = p) :
    fieldsAt (updateAt f p g) r = fieldsAt f r := by
  rcases h with h | h
  · by_cases hrp : r <+: p
    · by_cases hre : r = p
      · subst hre
        exact fieldsAt_updateAt_self g hfields f r
      · exact (fieldsShapeAt_updateAt_above g p f r hrp hre).1
    · rw [fieldsAt, fieldsAt, getNode_updateAt_incomp g p f r h hrp]
  · subst h
    exact fieldsAt_updateAt_self g hfields f r

lemma shapeAt_updateAt_outside (g : INode → INode)
    (p : NPath) (f : Forest) (r : NPath) (h : ¬ p <+: r) :
    shapeAt (updateAt f p g) r = shapeAt f r := by
  by_cases hrp : r <+: p
  · by_cases hre : r = p
    · subst hre; exact absurd (List.prefix_refl r) h
    · exact (fieldsShapeAt_updateAt_above g p f r hrp hre).2
  · rw [shapeAt, shapeAt, getNode_updateAt_incomp g p f r h hrp]

lemma isSome_updateAt_outside (g : INode → INode)
    (p : NPath) (f : Forest) (r : NPath) (h : ¬ p <+: r ∨ r = p) :
    (getNode (updateAt f p g) r).isSome = (getNode f r).isSome := by
  rcases h with h | h
  · by_cases hrp : r <+: p
    · by_cases hre : r = p
      · subst hre
        rw [getNode_updateAt_self_any g r f]
        cases getNode f r <;> rfl
      · exact isSome_of_fieldsAt_eq (fieldsShapeAt_updateAt_above g p f r hrp hre).1
    · rw [getNode_updateAt_incomp g p f r h hrp]
  · subst h
    rw [getNode_updateAt_self_any g r f]
    cases getNode f r <;> rfl

lemma getNode_ext_below {f f' : Forest} {q : NPath} (hqne : q ≠ [])
    (hq : getNode f' q = getNode f q) (t : NPath) (ht : t ≠ []) :
    getNode f' (q ++ t) = getNode f (q ++ t) := by
  rw [getNode_append f' q t hqne ht, getNode_append f q t hqne ht, hq]

lemma getNode_append_lt (l ext : List INode) (k : Nat) (rest : NPath)
    (hk : k < l.length) :
    getNode (l ++ ext) (k :: rest) = getNode l (k :: rest) := by
  have hidx : (l ++ ext)[k]? = l[k]? := by
    rw [List.getElem?_append, if_pos hk]
  cases rest with
  | nil => exact hidx
  | cons b r2 =>
      rw [getNode, getNode, hidx]

lemma flagAt_eq_of_fieldsAt {f f' : Forest} {r : NPath}
    (h : fieldsAt f' r = fieldsAt f r) (name : String) :
    flagAt f' r name = flagAt f r name := by
  rw [flagAt_eq_fieldsAt, flagAt_eq_fieldsAt, h]

lemma idAt_eq_of_fieldsAt {f f' : Forest} {r : NPath}
    (h : fieldsAt f' r = fieldsAt f r) : idAt f' r = idAt f r := by
  rw [idAt_eq_fieldsAt, idAt_eq_fieldsAt, h]

lemma textAt_eq_of_fieldsAt {f f' : Forest} {r : NPath}
    (h : fieldsAt f' r = fieldsAt f r) : textAt f' r = textAt f r := by
  rw [textAt_eq_fieldsAt, textAt_eq_fieldsAt, h]

/-- What one `insertAt`/`addNode` call on the collection at `cp` may do
to the model: direct ids of every other collection untouched, flags
other than `indeterminate`/`selected` untouched outside the strict
subtree below `cp`, existing nodes stay present with their text and id,
and the collection's own ids only grow at the tail. -/
def InsOut (cp : NPath) (f f' : Forest) : Prop :=
  (∀ r, ¬ cp <+: r → colIdsD f' r = colIdsD f r) ∧
  (∀ r name, name ≠ "indeterminate" → name ≠ "selected" →
     (¬ cp <+: r ∨ r = cp) → flagAt f' r name = flagAt f r name) ∧
  (∀ r, (getNode f r).isSome = true → (getNode f' r).isSome = true) ∧
  (∀ r, (getNode f r).isSome = true → textAt f' r = textAt f r) ∧
  (∀ r, (getNode f r).isSome = true → idAt f' r = idAt f r) ∧
  colIdsD f cp <+: colIdsD f' cp

lemma insOutRefl (cp : NPath) (f : Forest) : InsOut cp f f :=
  ⟨fun _ _ => rfl, fun _ _ _ _ _ => rfl, fun _ h => h, fun _ _ => rfl, fun _ _ => rfl,
   List.prefix_refl _⟩

lemma InsOut.trans {cp : NPath} {f f1 f2 : Forest}
    (h1 : InsOut cp f f1) (h2 : InsOut cp f1 f2) : InsOut cp f f2 := by
  obtain ⟨a1, b1, c1, d1, e1, k1⟩ := h1
  obtain ⟨a2, b2, c2, d2, e2, k2⟩ := h2
  refine ⟨?_, ?_, ?_, ?_, ?_, ?_⟩
  · intro r hr; rw [a2 r hr, a1 r hr]
  · intro r name hn1 hn2 hr; rw [b2 r name hn1 hn2 hr, b1 r name hn1 hn2 hr]
  · intro r hr; exact c2 r (c1 r hr)
  · intro r hr; rw [d2 r (c1 r hr), d1 r hr]
  · intro r hr; rw [e2 r (c1 r hr), e1 r hr]
  · exact k1.trans k2

lemma InsOut.lift {q cp : NPath} {f f' : Forest} (h : InsOut q f f')
    (hqc : cp <+: q) (hne : q ≠ cp) :
    InsOut cp f f' ∧ colIdsD f' cp = colIdsD f cp := by
  obtain ⟨a, b, c, d, e, k⟩ := h
  have hnotq : ¬ q <+: cp := by
    intro hcon
    exact hne (List.IsPrefix.eq_of_length hcon
      (le_antisymm hcon.length_le hqc.length_le))
  have heq : colIdsD f' cp = colIdsD f cp := a cp hnotq
  refine ⟨⟨?_, ?_, c, d, e, heq ▸ List.prefix_refl _⟩, heq⟩
  · intro r hr
    refine a r ?_
    intro hcon
    exact hr (prefix_trans hqc hcon)
  · intro r name hn1 hn2 hr
    refine b r name hn1 hn2 ?_
    rcases hr with hr | hr
    · exact Or.inl (fun hcon => hr (prefix_trans hqc hcon))
    · subst hr
      exact Or.inl hnotq

lemma insOut_of_global (cp : NPath) (f f' : Forest)
    (hs : ∀ r, shapeAt f' r = shapeAt f r)
    (hv : ∀ r, (getNode f' r).isSome = (getNode f r).isSome)
    (hid : ∀ r, idAt f' r = idAt f r)
    (htx : ∀ r, textAt f' r = textAt f r)
    (hfl : ∀ r name, name ≠ "indeterminate" → name ≠ "selected" →
       (¬ cp <+: r ∨ r = cp) → flagAt f' r name = flagAt f r name) :
    InsOut cp f f' := by
  have hcol : ∀ r, colIdsD f' r = colIdsD f r := fun r =>
    colIdsD_eq_of_obs f f' r (hs r) (hv r) (fun k => hid (r ++ [k]))
  exact ⟨fun r _ => hcol r, hfl, fun r h => by rw [hv r]; exact h,
    fun r _ => htx r, fun r _ => hid r, (hcol cp) ▸ List.prefix_refl _⟩

lemma insOut_markDirty (cp p : NPath) (f : Forest) : InsOut cp f (markDirty f p) := by
  refine insOut_of_global cp f _ (markDirty_shapeAt f p) (markDirty_isSome f p)
    ?_ ?_ ?_
  · intro r; exact idAt_eq_of_fieldsAt (markDirty_fieldsAt f p r)
  · intro r; exact textAt_eq_of_fieldsAt (markDirty_fieldsAt f p r)
  · intro r name _ _ _; exact markDirty_flagAt f p r name

lemma insOut_refreshIndet (cfg : Config) (s : TState) (q : NPath) (cp : NPath) :
    InsOut cp s.model (refreshIndet cfg s q).model := by
  obtain ⟨a, b, c, d, e, g, k⟩ := ancFrame_refreshIndet cfg s q
  exact insOut_of_global cp s.model _ c g d e (fun r name hn1 hn2 _ => b r name hn1 hn2)

lemma baseStateChange_fieldsAt_ne (s : TState) (q0 : NPath) (prop : String) (v : Bool)
    (verb : String) (r : NPath) (hne : r ≠ q0) :
    fieldsAt (baseStateChange s q0 prop v verb).model r = fieldsAt s.model r := by
  rcases baseStateChange_model_cases s q0 prop v verb with h | h
  · rw [h]
  · rw [h, markDirty_fieldsAt, stateSet_fieldsAt_ne s.model q0 prop v r hne]

lemma baseStateChange_idAt (s : TState) (q0 : NPath) (prop : String) (v : Bool)
    (verb : String) (r : NPath) :
    idAt (baseStateChange s q0 prop v verb).model r = idAt s.model r := by
  rcases baseStateChange_model_cases s q0 prop v verb with h | h
  · rw [h]
  · rw [h, idAt_eq_fieldsAt, markDirty_fieldsAt, ← idAt_eq_fieldsAt, stateSet_idAt]

lemma baseStateChange_textAt (s : TState) (q0 : NPath) (prop : String) (v : Bool)
    (verb : String) (r : NPath) :
    textAt (baseStateChange s q0 prop v verb).model r = textAt s.model r := by
  rcases baseStateChange_model_cases s q0 prop v verb with h | h
  · rw [h]
  · rw [h, textAt_eq_fieldsAt, markDirty_fieldsAt, ← textAt_eq_fieldsAt, stateSet_textAt]

lemma insOut_bsc (cp : NPath) (s : TState) (q0 : NPath) (prop : String) (v : Bool)
    (verb : String) (hin : cp <+: q0) (hne : q0 ≠ cp) :
    InsOut cp s.model (baseStateChange s q0 prop v verb).model := by
  refine insOut_of_global cp s.model _
    (baseStateChange_shapeAt s q0 prop v verb)
    (baseStateChange_isSome s q0 prop v verb)
    (baseStateChange_idAt s q0 prop v verb)
    (baseStateChange_textAt s q0 prop v verb) ?_
  intro r name _ _ hr
  have hrq0 : r ≠ q0 := by
    rcases hr with hr | hr
    · intro hcon; subst hcon; exact hr hin
    · subst hr; exact fun hcon => hne hcon.symm
  exact flagAt_eq_of_fieldsAt (baseStateChange_fieldsAt_ne s q0 prop v verb r hrq0) name

lemma prefix_append_one {q r : NPath} {k : Nat} (h : q <+: r ++ [k]) :
    q <+: r ∨ q = r ++ [k] := by
  rcases Nat.lt_or_ge q.length (r ++ [k]).length with hl | hl
  · left
    have hle : q.length ≤ r.length := by
      rw [List.length_append, List.length_singleton] at hl
      omega
    have hq := List.prefix_iff_eq_take.mp h
    rw [List.take_append_of_le_length hle] at hq
    rw [hq]
    exact List.take_prefix _ r
  · right
    exact List.IsPrefix.eq_of_length h (le_antisymm h.length_le hl)

lemma not_prefix_of_strict {cp q : NPath} (hin : cp <+: q) (hne : q ≠ cp) :
    ¬ q <+: cp := by
  intro hcon
  exact hne (List.IsPrefix.eq_of_length hcon (le_antisymm hcon.length_le hin.length_le))

/-- `InsOut` for a single `updateAt` strictly inside the `cp` subtree,
with a core-preserving `g`; the behaviour below the updated node is
supplied by the caller. -/
lemma insOut_updateAt_inside (cp q : NPath) (f : Forest) (g : INode → INode)
    (hfields : ∀ n, (g n).id = n.id ∧ (g n).text = n.text ∧ (g n).state = n.state)
    (hin : cp <+: q) (hne : q ≠ cp)
    (hbelow : ∀ r, q <+: r → r ≠ q → (getNode f r).isSome = true →
       getNode (updateAt f q g) r = getNode f r) :
    InsOut cp f (updateAt f q g) := by
  have hnq : ¬ q <+: cp := not_prefix_of_strict hin hne
  have hguard : ∀ r, ¬ cp <+: r → (¬ q <+: r ∨ r = q) := by
    intro r hr
    exact Or.inl (fun hcon => hr (prefix_trans hin hcon))
  have hidOut : ∀ r, (¬ q <+: r ∨ r = q) → idAt (updateAt f q g) r = idAt f r := by
    intro r hr
    exact idAt_eq_of_fieldsAt (fieldsAt_updateAt_outside g hfields q f r hr)
  have hguard1 : ∀ r, ¬ cp <+: r → ∀ k : Nat, (¬ q <+: r ++ [k] ∨ r ++ [k] = q) := by
    intro r hr k
    by_cases hqk : q <+: r ++ [k]
    · rcases prefix_append_one hqk with hq2 | hq2
      · exact absurd (prefix_trans hin hq2) hr
      · exact Or.inr hq2.symm
    · exact Or.inl hqk
  have hJ1 : ∀ r, ¬ cp <+: r → colIdsD (updateAt f q g) r = colIdsD f r := by
    intro r hr
    refine colIdsD_eq_of_obs f _ r
      (shapeAt_updateAt_outside g q f r (by
        intro hcon
        rcases hguard r hr with h2 | h2
        · exact h2 hcon
        · exact hr (h2 ▸ hin)))
      (isSome_updateAt_outside g q f r (hguard r hr))
      (fun k => hidOut (r ++ [k]) (hguard1 r hr k))
  refine ⟨hJ1, ?_, ?_, ?_, ?_, ?_⟩
  · intro r name _ _ hr
    have hg2 : ¬ q <+: r ∨ r = q := by
      rcases hr with hr | hr
      · exact hguard r hr
      · subst hr; exact Or.inl hnq
    exact flagAt_eq_of_fieldsAt (fieldsAt_updateAt_outside g hfields q f r hg2) name
  · intro r hrS
    by_cases hqr : q <+: r
    · by_cases hre : r = q
      · subst hre
        rw [getNode_updateAt_self_any g r f]
        cases hx : getNode f r with
        | none => rw [hx] at hrS; cases hrS
        | some m => rfl
      · rw [hbelow r hqr hre hrS]
        exact hrS
    · rw [isSome_updateAt_outside g q f r (Or.inl hqr)]
      exact hrS
  · intro r hrS
    by_cases hqr : q <+: r
    · by_cases hre : r = q
      · subst hre
        exact textAt_eq_of_fieldsAt (fieldsAt_updateAt_self g hfields f r)
      · rw [textAt, textAt, hbelow r hqr hre hrS]
    · exact textAt_eq_of_fieldsAt (fieldsAt_updateAt_outside g hfields q f r (Or.inl hqr))
  · intro r hrS
    by_cases hqr : q <+: r
    · by_cases hre : r = q
      · subst hre
        exact idAt_eq_of_fieldsAt (fieldsAt_updateAt_self g hfields f r)
      · rw [idAt, idAt, hbelow r hqr hre hrS]
    · exact hidOut r (Or.inl hqr)
  · have : colIdsD (updateAt f q g) cp = colIdsD f cp := by
      refine colIdsD_eq_of_obs f _ cp
        (shapeAt_updateAt_outside g q f cp hnq)
        (isSome_updateAt_outside g q f cp (Or.inl hnq))
        (fun k => hidOut (cp ++ [k]) (by
          by_cases hqk : q <+: cp ++ [k]
          · rcases prefix_append_one hqk with h2 | h2
            · exact absurd h2 hnq
            · exact Or.inr h2.symm
          · exact Or.inl hqk))
    rw [this]

/-- `InsOut` for a single `updateAt` at the collection node `cp`
itself, with a core-preserving `g`; behaviour below `cp` and the
collection's id growth are supplied by the caller. -/
lemma insOut_updateAt_at (cp : NPath) (f : Forest) (g : INode → INode)
    (hfields : ∀ n, (g n).id = n.id ∧ (g n).text = n.text ∧ (g n).state = n.state)
    (hbelow : ∀ r, cp <+: r → r ≠ cp → (getNode f r).isSome = true →
       getNode (updateAt f cp g) r = getNode f r)
    (hK : colIdsD f cp <+: colIdsD (updateAt f cp g) cp) :
    InsOut cp f (updateAt f cp g) := by
  have hidOut : ∀ r, (¬ cp <+: r ∨ r = cp) → idAt (updateAt f cp g) r = idAt f r := by
    intro r hr
    exact idAt_eq_of_fieldsAt (fieldsAt_updateAt_outside g hfields cp f r hr)
  refine ⟨?_, ?_, ?_, ?_, ?_, hK⟩
  · intro r hr
    refine colIdsD_eq_of_obs f _ r
      (shapeAt_updateAt_outside g cp f r hr)
      (isSome_updateAt_outside g cp f r (Or.inl hr))
      (fun k => hidOut (r ++ [k]) (by
        by_cases hqk : cp <+: r ++ [k]
        · rcases prefix_append_one hqk with h2 | h2
          · exact absurd h2 hr
          · exact Or.inr h2.symm
        · exact Or.inl hqk))
  · intro r name _ _ hr
    exact flagAt_eq_of_fieldsAt (fieldsAt_updateAt_outside g hfields cp f r hr) name
  · intro r hrS
    by_cases hqr : cp <+: r
    · by_cases hre : r = cp
      · subst hre
        rw [getNode_updateAt_self_any g r f]
        cases hx : getNode f r with
        | none => rw [hx] at hrS; cases hrS
        | some m => rfl
      · rw [hbelow r hqr hre hrS]
        exact hrS
    · rw [isSome_updateAt_outside g cp f r (Or.inl hqr)]
      exact hrS
  · intro r hrS
    by_cases hqr : cp <+: r
    · by_cases hre : r = cp
      · subst hre
        exact textAt_eq_of_fieldsAt (fieldsAt_updateAt_self g hfields f r)
      · rw [textAt, textAt, hbelow r hqr hre hrS]
    · exact textAt_eq_of_fieldsAt (fieldsAt_updateAt_outside g hfields cp f r (Or.inl hqr))
  · intro r hrS
    by_cases hqr : cp <+: r
    · by_cases hre : r = cp
      · subst hre
        exact idAt_eq_of_fieldsAt (fieldsAt_updateAt_self g hfields f r)
      · rw [idAt, idAt, hbelow r hqr hre hrS]
    · exact hidOut r (Or.inl hqr)

lemma INode.ensureChildList_fields (n : INode) :
    n.ensureChildList.id = n.id ∧ n.ensureChildList.text = n.text ∧
      n.ensureChildList.state = n.state := by
  cases n with
  | mk i t s d c =>
      match c with
      | some (some l) => exact ⟨rfl, rfl, rfl⟩
      | some none => exact ⟨rfl, rfl, rfl⟩
      | none => exact ⟨rfl, rfl, rfl⟩

lemma INode.setChildrenSentinel_fields (n : INode) :
    n.setChildrenSentinel.id = n.id ∧ n.setChildrenSentinel.text = n.text ∧
      n.setChildrenSentinel.state = n.state := by
  cases n; exact ⟨rfl, rfl, rfl⟩

lemma withChildList_fields (h : List INode → List INode) (n : INode) :
    (n.withChildList h).id = n.id ∧ (n.withChildList h).text = n.text ∧
      (n.withChildList h).state = n.state := by
  cases n with
  | mk i t s d c =>
      match c with
      | some (some l) => exact ⟨rfl, rfl, rfl⟩
      | some none => exact ⟨rfl, rfl, rfl⟩
      | none => exact ⟨rfl, rfl, rfl⟩

lemma jsSplice_append (l : List INode) (i : Nat) (n : INode) (hi : l.length ≤ i) :
    jsSplice l i n = l ++ [n] := by
  rw [jsSplice, List.take_of_length_le hi, List.drop_eq_nil_of_le hi]

lemma INode.ensureChildList_of_arrayLike {n : INode} {l : List INode}
    (h : n.childList = some l) : n.ensureChildList = n := by
  have hc := INode.children_eq_of_childList h
  cases n with
  | mk i t s d c =>
      simp only [INode.children] at hc
      subst hc
      rfl

lemma ensure_below (f : Forest) (q : NPath) (hq : q ≠ []) :
    ∀ r, q <+: r → r ≠ q → (getNode f r).isSome = true →
      getNode (updateAt f q INode.ensureChildList) r = getNode f r := by
  intro r hqr hne hrS
  obtain ⟨t, ht⟩ := hqr
  have ht0 : t ≠ [] := by
    intro h0; rw [h0, List.append_nil] at ht; exact hne ht.symm
  cases hg : getNode f q with
  | none =>
      exfalso
      rw [← ht, getNode_append f q t hq ht0, hg, Option.none_bind, Option.none_bind] at hrS
      cases hrS
  | some m =>
      cases hcl : m.childList with
      | none =>
          exfalso
          rw [← ht, getNode_append f q t hq ht0, hg, Option.some_bind, hcl,
            Option.none_bind] at hrS
          cases hrS
      | some l =>
          have hgn : getNode (updateAt f q INode.ensureChildList) q = getNode f q := by
            rw [getNode_updateAt_self_any, hg, Option.map_some',
              INode.ensureChildList_of_arrayLike hcl]
          rw [← ht]
          exact getNode_ext_below hq hgn t ht0

lemma sentinel_below (f : Forest) (q : NPath) (hq : q ≠ [])
    (hbool : childrenBoolAt f q = true) :
    ∀ r, q <+: r → r ≠ q → (getNode f r).isSome = true →
      getNode (updateAt f q INode.setChildrenSentinel) r = getNode f r := by
  intro r hqr hne hrS
  exfalso
  obtain ⟨t, ht⟩ := hqr
  have ht0 : t ≠ [] := by
    intro h0; rw [h0, List.append_nil] at ht; exact hne ht.symm
  cases hg : getNode f q with
  | none =>
      rw [← ht, getNode_append f q t hq ht0, hg, Option.none_bind, Option.none_bind] at hrS
      cases hrS
  | some m =>
      have hcl : m.childList = none := by
        rw [childrenBoolAt, hg] at hbool
        simp only [Option.map_some', Option.getD_some] at hbool
        rw [INode.childrenBool] at hbool
        rw [INode.childList]
        cases hc : m.children with
        | none => rfl
        | some o =>
            rw [hc] at hbool
            cases o with
            | none => rfl
            | some l => simp at hbool
      rw [← ht, getNode_append f q t hq ht0, hg, Option.some_bind, hcl,
        Option.none_bind] at hrS
      cases hrS

lemma splice_below (f : Forest) (cp : NPath) (i : Nat) (n : INode) (hcp : cp ≠ [])
    (hi : (colListD f cp).length ≤ i) :
    ∀ r, cp <+: r → r ≠ cp → (getNode f r).isSome = true →
      getNode (updateAt f cp (INode.withChildList (fun l => jsSplice l i n))) r
        = getNode f r := by
  intro r hqr hne hrS
  obtain ⟨t, ht⟩ := hqr
  have ht0 : t ≠ [] := by
    intro h0; rw [h0, List.append_nil] at ht; exact hne ht.symm
  cases hg : getNode f cp with
  | none =>
      exfalso
      rw [← ht, getNode_append f cp t hcp ht0, hg, Option.none_bind, Option.none_bind] at hrS
      cases hrS
  | some m =>
      cases hcl : m.childList with
      | none =>
          exfalso
          rw [← ht, getNode_append f cp t hcp ht0, hg, Option.some_bind, hcl,
            Option.none_bind] at hrS
          cases hrS
      | some l =>
          have hlen : l.length ≤ i := by
            have : colListD f cp = l := by
              match cp, hcp with
              | i0 :: cp', _ =>
                  rw [colListD, hg, Option.some_bind, hcl, Option.getD_some]
            rw [this] at hi
            exact hi
          have hclg : (INode.withChildList (fun l2 => jsSplice l2 i n) m).childList
              = some (l ++ [n]) := by
            rw [childList_withChildList, hcl]
            simp only [Option.map_some', Option.some.injEq]
            exact jsSplice_append l i n hlen
          match t, ht0 with
          | k :: rest, _ =>
              have hrG : getNode f (cp ++ k :: rest) = getNode l (k :: rest) := by
                rw [getNode_append f cp _ hcp (by simp), hg, Option.some_bind, hcl,
                  Option.some_bind]
              have hkl : k < l.length := by
                rw [← ht, hrG] at hrS
                have := getNode_cons_head_isSome hrS
                by_contra hlt
                rw [List.getElem?_eq_none (by omega)] at this
                cases this
              rw [← ht, getNode_append _ cp _ hcp (by simp),
                getNode_updateAt_self_any, hg, Option.map_some', Option.some_bind,
                hclg, Option.some_bind, getNode_append_lt l [n] k rest hkl, hrG]

lemma splice_K (f : Forest) (cp : NPath) (i : Nat) (n : INode) (hcp : cp ≠ [])
    (hi : (colListD f cp).length ≤ i) :
    colIdsD f cp
      <+: colIdsD (updateAt f cp (INode.withChildList (fun l => jsSplice l i n))) cp := by
  match cp, hcp with
  | i0 :: cp', _ =>
      rw [colIdsD, colIdsD, colListD, colListD, getNode_updateAt_self_any]
      cases hg : getNode f (i0 :: cp') with
      | none => simp
      | some m =>
          simp only [Option.map_some', Option.some_bind]
          cases hcl : m.childList with
          | none =>
              rw [childList_withChildList, hcl]
              simp
          | some l =>
              have hlen : l.length ≤ i := by
                rw [colListD, hg, Option.some_bind, hcl, Option.getD_some] at hi
                exact hi
              rw [childList_withChildList, hcl]
              simp only [Option.map_some', Option.getD_some]
              rw [jsSplice_append l i n hlen, List.map_append]
              exact List.prefix_append _ _

lemma insOut_splice_root (f : Forest) (i : Nat) (n : INode) (hi : f.length ≤ i) :
    InsOut [] f (jsSplice f i n) := by
  rw [jsSplice_append f i n hi]
  refine ⟨?_, ?_, ?_, ?_, ?_, ?_⟩
  · intro r hr
    exact absurd List.nil_prefix hr
  · intro r name _ _ hr
    have hr0 : r = [] := by
      rcases hr with hr | hr
      · exact absurd List.nil_prefix hr
      · exact hr
    subst hr0
    rfl
  · intro r hrS
    cases r with
    | nil => cases hrS
    | cons k rest =>
        have hk : k < f.length := by
          have := getNode_cons_head_isSome hrS
          by_contra hlt
          rw [List.getElem?_eq_none (by omega)] at this
          cases this
        rw [getNode_append_lt f [n] k rest hk]
        exact hrS
  · intro r hrS
    cases r with
    | nil => cases hrS
    | cons k rest =>
        have hk : k < f.length := by
          have := getNode_cons_head_isSome hrS
          by_contra hlt
          rw [List.getElem?_eq_none (by omega)] at this
          cases this
        rw [textAt, textAt, getNode_append_lt f [n] k rest hk]
  · intro r hrS
    cases r with
    | nil => cases hrS
    | cons k rest =>
        have hk : k < f.length := by
          have := getNode_cons_head_isSome hrS
          by_contra hlt
          rw [List.getElem?_eq_none (by omega)] at this
          cases this
        rw [idAt, idAt, getNode_append_lt f [n] k rest hk]
  · rw [colIdsD, colIdsD, colListD, colListD, List.map_append]
    exact List.prefix_append _ _

lemma ne_nil_of_strict_in {cp q : NPath} (hin : cp <+: q) (hne : q ≠ cp) : q ≠ [] := by
  intro h0
  subst h0
  exact hne (List.prefix_nil.mp hin).symm

lemma insOut_ensure (cp q : NPath) (f : Forest) (hin : cp <+: q) (hne : q ≠ cp) :
    InsOut cp f (updateAt f q INode.ensureChildList) :=
  insOut_updateAt_inside cp q f INode.ensureChildList INode.ensureChildList_fields
    hin hne (ensure_below f q (ne_nil_of_strict_in hin hne))

lemma insOut_sentinel (cp q : NPath) (f : Forest) (hin : cp <+: q) (hne : q ≠ cp)
    (hbool : childrenBoolAt f q = true) :
    InsOut cp f (updateAt f q INode.setChildrenSentinel) :=
  insOut_updateAt_inside cp q f INode.setChildrenSentinel INode.setChildrenSentinel_fields
    hin hne (sentinel_below f q (ne_nil_of_strict_in hin hne) hbool)

lemma insOut_spliceAt (cp : NPath) (f : Forest) (i : Nat) (n : INode)
    (hi : (colListD f cp).length ≤ i) :
    InsOut cp f (spliceAt f cp i n) := by
  cases cp with
  | nil =>
      rw [spliceAt]
      exact insOut_splice_root f i n hi
  | cons i0 cp' =>
      rw [spliceAt]
      exact insOut_updateAt_at (i0 :: cp') f _ (withChildList_fields _)
        (splice_below f (i0 :: cp') i n (by simp) hi)
        (splice_K f (i0 :: cp') i n (by simp) hi)

lemma insertNewP_model_nil (cfg : Config) (s : TState) (i : Nat) (d : NodeData) :
    (insertNewP cfg s [] i d).1.model
      = markDirty (spliceAt s.model [] i (toINode d)) [min i (colListD s.model []).length] :=
  rfl

lemma insertNewP_model_cons (cfg : Config) (s : TState) (i0 : Nat) (cp' : NPath)
    (i : Nat) (d : NodeData) :
    (insertNewP cfg s (i0 :: cp') i d).1.model
      = markDirty
          (markDirty
            (refreshIndet cfg
              ⟨spliceAt s.model (i0 :: cp') i (toINode d), s.dom, s.events, s.fetches⟩
              (i0 :: cp')).model
            (i0 :: cp'))
          ((i0 :: cp') ++ [min i (colListD s.model (i0 :: cp')).length]) :=
  rfl

lemma insOut_insertNewP (cfg : Config) (s : TState) (cp : NPath) (i : Nat)
    (d : NodeData) (hi : (colListD s.model cp).length ≤ i) :
    InsOut cp s.model (insertNewP cfg s cp i d).1.model := by
  cases cp with
  | nil =>
      rw [insertNewP_model_nil]
      exact InsOut.trans (insOut_spliceAt [] s.model i (toINode d) hi)
        (insOut_markDirty [] _ _)
  | cons i0 cp' =>
      rw [insertNewP_model_cons]
      refine InsOut.trans (insOut_spliceAt (i0 :: cp') s.model i (toINode d) hi)
        (InsOut.trans (insOut_refreshIndet cfg
          ⟨spliceAt s.model (i0 :: cp') i (toINode d), s.dom, s.events, s.fetches⟩
          (i0 :: cp') (i0 :: cp'))
          (InsOut.trans (insOut_markDirty (i0 :: cp') (i0 :: cp') _)
            (insOut_markDirty (i0 :: cp') _ _)))

lemma insertAtP_merge_eq (cfg : Config) (s : TState) (cp : NPath) (i : Nat)
    (di : Option String) (dt : String) (dc : Option (Option (List NodeData)))
    (rel : NPath) (hid : idTruthy di = true)
    (hfind : findIdL (di.getD "") (colListD s.model cp) 0 = some rel) :
    insertAtP cfg s cp i (NodeData.mk di dt dc)
      = (applyChangesT (markDirtyT
          (match dc with
           | some (some ds) =>
               insertChildren cfg
                 (ensureChildrenT (restoreShow s (cp ++ rel)) (cp ++ rel)) (cp ++ rel) ds
           | some none =>
               if childrenBoolAt (restoreShow s (cp ++ rel)).model (cp ++ rel)
               then setSentinelT (restoreShow s (cp ++ rel)) (cp ++ rel)
               else restoreShow s (cp ++ rel)
           | none => restoreShow s (cp ++ rel))
          (cp ++ rel)), cp ++ rel) := by
  rw [insertAtP, if_pos hid, hfind]

lemma insertAtP_new_eq_noid (cfg : Config) (s : TState) (cp : NPath) (i : Nat)
    (di : Option String) (dt : String) (dc : Option (Option (List NodeData)))
    (hid : idTruthy di = false) :
    insertAtP cfg s cp i (NodeData.mk di dt dc)
      = insertNewP cfg s cp i (NodeData.mk di dt dc) := by
  rw [insertAtP, if_neg (by rw [hid]; simp)]

lemma insertAtP_new_eq_nofind (cfg : Config) (s : TState) (cp : NPath) (i : Nat)
    (di : Option String) (dt : String) (dc : Option (Option (List NodeData)))
    (hid : idTruthy di = true)
    (hfind : findIdL (di.getD "") (colListD s.model cp) 0 = none) :
    insertAtP cfg s cp i (NodeData.mk di dt dc)
      = insertNewP cfg s cp i (NodeData.mk di dt dc) := by
  rw [insertAtP, if_pos hid, hfind]

lemma append_ne_of_ne_nil {cp rel : NPath} (h : rel ≠ []) : cp ++ rel ≠ cp := by
  intro hc
  have hlen := congrArg List.length hc
  rw [List.length_append] at hlen
  have h0 : rel.length = 0 := by omega
  exact h (List.length_eq_zero.mp h0)

lemma insMain (cfg : Config) : ∀ (K : Nat),
    (∀ (d : NodeData), sizeOf d ≤ K → ∀ (s : TState) (cp : NPath) (i : Nat),
      (colListD s.model cp).length ≤ i →
      InsOut cp s.model (insertAtP cfg s cp i d).1.model) ∧
    (∀ (ds : List NodeData), sizeOf ds ≤ K → ∀ (s : TState) (q : NPath),
      InsOut q s.model (insertChildren cfg s q ds).model) := by
  intro K
  induction K with
  | zero =>
      constructor
      · intro d hd
        exfalso
        cases d with
        | mk di dt dc =>
            simp only [NodeData.mk.sizeOf_spec] at hd
            omega
      · intro ds hds s q
        cases ds with
        | nil => rw [insertChildren]; exact insOutRefl q s.model
        | cons c cs =>
            exfalso
            simp only [List.cons.sizeOf_spec] at hds
            omega
  | succ K ih =>
      obtain ⟨ihD, ihL⟩ := ih
      constructor
      · intro d hd s cp i hi
        cases d with
        | mk di dt dc =>
            by_cases hid : idTruthy di = true
            · cases hfind : findIdL (di.getD "") (colListD s.model cp) 0 with
              | none =>
                  rw [insertAtP_new_eq_nofind cfg s cp i di dt dc hid hfind]
                  exact insOut_insertNewP cfg s cp i _ hi
              | some rel =>
                  rw [insertAtP_merge_eq cfg s cp i di dt dc rel hid hfind]
                  obtain ⟨hrel, m, hm, hmid⟩ := findCol_sound s.model cp _ rel hfind
                  have hin : cp <+: cp ++ rel := ⟨rel, rfl⟩
                  have hne : cp ++ rel ≠ cp := append_ne_of_ne_nil hrel
                  have h2 : InsOut cp s.model (restoreShow s (cp ++ rel)).model := by
                    rw [restoreShow]
                    exact InsOut.trans
                      (insOut_bsc cp s (cp ++ rel) "removed" false "restored" hin hne)
                      (insOut_bsc cp _ (cp ++ rel) "hidden" false "shown" hin hne)
                  have h3 : InsOut cp s.model
                      (match dc with
                       | some (some ds) =>
                           insertChildren cfg
                             (ensureChildrenT (restoreShow s (cp ++ rel)) (cp ++ rel))
                             (cp ++ rel) ds
                       | some none =>
                           if childrenBoolAt (restoreShow s (cp ++ rel)).model (cp ++ rel)
                           then setSentinelT (restoreShow s (cp ++ rel)) (cp ++ rel)
                           else restoreShow s (cp ++ rel)
                       | none => restoreShow s (cp ++ rel)).model := by
                    match dc with
                    | some (some ds) =>
                        have hsz : sizeOf ds ≤ K := by
                          simp only [NodeData.mk.sizeOf_spec, Option.some.sizeOf_spec] at hd
                          omega
                        have hE : InsOut cp (restoreShow s (cp ++ rel)).model
                            (ensureChildrenT (restoreShow s (cp ++ rel))
                              (cp ++ rel)).model := by
                          rw [show (ensureChildrenT (restoreShow s (cp ++ rel))
                              (cp ++ rel)).model
                              = updateAt (restoreShow s (cp ++ rel)).model (cp ++ rel)
                                INode.ensureChildList from rfl]
                          exact insOut_ensure cp (cp ++ rel) _ hin hne
                        have hF := (InsOut.lift (ihL ds hsz
                          (ensureChildrenT (restoreShow s (cp ++ rel)) (cp ++ rel))
                          (cp ++ rel)) hin hne).1
                        exact InsOut.trans h2 (InsOut.trans hE hF)
                    | some none =>
                        by_cases hbool : childrenBoolAt (restoreShow s (cp ++ rel)).model
                            (cp ++ rel) = true
                        · rw [if_pos hbool]
                          refine InsOut.trans h2 ?_
                          rw [show (setSentinelT (restoreShow s (cp ++ rel))
                              (cp ++ rel)).model
                              = updateAt (restoreShow s (cp ++ rel)).model (cp ++ rel)
                                INode.setChildrenSentinel from rfl]
                          exact insOut_sentinel cp (cp ++ rel) _ hin hne hbool
                        · rw [if_neg hbool]
                          exact h2
                    | none => exact h2
                  refine InsOut.trans h3 ?_
                  show InsOut cp _ (markDirty _ (cp ++ rel))
                  exact insOut_markDirty cp (cp ++ rel) _
            · rw [insertAtP_new_eq_noid cfg s cp i di dt dc
                (Bool.not_eq_true _ |>.mp hid)]
              exact insOut_insertNewP cfg s cp i _ hi
      · intro ds hds s q
        cases ds with
        | nil => rw [insertChildren]; exact insOutRefl q s.model
        | cons c cs =>
            rw [insertChildren]
            have hszc : sizeOf c ≤ K := by
              simp only [List.cons.sizeOf_spec] at hds
              omega
            have hszcs : sizeOf cs ≤ K := by
              simp only [List.cons.sizeOf_spec] at hds
              omega
            exact InsOut.trans (ihD c hszc s q (colListD s.model q).length le_rfl)
              (ihL cs hszcs _ q)

lemma markDirty_colIds (f : Forest) (p : NPath) (r : NPath) :
    colIdsD (markDirty f p) r = colIdsD f r :=
  colIdsD_eq_of_obs f _ r (markDirty_shapeAt f p r) (markDirty_isSome f p r)
    (fun k => idAt_eq_of_fieldsAt (markDirty_fieldsAt f p (r ++ [k])))

lemma baseStateChange_colIds (s : TState) (q0 : NPath) (prop : String) (v : Bool)
    (verb : String) (r : NPath) :
    colIdsD (baseStateChange s q0 prop v verb).model r = colIdsD s.model r :=
  colIdsD_eq_of_obs s.model _ r (baseStateChange_shapeAt s q0 prop v verb r)
    (baseStateChange_isSome s q0 prop v verb r)
    (fun k => baseStateChange_idAt s q0 prop v verb (r ++ [k]))

lemma colIdsD_updateAt_outside (g : INode → INode)
    (hfields : ∀ n, (g n).id = n.id ∧ (g n).text = n.text ∧ (g n).state = n.state)
    (p : NPath) (f : Forest) (r : NPath) (hr : ¬ p <+: r) :
    colIdsD (updateAt f p g) r = colIdsD f r := by
  refine colIdsD_eq_of_obs f _ r
    (shapeAt_updateAt_outside g p f r hr)
    (isSome_updateAt_outside g p f r (Or.inl hr))
    (fun k => ?_)
  refine idAt_eq_of_fieldsAt (fieldsAt_updateAt_outside g hfields p f (r ++ [k]) ?_)
  by_cases hqk : p <+: r ++ [k]
  · rcases prefix_append_one hqk with h2 | h2
    · exact absurd h2 hr
    · exact Or.inr h2.symm
  · exact Or.inl hqk

lemma baseStateChange_flag_self (s : TState) (a : NPath) (prop : String) (v : Bool)
    (verb : String) (n : INode) (hget : getNode s.model a = some n) :
    flagBAt (baseStateChange s a prop v verb).model a prop = some v := by
  rw [baseStateChange, hget]
  dsimp only
  split
  · have hmodel : (applyChangesT (markDirtyT ({ stateSetT s a prop v with
        events := (stateSetT s a prop v).events ++ [Event.verb verb n.id] }) a)).model
        = markDirty (stateSet s.model a prop v).1 a := rfl
    rw [hmodel, flagBAt_eq_flagAt, markDirty_flagAt,
      stateSet_flagAt_self s.model a prop v n hget]
    rfl
  · rename_i hcond
    simp only [ne_eq, Decidable.not_not] at hcond
    rw [flagBAt, hget]
    simp only [Option.map_some', Option.some.injEq]
    rw [INode.stateB, hcond]
    rfl

lemma baseStateChange_flagAt_other_name (s : TState) (q0 : NPath) (prop : String)
    (v : Bool) (verb : String) (r : NPath) (name : String) (hne : name ≠ prop) :
    flagAt (baseStateChange s q0 prop v verb).model r name = flagAt s.model r name := by
  rcases baseStateChange_model_cases s q0 prop v verb with h | h
  · rw [h]
  · rw [h, flagAt_eq_fieldsAt, markDirty_fieldsAt, ← flagAt_eq_fieldsAt,
      stateSet_flagAt_other s.model q0 prop v name hne r]

lemma ensure_colIds_self (f : Forest) (i0 : Nat) (cp' : NPath) :
    colIdsD (updateAt f (i0 :: cp') INode.ensureChildList) (i0 :: cp')
      = colIdsD f (i0 :: cp') := by
  rw [colIdsD, colIdsD, colListD, colListD, getNode_updateAt_self_any]
  cases hg : getNode f (i0 :: cp') with
  | none => simp
  | some m =>
      simp only [Option.map_some', Option.some_bind]
      cases hcl : m.childList with
      | none =>
          have hE : m.ensureChildList.childList = some [] := by
            cases m with
            | mk mi mt ms md mc =>
                rw [INode.childList] at hcl
                match mc, hcl with
                | none, _ => rfl
                | some none, _ => rfl
          rw [hE]
          rfl
      | some l =>
          rw [INode.ensureChildList_of_arrayLike hcl, hcl]

lemma merge_s3_bundle (cfg : Config) (RS : TState) (cp q : NPath)
    (dc : Option (Option (List NodeData)))
    (hin : cp <+: q) (hne : q ≠ cp) (hqS : (getNode RS.model q).isSome = true) :
    (∀ name, name ≠ "indeterminate" → name ≠ "selected" →
       flagAt (match dc with
         | some (some ds) => insertChildren cfg (ensureChildrenT RS q) q ds
         | some none => if childrenBoolAt RS.model q then setSentinelT RS q else RS
         | none => RS).model q name = flagAt RS.model q name) ∧
    ((getNode (match dc with
         | some (some ds) => insertChildren cfg (ensureChildrenT RS q) q ds
         | some none => if childrenBoolAt RS.model q then setSentinelT RS q else RS
         | none => RS).model q).isSome = true) ∧
    textAt (match dc with
         | some (some ds) => insertChildren cfg (ensureChildrenT RS q) q ds
         | some none => if childrenBoolAt RS.model q then setSentinelT RS q else RS
         | none => RS).model q = textAt RS.model q ∧
    idAt (match dc with
         | some (some ds) => insertChildren cfg (ensureChildrenT RS q) q ds
         | some none => if childrenBoolAt RS.model q then setSentinelT RS q else RS
         | none => RS).model q = idAt RS.model q ∧
    colIdsD (match dc with
         | some (some ds) => insertChildren cfg (ensureChildrenT RS q) q ds
         | some none => if childrenBoolAt RS.model q then setSentinelT RS q else RS
         | none => RS).model cp = colIdsD RS.model cp ∧
    colIdsD RS.model q <+: colIdsD (match dc with
         | some (some ds) => insertChildren cfg (ensureChildrenT RS q) q ds
         | some none => if childrenBoolAt RS.model q then setSentinelT RS q else RS
         | none => RS).model q := by
  have hq0 : q ≠ [] := ne_nil_of_strict_in hin hne
  have hnq : ¬ q <+: cp := not_prefix_of_strict hin hne
  match dc with
  | none =>
      exact ⟨fun _ _ _ => rfl, hqS, rfl, rfl, rfl, List.prefix_refl _⟩
  | some none =>
      by_cases hbool : childrenBoolAt RS.model q = true
      · rw [if_pos hbool]
        have hmodel : (setSentinelT RS q).model
            = updateAt RS.model q INode.setChildrenSentinel := rfl
        refine ⟨?_, ?_, ?_, ?_, ?_, ?_⟩
        · intro name _ _
          rw [hmodel]
          exact flagAt_eq_of_fieldsAt
            (fieldsAt_updateAt_self _ INode.setChildrenSentinel_fields _ q) name
        · rw [hmodel, isSome_updateAt_outside _ q RS.model q (Or.inr rfl)]
          exact hqS
        · rw [hmodel]
          exact textAt_eq_of_fieldsAt
            (fieldsAt_updateAt_self _ INode.setChildrenSentinel_fields _ q)
        · rw [hmodel]
          exact idAt_eq_of_fieldsAt
            (fieldsAt_updateAt_self _ INode.setChildrenSentinel_fields _ q)
        · rw [hmodel]
          exact colIdsD_updateAt_outside _ INode.setChildrenSentinel_fields q RS.model cp hnq
        · rw [hmodel]
          have hbools := hbool
          rw [childrenBoolAt] at hbools
          obtain ⟨m, hm⟩ := Option.isSome_iff_exists.mp hqS
          rw [hm] at hbools
          simp only [Option.map_some', Option.getD_some] at hbools
          have hclm : m.childList = none := by
            rw [INode.childrenBool] at hbools
            rw [INode.childList]
            cases hc : m.children with
            | none => rfl
            | some o =>
                rw [hc] at hbools
                cases o with
                | none => rfl
                | some l => simp at hbools
          match q, hq0 with
          | i0 :: q', _ =>
              rw [colIdsD, colIdsD, colListD, colListD, getNode_updateAt_self_any,
                hm, Option.some_bind, hclm, Option.map_some', Option.some_bind]
              have hsent : m.setChildrenSentinel.childList = none := by
                cases m; rfl
              rw [hsent]
      · rw [if_neg hbool]
        exact ⟨fun _ _ _ => rfl, hqS, rfl, rfl, rfl, List.prefix_refl _⟩
  | some (some ds) =>
      have hEC : (ensureChildrenT RS q).model
          = updateAt RS.model q INode.ensureChildList := rfl
      have hECfl : ∀ name, flagAt (ensureChildrenT RS q).model q name
          = flagAt RS.model q name := by
        intro name
        rw [hEC]
        exact flagAt_eq_of_fieldsAt
          (fieldsAt_updateAt_self _ INode.ensureChildList_fields _ q) name
      have hECS : (getNode (ensureChildrenT RS q).model q).isSome = true := by
        rw [hEC, isSome_updateAt_outside _ q RS.model q (Or.inr rfl)]
        exact hqS
      obtain ⟨hJ1, hJ2, hJ3, hJ4, hJ5, hK⟩ :=
        (insMain cfg (sizeOf ds)).2 ds le_rfl (ensureChildrenT RS q) q
      have hlift : colIdsD (insertChildren cfg (ensureChildrenT RS q) q ds).model cp
          = colIdsD (ensureChildrenT RS q).model cp := by
        refine hJ1 cp hnq
      refine ⟨?_, ?_, ?_, ?_, ?_, ?_⟩
      · intro name hn1 hn2
        rw [hJ2 q name hn1 hn2 (Or.inr rfl), hECfl name]
      · exact hJ3 q hECS
      · rw [hJ4 q hECS, hEC]
        exact textAt_eq_of_fieldsAt
          (fieldsAt_updateAt_self _ INode.ensureChildList_fields _ q)
      · rw [hJ5 q hECS, hEC]
        exact idAt_eq_of_fieldsAt
          (fieldsAt_updateAt_self _ INode.ensureChildList_fields _ q)
      · rw [hlift, hEC]
        exact colIdsD_updateAt_outside _ INode.ensureChildList_fields q RS.model cp hnq
      · have hEq : colIdsD (ensureChildrenT RS q).model q = colIdsD RS.model q := by
          rw [hEC]
          match q, hq0 with
          | i0 :: q', _ => exact ensure_colIds_self RS.model i0 q'
        rw [← hEq]
        exact hK

lemma insert_merge_facts (cfg : Config) (s : TState) (cp : NPath) (i : Nat)
    (di : Option String) (dt : String) (dc : Option (Option (List NodeData)))
    (rel : NPath) (hid : idTruthy di = true)
    (hfind : findIdL (di.getD "") (colListD s.model cp) 0 = some rel) :
    (insertAtP cfg s cp i (NodeData.mk di dt dc)).2 = cp ++ rel ∧
    colIdsD (insertAtP cfg s cp i (NodeData.mk di dt dc)).1.model cp
      = colIdsD s.model cp ∧
    flagBAt (insertAtP cfg s cp i (NodeData.mk di dt dc)).1.model (cp ++ rel) "removed"
      = some false ∧
    flagBAt (insertAtP cfg s cp i (NodeData.mk di dt dc)).1.model (cp ++ rel) "hidden"
      = some false ∧
    dirtyAt (insertAtP cfg s cp i (NodeData.mk di dt dc)).1.model (cp ++ rel)
      = some true ∧
    textAt (insertAtP cfg s cp i (NodeData.mk di dt dc)).1.model (cp ++ rel)
      = textAt s.model (cp ++ rel) ∧
    idAt (insertAtP cfg s cp i (NodeData.mk di dt dc)).1.model (cp ++ rel)
      = some (di.getD "") ∧
    colIdsD s.model (cp ++ rel)
      <+: colIdsD (insertAtP cfg s cp i (NodeData.mk di dt dc)).1.model (cp ++ rel) := by
  obtain ⟨hrel, m, hm, hmid⟩ := findCol_sound s.model cp _ rel hfind
  have hin : cp <+: cp ++ rel := ⟨rel, rfl⟩
  have hne : cp ++ rel ≠ cp := append_ne_of_ne_nil hrel
  rw [insertAtP_merge_eq cfg s cp i di dt dc rel hid hfind]
  have hfst : ∀ (t : TState) (p : NPath),
      ((applyChangesT (markDirtyT t p), p) : TState × NPath).1.model
        = markDirty t.model p := fun _ _ => rfl
  have hsnd : ∀ (t : TState) (p : NPath),
      ((applyChangesT (markDirtyT t p), p) : TState × NPath).2 = p := fun _ _ => rfl
  rw [hfst, hsnd]
  have hRS_S : (getNode (restoreShow s (cp ++ rel)).model (cp ++ rel)).isSome
      = true := by
    rw [restoreShow, baseStateChange_isSome, baseStateChange_isSome, hm]
    rfl
  obtain ⟨bfl, bS, btx, bid, bcol, bpre⟩ :=
    merge_s3_bundle cfg (restoreShow s (cp ++ rel)) cp (cp ++ rel) dc hin hne hRS_S
  have hRS_rem : flagBAt (restoreShow s (cp ++ rel)).model (cp ++ rel) "removed"
      = some false := by
    rw [restoreShow, flagBAt_eq_flagAt,
      baseStateChange_flagAt_other_name _ _ "hidden" false "shown" _ "removed"
        (by decide),
      ← flagBAt_eq_flagAt]
    exact baseStateChange_flag_self s (cp ++ rel) "removed" false "restored" m hm
  have hRS_hid : flagBAt (restoreShow s (cp ++ rel)).model (cp ++ rel) "hidden"
      = some false := by
    have hS1 : (getNode (baseStateChange s (cp ++ rel) "removed" false
        "restored").model (cp ++ rel)).isSome = true := by
      rw [baseStateChange_isSome, hm]
      rfl
    obtain ⟨m1, hm1⟩ := Option.isSome_iff_exists.mp hS1
    rw [restoreShow]
    exact baseStateChange_flag_self _ (cp ++ rel) "hidden" false "shown" m1 hm1
  have hRS_tx : textAt (restoreShow s (cp ++ rel)).model (cp ++ rel)
      = textAt s.model (cp ++ rel) := by
    rw [restoreShow, baseStateChange_textAt, baseStateChange_textAt]
  have hRS_id : idAt (restoreShow s (cp ++ rel)).model (cp ++ rel)
      = idAt s.model (cp ++ rel) := by
    rw [restoreShow, baseStateChange_idAt, baseStateChange_idAt]
  have hRS_colcp : colIdsD (restoreShow s (cp ++ rel)).model cp
      = colIdsD s.model cp := by
    rw [restoreShow, baseStateChange_colIds, baseStateChange_colIds]
  have hRS_colq : colIdsD (restoreShow s (cp ++ rel)).model (cp ++ rel)
      = colIdsD s.model (cp ++ rel) := by
    rw [restoreShow, baseStateChange_colIds, baseStateChange_colIds]
  refine ⟨rfl, ?_, ?_, ?_, ?_, ?_, ?_, ?_⟩
  · rw [markDirty_colIds, bcol, hRS_colcp]
  · rw [flagBAt_eq_flagAt, markDirty_flagAt,
      bfl "removed" (by decide) (by decide), ← flagBAt_eq_flagAt, hRS_rem]
  · rw [flagBAt_eq_flagAt, markDirty_flagAt,
      bfl "hidden" (by decide) (by decide), ← flagBAt_eq_flagAt, hRS_hid]
  · exact markDirty_dirtyAt_self _ _ bS
  · rw [textAt_eq_fieldsAt, markDirty_fieldsAt, ← textAt_eq_fieldsAt, btx, hRS_tx]
  · rw [idAt_eq_fieldsAt, markDirty_fieldsAt, ← idAt_eq_fieldsAt, bid, hRS_id,
      idAt, hm, Option.map_some', hmid]
  · rw [markDirty_colIds, ← hRS_colq]
    exact bpre

/-- C4. Corrected: inserting node data whose truthy id is already in the
collection (found by recursive lookup at relative path `rel`) merges
into the existing node instead of inserting — the call returns the
existing node's path, the collection's direct ids (hence its length)
are unchanged so no duplicate id is created, the node is restored and
shown (`removed = false`, `hidden = false`), marked dirty, its children
ids are only extended at the tail (never replaced), and its id is kept
— but its TEXT IS NOT UPDATED: the merge leaves the stored text
unchanged, contradicting the claim's "its text becomes the incoming
text". -/
theorem insertAt_merge_spec (cfg : Config) (s : TState) (cp : NPath) (i : Nat)
    (di : Option String) (dt : String) (dc : Option (Option (List NodeData)))
    (rel : NPath) (hid : idTruthy di = true)
    (hfind : findIdL (di.getD "") (colListD s.model cp) 0 = some rel) :
    (insertAtP cfg s cp i (NodeData.mk di dt dc)).2 = cp ++ rel ∧
    (colListD (insertAtP cfg s cp i (NodeData.mk di dt dc)).1.model cp).length
      = (colListD s.model cp).length ∧
    colIdsD (insertAtP cfg s cp i (NodeData.mk di dt dc)).1.model cp
      = colIdsD s.model cp ∧
    flagBAt (insertAtP cfg s cp i (NodeData.mk di dt dc)).1.model (cp ++ rel) "removed"
      = some false ∧
    flagBAt (insertAtP cfg s cp i (NodeData.mk di dt dc)).1.model (cp ++ rel) "hidden"
      = some false ∧
    dirtyAt (insertAtP cfg s cp i (NodeData.mk di dt dc)).1.model (cp ++ rel)
      = some true ∧
    idAt (insertAtP cfg s cp i (NodeData.mk di dt dc)).1.model (cp ++ rel)
      = some (di.getD "") ∧
    colIdsD s.model (cp ++ rel)
      <+: colIdsD (insertAtP cfg s cp i (NodeData.mk di dt dc)).1.model (cp ++ rel) ∧
    textAt (insertAtP cfg s cp i (NodeData.mk di dt dc)).1.model (cp ++ rel)
      = textAt s.model (cp ++ rel) := by
  obtain ⟨h1, h2, h3, h4, h5, h6, h7, h8⟩ :=
    insert_merge_facts cfg s cp i di dt dc rel hid hfind
  refine ⟨h1, ?_, h2, h3, h4, h5, h7, h8, h6⟩
  have := congrArg List.length h2
  rw [colIdsD, colIdsD, List.length_map, List.length_map] at this
  exact this

/-! ### C4 concrete inputs: scenario B, inserting {id:"2", text:"B2"} -/

def c4C1 : INode := .mk "1" "A" [] false none

def c4C2 : INode := .mk "2" "B" [] false none

def c4WForest : Forest := [c4C1, c4C2]

def c4WState : TState := ⟨c4WForest, ⟨0, 0⟩, [], 0⟩

def c4Cfg : Config := ⟨true, true, false, some true⟩

def c4Data : NodeData := .mk (some "2") "B2" none

/-- C4 counterexample: merging `{id:"2", text:"B2"}` into a collection
already containing id `"2"` leaves the existing node's text `"B"` —
`insertAt`'s merge path never copies the incoming text, so "its text
becomes the incoming text" fails. -/
theorem insertAt_text_counterexample :
    findIdL "2" (colListD c4WState.model []) 0 = some [1] ∧
    textAt c4WState.model [1] = some "B" ∧
    textAt (insertAtP c4Cfg c4WState [] 2 c4Data).1.model [1] = some "B" ∧
    ¬ textAt (insertAtP c4Cfg c4WState [] 2 c4Data).1.model [1] = some "B2" := by
  have hc4 : c4Data = NodeData.mk (some "2") "B2" none := rfl
  rw [hc4]
  have hfacts := insert_merge_facts c4Cfg c4WState [] 2 (some "2") "B2" none [1]
    rfl rfl
  have htx := hfacts.2.2.2.2.2.1
  rw [List.nil_append] at htx
  have htx2 : textAt (insertAtP c4Cfg c4WState [] 2
      (NodeData.mk (some "2") "B2" none)).1.model [1] = some "B" := by
    rw [htx]
    rfl
  exact ⟨rfl, rfl, htx2, by rw [htx2]; decide⟩

/-- Witness for the corrected C4: the theorem applied to scenario B's
concrete collection `[{id:"1"}, {id:"2", text:"B"}]`. -/
theorem insertAt_merge_spec_witness :
    idTruthy (some "2") = true ∧
    colIdsD (insertAtP c4Cfg c4WState [] 2 (NodeData.mk (some "2") "B2" none)).1.model []
      = colIdsD c4WState.model [] :=
  ⟨rfl, (insertAt_merge_spec c4Cfg c4WState [] 2 (some "2") "B2" none [1]
    rfl rfl).2.2.1⟩
